import Mathlib

/-!
# Gizmos: a debug-geometry batch

A shallow embedding of `framework/src/Gizmos.cpp`.

* Scalars (`float`) are an arbitrary type `F` carrying the arithmetic the code
  uses; the embedded functions assume no algebraic law, so they can be run with
  any interpretation of the floating-point operations. Where a statement is
  about the real value of stored numbers, that value is a map `val` from `F`
  into an ordered field.
* `F32` interprets `float` as binary32 rounding (to nearest, ties to even, 24
  bits) on an unbounded exponent range; `ℚ` interprets it as exact arithmetic.
* The process-wide pointer `sm_singleton` and the stream of OpenGL calls form
  the `World`; every static member function is a function on worlds.
* Undefined behaviour (null dereference, out-of-bounds access, division of an
  `int` by zero, `int` overflow, a negative array length) is a `Fault`.
* `unsigned int` counters are natural numbers: the only increments are guarded
  by `count < max`, so they never wrap; products that can wrap are reduced
  modulo `2 ^ 32` explicitly.
-/

namespace Framework

/-! ## Scalars and the glm value types -/

/-- The `<cmath>` functions and the constant `glm::pi<float>()` used by the shape builders. -/
class CMath (F : Type) where
  /-- Single precision sine, `sinf`. -/
  sinf : F → F
  /-- Single precision cosine, `cosf`. -/
  cosf : F → F
  /-- The sine called as `sin` in `addSphere`. -/
  sin : F → F
  /-- The cosine called as `cos` in `addSphere`. -/
  cos : F → F
  /-- The value of `glm::pi<float>()`. -/
  pi : F

/-- The type `glm::vec3`. -/
structure Vec3 (F : Type) where
  x : F
  y : F
  z : F
deriving DecidableEq, Repr

/-- The type `glm::vec4`. -/
structure Vec4 (F : Type) where
  x : F
  y : F
  z : F
  w : F
deriving DecidableEq, Repr

/-- The type `glm::mat4`, stored by columns: `m[i]` is `ci`. -/
structure Mat4 (F : Type) where
  c0 : Vec4 F
  c1 : Vec4 F
  c2 : Vec4 F
  c3 : Vec4 F
deriving DecidableEq, Repr

section glm

variable {F : Type}

/-- The swizzle `.xyz` of a `vec4`. -/
def Vec4.xyz (v : Vec4 F) : Vec3 F := ⟨v.x, v.y, v.z⟩

/-- The constructor `glm::vec4(v, w)` from a `vec3` and a scalar. -/
def vec4 (v : Vec3 F) (w : F) : Vec4 F := ⟨v.x, v.y, v.z, w⟩

/-- Component-wise `vec3 + vec3`. -/
def Vec3.add [Add F] (a b : Vec3 F) : Vec3 F := ⟨a.x + b.x, a.y + b.y, a.z + b.z⟩

/-- Component-wise `vec3 - vec3`. -/
def Vec3.sub [Sub F] (a b : Vec3 F) : Vec3 F := ⟨a.x - b.x, a.y - b.y, a.z - b.z⟩

/-- Component-wise `vec4 + vec4`. -/
def Vec4.add [Add F] (a b : Vec4 F) : Vec4 F := ⟨a.x + b.x, a.y + b.y, a.z + b.z, a.w + b.w⟩

/-- The product `vec4 * scalar`. -/
def Vec4.smul [Mul F] (a : Vec4 F) (s : F) : Vec4 F := ⟨a.x * s, a.y * s, a.z * s, a.w * s⟩

instance [Add F] : Add (Vec3 F) := ⟨Vec3.add⟩
instance [Sub F] : Sub (Vec3 F) := ⟨Vec3.sub⟩
instance [Add F] : Add (Vec4 F) := ⟨Vec4.add⟩

/-- The product `mat4 * vec4` as glm computes it:
`(m[0] * v.x + m[1] * v.y) + (m[2] * v.z + m[3] * v.w)`. -/
def Mat4.mulVec [Add F] [Mul F] (m : Mat4 F) (v : Vec4 F) : Vec4 F :=
  (m.c0.smul v.x + m.c1.smul v.y) + (m.c2.smul v.z + m.c3.smul v.w)

end glm

/-! ## Records and the batch -/

/-- A vertex: homogeneous position and RGBA colour (`GizmoVertex`, 32 bytes). -/
structure GizmoVertex (F : Type) where
  position : Vec4 F
  colour : Vec4 F
deriving DecidableEq, Repr

/-- A line record (`GizmoLine`, 64 bytes). -/
structure GizmoLine (F : Type) where
  v0 : GizmoVertex F
  v1 : GizmoVertex F
deriving DecidableEq, Repr

/-- A triangle record (`GizmoTri`, 96 bytes). -/
structure GizmoTri (F : Type) where
  v0 : GizmoVertex F
  v1 : GizmoVertex F
  v2 : GizmoVertex F
deriving DecidableEq, Repr

/-- The value of `sizeof(GizmoVertex)`. -/
def sizeofGizmoVertex : Nat := 32

/-- The value of `sizeof(GizmoLine)`. -/
def sizeofGizmoLine : Nat := 64

/-- The value of `sizeof(GizmoTri)`. -/
def sizeofGizmoTri : Nat := 96

/-- The ways a call can leave defined behaviour. -/
inductive Fault where
  | nullDeref
  | outOfBounds
  | divByZero
  | intOverflow
  | badArrayLength
deriving DecidableEq, Repr

/-- The two shader stages the constructor compiles. -/
inductive ShaderKind where
  | vertex
  | fragment
deriving DecidableEq, Repr

/-- The names bound in the shader program. -/
inductive GLName where
  | Position
  | Colour
  | ProjectionView
deriving DecidableEq, Repr

/-- The primitive modes passed to `glDrawArrays`. -/
inductive DrawMode where
  | lines
  | triangles
deriving DecidableEq, Repr

/-- The data handed to a buffer upload. -/
inductive Payload (F : Type) where
  | lineData (recs : List (GizmoLine F))
  | triData (recs : List (GizmoTri F))
deriving DecidableEq, Repr

/-- One call into the OpenGL API, with the arguments the code passes. -/
inductive GLCall (F : Type) where
  | createShader (kind : ShaderKind)
  | shaderSource (shader : Nat) (kind : ShaderKind)
  | compileShader (shader : Nat)
  | createProgram
  | attachShader (program shader : Nat)
  | bindAttribLocation (program index : Nat) (name : GLName)
  | linkProgram (program : Nat)
  | genBuffers (n : Nat)
  | bindBuffer (buffer : Nat)
  | bufferData (bytes : Nat) (data : Payload F)
  | genVertexArrays (n : Nat)
  | bindVertexArray (vao : Nat)
  | enableVertexAttribArray (index : Nat)
  | vertexAttribPointer (index size : Nat) (normalized : Bool) (stride offset : Nat)
  | deleteBuffers (buffer : Nat)
  | deleteVertexArrays (vao : Nat)
  | deleteProgram (program : Nat)
  | deleteShader (shader : Nat)
  | useProgram (program : Nat)
  | getUniformLocation (program : Nat) (name : GLName)
  | uniformMatrix4fv (location count : Nat) (transpose : Bool) (value : Mat4 F)
  | bufferSubData (offset bytes : Nat) (data : Payload F)
  | drawArrays (mode : DrawMode) (first count : Nat)
deriving DecidableEq, Repr

/-- The object names the OpenGL driver hands back to the constructor. -/
structure GLHandles where
  vertexShader : Nat
  fragmentShader : Nat
  programID : Nat
  lineVBO : Nat
  triVBO : Nat
  lineVAO : Nat
  triVAO : Nat
deriving DecidableEq, Repr

/-- The members of the class `Gizmos`. -/
structure Gizmos (F : Type) where
  m_maxLines : Nat
  m_maxTris : Nat
  m_lineCount : Nat
  m_triCount : Nat
  m_lines : List (GizmoLine F)
  m_tris : List (GizmoTri F)
  m_vertexShader : Nat
  m_fragmentShader : Nat
  m_programID : Nat
  m_lineVBO : Nat
  m_triVBO : Nat
  m_lineVAO : Nat
  m_triVAO : Nat
deriving DecidableEq, Repr

/-- The global state: the singleton pointer (`none` is `nullptr`) and the OpenGL calls
issued so far, oldest first. -/
structure World (F : Type) where
  sm_singleton : Option (Gizmos F)
  gl : List (GLCall F)
deriving DecidableEq, Repr


/-! ## Lifecycle -/

section lifecycle

variable {F : Type}

/-- The OpenGL calls of the constructor `Gizmos::Gizmos`, in program order; `h` holds the
names the driver returns and the two lists are the freshly allocated buffers. -/
def ctorCalls (a_maxLines a_maxTris : Nat) (h : GLHandles)
    (lines : List (GizmoLine F)) (tris : List (GizmoTri F)) : List (GLCall F) :=
  [ .createShader .vertex,
    .shaderSource h.vertexShader .vertex,
    .compileShader h.vertexShader,
    .createShader .fragment,
    .shaderSource h.fragmentShader .fragment,
    .compileShader h.fragmentShader,
    .createProgram,
    .attachShader h.programID h.vertexShader,
    .attachShader h.programID h.fragmentShader,
    .bindAttribLocation h.programID 0 .Position,
    .bindAttribLocation h.programID 1 .Colour,
    .linkProgram h.programID,
    .genBuffers 1,
    .bindBuffer h.lineVBO,
    .bufferData (a_maxLines * sizeofGizmoLine) (.lineData lines),
    .genBuffers 1,
    .bindBuffer h.triVBO,
    .bufferData (a_maxTris * sizeofGizmoTri) (.triData tris),
    .genVertexArrays 1,
    .bindVertexArray h.lineVAO,
    .bindBuffer h.lineVBO,
    .enableVertexAttribArray 0,
    .enableVertexAttribArray 1,
    .vertexAttribPointer 0 4 false sizeofGizmoVertex 0,
    .vertexAttribPointer 1 4 true sizeofGizmoVertex 16,
    .genVertexArrays 1,
    .bindVertexArray h.triVAO,
    .bindBuffer h.triVBO,
    .enableVertexAttribArray 0,
    .enableVertexAttribArray 1,
    .vertexAttribPointer 0 4 false sizeofGizmoVertex 0,
    .vertexAttribPointer 1 4 true sizeofGizmoVertex 16,
    .bindVertexArray 0,
    .bindBuffer 0 ]

/-- The member initialisers of `Gizmos::Gizmos`: counts are zero and the two arrays hold
`a_maxLines` and `a_maxTris` records whose contents are whatever the allocation holds
(`lineMem i`, `triMem i`). -/
def Gizmos.new (a_maxLines a_maxTris : Nat) (lineMem : Nat → GizmoLine F)
    (triMem : Nat → GizmoTri F) (h : GLHandles) : Gizmos F :=
  { m_maxLines := a_maxLines,
    m_maxTris := a_maxTris,
    m_lineCount := 0,
    m_triCount := 0,
    m_lines := (List.range a_maxLines).map lineMem,
    m_tris := (List.range a_maxTris).map triMem,
    m_vertexShader := h.vertexShader,
    m_fragmentShader := h.fragmentShader,
    m_programID := h.programID,
    m_lineVBO := h.lineVBO,
    m_triVBO := h.triVBO,
    m_lineVAO := h.lineVAO,
    m_triVAO := h.triVAO }

/-- The OpenGL calls of the destructor. -/
def dtorCalls (g : Gizmos F) : List (GLCall F) :=
  [ .deleteBuffers g.m_lineVBO,
    .deleteBuffers g.m_triVBO,
    .deleteVertexArrays g.m_lineVAO,
    .deleteVertexArrays g.m_triVAO,
    .deleteProgram g.m_programID,
    .deleteShader g.m_fragmentShader,
    .deleteShader g.m_vertexShader ]

/-- The function `Gizmos::create`: builds the singleton when there is none. -/
def Gizmos.create (a_maxLines a_maxTris : Nat) (lineMem : Nat → GizmoLine F)
    (triMem : Nat → GizmoTri F) (h : GLHandles) (w : World F) : World F :=
  match w.sm_singleton with
  | none =>
    let g := Gizmos.new a_maxLines a_maxTris lineMem triMem h
    { sm_singleton := some g,
      gl := w.gl ++ ctorCalls a_maxLines a_maxTris h g.m_lines g.m_tris }
  | some _ => w

/-- The function `Gizmos::destroy`: deletes the singleton (deleting `nullptr` does nothing)
and resets the pointer. -/
def Gizmos.destroy (w : World F) : World F :=
  match w.sm_singleton with
  | none => { sm_singleton := none, gl := w.gl }
  | some g => { sm_singleton := none, gl := w.gl ++ dtorCalls g }

/-- The function `Gizmos::clear`: writes both counts through `sm_singleton` without testing
the pointer. -/
def Gizmos.clear (w : World F) : Except Fault (World F) :=
  match w.sm_singleton with
  | none => .error .nullDeref
  | some g => .ok { w with sm_singleton := some { g with m_lineCount := 0, m_triCount := 0 } }

end lifecycle

/-! ## Primitive accumulation -/

section primitives

variable {F : Type}

/-- The function `Gizmos::addLine` with two colours. -/
def Gizmos.addLine [One F] (a_rv0 a_rv1 : Vec3 F) (a_colour0 a_colour1 : Vec4 F)
    (w : World F) : World F :=
  match w.sm_singleton with
  | some g =>
    if g.m_lineCount < g.m_maxLines then
      { w with sm_singleton := some ({ g with
          m_lines := g.m_lines.set g.m_lineCount
            { v0 := { position := vec4 a_rv0 1, colour := a_colour0 },
              v1 := { position := vec4 a_rv1 1, colour := a_colour1 } },
          m_lineCount := g.m_lineCount + 1 }) }
    else w
  | none => w

/-- The overload of `Gizmos::addLine` with one colour. -/
def Gizmos.addLine1 [One F] (a_rv0 a_rv1 : Vec3 F) (a_colour : Vec4 F) (w : World F) : World F :=
  Gizmos.addLine a_rv0 a_rv1 a_colour a_colour w

/-- The function `Gizmos::addTri`. -/
def Gizmos.addTri [One F] (a_rv0 a_rv1 a_rv2 : Vec3 F) (a_colour : Vec4 F)
    (w : World F) : World F :=
  match w.sm_singleton with
  | some g =>
    if g.m_triCount < g.m_maxTris then
      { w with sm_singleton := some ({ g with
          m_tris := g.m_tris.set g.m_triCount
            { v0 := { position := vec4 a_rv0 1, colour := a_colour },
              v1 := { position := vec4 a_rv1 1, colour := a_colour },
              v2 := { position := vec4 a_rv2 1, colour := a_colour } },
          m_triCount := g.m_triCount + 1 }) }
    else w
  | none => w

/-- The function `Gizmos::addTransform`. -/
def Gizmos.addTransform [Zero F] [One F] [Add F] [Mul F] (a_transform : Mat4 F) (a_fScale : F)
    (w : World F) : World F :=
  let vXAxis := a_transform.c3 + a_transform.c0.smul a_fScale
  let vYAxis := a_transform.c3 + a_transform.c1.smul a_fScale
  let vZAxis := a_transform.c3 + a_transform.c2.smul a_fScale
  let vRed : Vec4 F := ⟨1, 0, 0, 1⟩
  let vGreen : Vec4 F := ⟨0, 1, 0, 1⟩
  let vBlue : Vec4 F := ⟨0, 0, 1, 1⟩
  let w := Gizmos.addLine a_transform.c3.xyz vXAxis.xyz vRed vRed w
  let w := Gizmos.addLine a_transform.c3.xyz vYAxis.xyz vGreen vGreen w
  Gizmos.addLine a_transform.c3.xyz vZAxis.xyz vBlue vBlue w

end primitives

/-! ## Shape builders -/

section builders

variable {F : Type}

/-- What a shape builder stores through its optional output parameters: the array
`*vertexData` and the value `*a_vertexCount`, each `none` when nothing was stored. -/
structure VertexOut (F : Type) where
  vertexData : Option (List (Vec3 F))
  a_vertexCount : Option Nat
deriving DecidableEq, Repr

/-- Reduction of an `unsigned int` result modulo `2 ^ 32`. -/
def u32 (n : Nat) : Nat := n % 2 ^ 32

/-- The float literal `0.5f`. -/
def half [One F] [Div F] [NatCast F] : F := 1 / 2

/-- The colour `glm::vec4(1, 1, 1, 1)`. -/
def vWhite [One F] : Vec4 F := ⟨1, 1, 1, 1⟩

/-- The array made by `new glm::vec3[n]`: `n` entries holding whatever the allocation
holds (`heap i`). -/
def newArray (heap : Nat → Vec3 F) (n : Nat) : List (Vec3 F) := (List.range n).map heap

/-- An array store `arr[i] = v`; outside the array it is a fault. -/
def writeAt {α : Type} (arr : List α) (i : Nat) (v : α) : Except Fault (List α) :=
  if i < arr.length then .ok (arr.set i v) else .error .outOfBounds

/-- The prologue shared by the builders with an optional vertex output: when `vertexData` is
non-null an array of `n` entries is allocated and `n` is stored through `a_vertexCount`,
which faults when that pointer is null. -/
def allocOut (heap : Nat → Vec3 F) (vertexData a_vertexCount : Bool) (n : Nat) :
    Except Fault (VertexOut F) :=
  if vertexData then
    if a_vertexCount then .ok { vertexData := some (newArray heap n), a_vertexCount := some n }
    else .error .nullDeref
  else .ok { vertexData := none, a_vertexCount := none }

/-- The function `Gizmos::addBox`. -/
def Gizmos.addBox [Zero F] [One F] [Add F] [Sub F] [Mul F] [Div F] [NatCast F]
    (a_center a_vDimensions : Vec3 F) (a_filled : Bool) (a_fillColour : Vec4 F)
    (a_transform : Mat4 F) (vertexData a_vertexCount : Bool) (w : World F) :
    Except Fault (World F × VertexOut F) :=
  let vX : Vec3 F := ⟨a_vDimensions.x * half, 0, 0⟩
  let vY : Vec3 F := ⟨0, a_vDimensions.y * half, 0⟩
  let vZ : Vec3 F := ⟨0, 0, a_vDimensions.z * half⟩
  let vX := (a_transform.mulVec (vec4 vX 0)).xyz
  let vY := (a_transform.mulVec (vec4 vY 0)).xyz
  let vZ := (a_transform.mulVec (vec4 vZ 0)).xyz
  let v0 := a_center - vX - vZ - vY
  let v1 := a_center - vX + vZ - vY
  let v2 := a_center + vX + vZ - vY
  let v3 := a_center + vX - vZ - vY
  let v4 := a_center - vX - vZ + vY
  let v5 := a_center - vX + vZ + vY
  let v6 := a_center + vX + vZ + vY
  let v7 := a_center + vX - vZ + vY
  if vertexData && !a_vertexCount then .error .nullDeref else
  let out : VertexOut F :=
    if vertexData then
      { vertexData := some [v0, v1, v2, v3, v4, v5, v6, v7], a_vertexCount := some 8 }
    else { vertexData := none, a_vertexCount := none }
  let w := Gizmos.addLine v0 v1 vWhite vWhite w
  let w := Gizmos.addLine v1 v2 vWhite vWhite w
  let w := Gizmos.addLine v2 v3 vWhite vWhite w
  let w := Gizmos.addLine v3 v0 vWhite vWhite w
  let w := Gizmos.addLine v4 v5 vWhite vWhite w
  let w := Gizmos.addLine v5 v6 vWhite vWhite w
  let w := Gizmos.addLine v6 v7 vWhite vWhite w
  let w := Gizmos.addLine v7 v4 vWhite vWhite w
  let w := Gizmos.addLine v0 v4 vWhite vWhite w
  let w := Gizmos.addLine v1 v5 vWhite vWhite w
  let w := Gizmos.addLine v2 v6 vWhite vWhite w
  let w := Gizmos.addLine v3 v7 vWhite vWhite w
  if a_filled then
    let w := Gizmos.addTri v2 v1 v0 a_fillColour w
    let w := Gizmos.addTri v3 v2 v0 a_fillColour w
    let w := Gizmos.addTri v5 v6 v4 a_fillColour w
    let w := Gizmos.addTri v6 v7 v4 a_fillColour w
    let w := Gizmos.addTri v4 v3 v0 a_fillColour w
    let w := Gizmos.addTri v7 v3 v4 a_fillColour w
    let w := Gizmos.addTri v1 v2 v5 a_fillColour w
    let w := Gizmos.addTri v2 v6 v5 a_fillColour w
    let w := Gizmos.addTri v0 v1 v4 a_fillColour w
    let w := Gizmos.addTri v1 v5 v4 a_fillColour w
    let w := Gizmos.addTri v2 v3 v7 a_fillColour w
    let w := Gizmos.addTri v6 v2 v7 a_fillColour w
    .ok (w, out)
  else .ok (w, out)

/-- The twelve stores of one filled iteration of `addCylinder` into `*vertexData`, starting
at `index = i * 12` and advancing by `index += 3`, all in `unsigned int` arithmetic. -/
def cylinderStores (arr : List (Vec3 F)) (i : Nat) (t0 t1 t2 b0 b1 b2 : Vec3 F) :
    Except Fault (List (Vec3 F)) := do
  let index := u32 (i * 12)
  let arr ← writeAt arr index t0
  let arr ← writeAt arr (u32 (index + 1)) t1
  let arr ← writeAt arr (u32 (index + 2)) t2
  let index := u32 (index + 3)
  let arr ← writeAt arr index b0
  let arr ← writeAt arr (u32 (index + 1)) b2
  let arr ← writeAt arr (u32 (index + 2)) b1
  let index := u32 (index + 3)
  let arr ← writeAt arr index t2
  let arr ← writeAt arr (u32 (index + 1)) t1
  let arr ← writeAt arr (u32 (index + 2)) b1
  let index := u32 (index + 3)
  let arr ← writeAt arr index b1
  let arr ← writeAt arr (u32 (index + 1)) b2
  writeAt arr (u32 (index + 2)) t2

/-- The body of the loop of `addCylinder` for segment `i`; the state is the world and the
array behind `*vertexData` (`none` when the pointer is null). -/
def addCylinderStep [Zero F] [One F] [Add F] [Mul F] [Neg F] [NatCast F] [CMath F]
    (a_center : Vec3 F) (a_radius a_fHalfLength : F) (a_filled : Bool) (a_fillColour : Vec4 F)
    (a_transform : Mat4 F) (fSegmentSize : F)
    (st : World F × Option (List (Vec3 F))) (i : Nat) :
    Except Fault (World F × Option (List (Vec3 F))) :=
  let w := st.1
  let v0top : Vec3 F := ⟨0, a_fHalfLength, 0⟩
  let v1top : Vec3 F := ⟨CMath.sinf ((i : F) * fSegmentSize) * a_radius, a_fHalfLength,
    CMath.cosf ((i : F) * fSegmentSize) * a_radius⟩
  let v2top : Vec3 F := ⟨CMath.sinf (((i + 1 : Nat) : F) * fSegmentSize) * a_radius, a_fHalfLength,
    CMath.cosf (((i + 1 : Nat) : F) * fSegmentSize) * a_radius⟩
  let v0bottom : Vec3 F := ⟨0, -a_fHalfLength, 0⟩
  let v1bottom : Vec3 F := ⟨CMath.sinf ((i : F) * fSegmentSize) * a_radius, -a_fHalfLength,
    CMath.cosf ((i : F) * fSegmentSize) * a_radius⟩
  let v2bottom : Vec3 F := ⟨CMath.sinf (((i + 1 : Nat) : F) * fSegmentSize) * a_radius,
    -a_fHalfLength, CMath.cosf (((i + 1 : Nat) : F) * fSegmentSize) * a_radius⟩
  let v0top := (a_transform.mulVec (vec4 v0top 0)).xyz
  let v1top := (a_transform.mulVec (vec4 v1top 0)).xyz
  let v2top := (a_transform.mulVec (vec4 v2top 0)).xyz
  let v0bottom := (a_transform.mulVec (vec4 v0bottom 0)).xyz
  let v1bottom := (a_transform.mulVec (vec4 v1bottom 0)).xyz
  let v2bottom := (a_transform.mulVec (vec4 v2bottom 0)).xyz
  let lines (w : World F) : World F :=
    let w := Gizmos.addLine (a_center + v1top) (a_center + v2top) vWhite vWhite w
    let w := Gizmos.addLine (a_center + v1top) (a_center + v1bottom) vWhite vWhite w
    Gizmos.addLine (a_center + v1bottom) (a_center + v2bottom) vWhite vWhite w
  if a_filled then
    let w := Gizmos.addTri (a_center + v0top) (a_center + v1top) (a_center + v2top) a_fillColour w
    let w := Gizmos.addTri (a_center + v0bottom) (a_center + v2bottom) (a_center + v1bottom)
      a_fillColour w
    let w := Gizmos.addTri (a_center + v2top) (a_center + v1top) (a_center + v1bottom)
      a_fillColour w
    let w := Gizmos.addTri (a_center + v1bottom) (a_center + v2bottom) (a_center + v2top)
      a_fillColour w
    match st.2 with
    | some arr =>
      match cylinderStores arr i (a_center + v0top) (a_center + v1top) (a_center + v2top)
          (a_center + v0bottom) (a_center + v1bottom) (a_center + v2bottom) with
      | .ok arr => .ok (lines w, some arr)
      | .error e => .error e
    | none => .ok (lines w, none)
  else .ok (lines w, st.2)

/-- The function `Gizmos::addCylinder`. -/
def Gizmos.addCylinder [Zero F] [One F] [Add F] [Mul F] [Div F] [Neg F] [NatCast F] [CMath F]
    (heap : Nat → Vec3 F) (a_center : Vec3 F) (a_radius a_fHalfLength : F) (a_segments : Nat)
    (a_filled : Bool) (a_fillColour : Vec4 F) (a_transform : Mat4 F)
    (vertexData a_vertexCount : Bool) (w : World F) : Except Fault (World F × VertexOut F) :=
  let fSegmentSize : F := (2 * CMath.pi) / (a_segments : F)
  match allocOut heap vertexData a_vertexCount (u32 (a_segments * 12)) with
  | .error e => .error e
  | .ok out =>
    match (List.range a_segments).foldlM
        (addCylinderStep a_center a_radius a_fHalfLength a_filled a_fillColour a_transform
          fSegmentSize) (w, out.vertexData) with
    | .error e => .error e
    | .ok st => .ok (st.1, { out with vertexData := st.2 })

/-- The state carried round the loop of `addCircle`: the world, the running edge vector
`v3Edge1` and the array behind `*vertexData` (`none` when the pointer is null). -/
structure CircleState (F : Type) where
  world : World F
  v3Edge1 : Vec4 F
  arr : Option (List (Vec3 F))

/-- The three stores of one filled iteration of `addCircle` into `*vertexData`. -/
def circleStores (arr : List (Vec3 F)) (i : Nat) (p0 p1 p2 : Vec3 F) :
    Except Fault (List (Vec3 F)) := do
  let index := u32 (i * 3)
  let arr ← writeAt arr index p0
  let arr ← writeAt arr (u32 (index + 1)) p1
  writeAt arr (u32 (index + 2)) p2

/-- The body of the loop of `addCircle` for segment `i`. -/
def addCircleStep [Zero F] [One F] [Add F] [Mul F] [NatCast F] [CMath F]
    (a_center : Vec3 F) (a_radius : F) (a_filled : Bool) (a_Colour : Vec4 F)
    (a_transform : Mat4 F) (fAngle : F) (st : CircleState F) (i : Nat) :
    Except Fault (CircleState F) :=
  let v3Edge2 : Vec4 F := ⟨CMath.sinf (((i + 1 : Nat) : F) * fAngle) * a_radius, 0,
    CMath.cosf (((i + 1 : Nat) : F) * fAngle) * a_radius, 0⟩
  let v3Edge1 := a_transform.mulVec st.v3Edge1
  let v3Edge2 := a_transform.mulVec v3Edge2
  if a_filled then
    let w := Gizmos.addTri a_center v3Edge1.xyz (a_center + v3Edge2.xyz) a_Colour st.world
    let w := Gizmos.addTri (a_center + v3Edge2.xyz) (a_center + v3Edge1.xyz) a_center a_Colour w
    match st.arr with
    | some arr =>
      match circleStores arr i a_center v3Edge1.xyz (a_center + v3Edge2.xyz) with
      | .ok arr => .ok { world := w, v3Edge1 := v3Edge2, arr := some arr }
      | .error e => .error e
    | none => .ok { world := w, v3Edge1 := v3Edge2, arr := none }
  else
    let w := Gizmos.addLine1 (a_center + v3Edge1.xyz) (a_center + v3Edge2.xyz) a_Colour st.world
    .ok { world := w, v3Edge1 := v3Edge2, arr := st.arr }

/-- The function `Gizmos::addCircle`. -/
def Gizmos.addCircle [Zero F] [One F] [Add F] [Mul F] [Div F] [NatCast F] [CMath F]
    (heap : Nat → Vec3 F) (a_center : Vec3 F) (a_radius : F) (a_segments : Nat)
    (a_filled : Bool) (a_Colour : Vec4 F) (a_transform : Mat4 F)
    (vertexData a_vertexCount : Bool) (w : World F) : Except Fault (World F × VertexOut F) :=
  let fAngle : F := (2 * CMath.pi) / (a_segments : F)
  let v3Edge1 : Vec4 F := ⟨0, 0, a_radius, 0⟩
  match allocOut heap vertexData a_vertexCount (u32 (a_segments * 3)) with
  | .error e => .error e
  | .ok out =>
    match (List.range a_segments).foldlM
        (addCircleStep a_center a_radius a_filled a_Colour a_transform fAngle)
        { world := w, v3Edge1 := v3Edge1, arr := out.vertexData } with
    | .error e => .error e
    | .ok st => .ok (st.world, { out with vertexData := st.arr })

/-- Whether an `int` result is representable in 32 bits. -/
def inInt (z : Int) : Bool := decide (-(2 : Int) ^ 31 ≤ z) && decide (z < (2 : Int) ^ 31)

/-- An array load `arr[i]` with an `int` index; outside the array it is a fault. -/
def readAt {α : Type} (arr : List α) (i : Int) : Except Fault α :=
  if i < 0 then .error .outOfBounds
  else match arr.get? i.toNat with
    | some v => .ok v
    | none => .error .outOfBounds

/-- The body of the inner loop of `addSphere` (grid position `row`, `col`): computes the
point and stores it at `row * a_columns + (col % a_columns)`. -/
def sphereFillStep [Add F] [Mul F] [Neg F] [Zero F] [IntCast F] [CMath F]
    (a_center : Vec3 F) (a_columns : Int) (a_transform : Option (Mat4 F))
    (a_longMin invColumns longitudinalRange DEG2RAD y z : F) (row : Int)
    (v4Array : List (Vec3 F)) (col : Nat) : Except Fault (List (Vec3 F)) :=
  let ratioAroundYAxis : F := ((col : Int) : F) * invColumns
  let theta : F := ratioAroundYAxis * longitudinalRange + (a_longMin * DEG2RAD)
  let v4Point : Vec3 F := ⟨-z * CMath.sinf theta, y, -z * CMath.cosf theta⟩
  let v4Point : Vec3 F :=
    match a_transform with
    | some t => (t.mulVec (vec4 v4Point 0)).xyz
    | none => v4Point
  if a_columns = 0 then .error .divByZero else
  let index : Int := row * a_columns + (Int.tmod (col : Int) a_columns)
  if index < 0 then .error .outOfBounds else
  writeAt v4Array index.toNat (a_center + v4Point)

/-- The body of the outer loop of `addSphere` (grid row `row`); the inner loop runs `col`
from `0` to `a_columns` inclusive, and its last increment must stay an `int`. -/
def sphereRowStep [Add F] [Mul F] [Neg F] [Zero F] [IntCast F] [CMath F]
    (a_center : Vec3 F) (a_columns : Int) (a_radius : F) (a_transform : Option (Mat4 F))
    (a_longMin a_latMin invColumns invRows latitiudinalRange longitudinalRange DEG2RAD : F)
    (v4Array : List (Vec3 F)) (row : Nat) : Except Fault (List (Vec3 F)) :=
  let ratioAroundXAxis : F := ((row : Int) : F) * invRows
  let radiansAboutXAxis : F := ratioAroundXAxis * latitiudinalRange + (a_latMin * DEG2RAD)
  let y : F := a_radius * CMath.sin radiansAboutXAxis
  let z : F := a_radius * CMath.cos radiansAboutXAxis
  if 0 ≤ a_columns && !inInt (a_columns + 1) then .error .intOverflow else
  (List.range (a_columns + 1).toNat).foldlM
    (sphereFillStep a_center a_columns a_transform a_longMin invColumns longitudinalRange
      DEG2RAD y z row) v4Array

/-- The body of the face loop of `addSphere`. -/
def sphereFaceStep [One F] [Mul F] [NatCast F] [LT F] [DecidableRel (fun a b : F => a < b)]
    [CMath F] (a_columns : Int) (a_fillColour : Vec4 F) (longitudinalRange : F)
    (v4Array : List (Vec3 F)) (w : World F) (face : Nat) : Except Fault (World F) := do
  let face : Int := face
  let iNextFace : Int := face + 1
  let iNextFace : Int := if Int.tmod iNextFace a_columns = 0 then iNextFace - a_columns
    else iNextFace
  let p0 ← readAt v4Array face
  let p1 ← readAt v4Array (face + a_columns)
  let w := Gizmos.addLine p0 p1 vWhite vWhite w
  if Int.tmod face a_columns = 0 ∧ longitudinalRange < CMath.pi * 2 then
    return w
  let q0 ← readAt v4Array (iNextFace + a_columns)
  let q1 ← readAt v4Array (face + a_columns)
  let w := Gizmos.addLine q0 q1 vWhite vWhite w
  let t0 ← readAt v4Array (iNextFace + a_columns)
  let t1 ← readAt v4Array face
  let t2 ← readAt v4Array iNextFace
  let w := Gizmos.addTri t0 t1 t2 a_fillColour w
  let u0 ← readAt v4Array (iNextFace + a_columns)
  let u1 ← readAt v4Array (face + a_columns)
  let u2 ← readAt v4Array face
  return Gizmos.addTri u0 u1 u2 a_fillColour w

/-- The function `Gizmos::addSphere`; `a_transform` is `none` for a null pointer. -/
def Gizmos.addSphere [Zero F] [One F] [Add F] [Sub F] [Mul F] [Div F] [Neg F] [NatCast F]
    [IntCast F] [LT F] [DecidableRel (fun a b : F => a < b)] [CMath F]
    (heap : Nat → Vec3 F) (a_center : Vec3 F) (a_rows a_columns : Int) (a_radius : F)
    (a_fillColour : Vec4 F) (a_transform : Option (Mat4 F))
    (a_longMin a_longMax a_latMin a_latMax : F) (vertexData a_vertexCount : Bool)
    (w : World F) : Except Fault (World F × VertexOut F) := do
  let invColumns : F := 1 / (a_columns : F)
  let invRows : F := 1 / (a_rows : F)
  let DEG2RAD : F := CMath.pi / 180
  let latitiudinalRange : F := (a_latMax - a_latMin) * DEG2RAD
  let longitudinalRange : F := (a_longMax - a_longMin) * DEG2RAD
  if !inInt (a_rows * a_columns) || !inInt (a_rows * a_columns + a_columns) then
    throw .intOverflow
  let size : Int := a_rows * a_columns + a_columns
  if size < 0 then throw .badArrayLength
  let v4Array := newArray heap size.toNat
  if 0 ≤ a_rows && !inInt (a_rows + 1) then throw .intOverflow
  let v4Array ← (List.range (a_rows + 1).toNat).foldlM
    (sphereRowStep a_center a_columns a_radius a_transform a_longMin a_latMin invColumns
      invRows latitiudinalRange longitudinalRange DEG2RAD) v4Array
  if vertexData && !a_vertexCount then throw .nullDeref
  let out : VertexOut F :=
    if vertexData then { vertexData := some v4Array, a_vertexCount := some size.toNat }
    else { vertexData := none, a_vertexCount := none }
  let w ← (List.range (a_rows * a_columns).toNat).foldlM
    (sphereFaceStep a_columns a_fillColour longitudinalRange v4Array) w
  return (w, out)

/-! ## Frame submission -/

/-- The function `Gizmos::draw`; `projectionViewUniform` is the location the driver returns
from `glGetUniformLocation`. Vertex counts are `unsigned int` products. -/
def Gizmos.draw (a_projectionView : Mat4 F) (projectionViewUniform : Nat) (w : World F) :
    World F :=
  match w.sm_singleton with
  | some g =>
    if g.m_lineCount > 0 ∨ g.m_triCount > 0 then
      let head : List (GLCall F) :=
        [ .useProgram g.m_programID,
          .getUniformLocation g.m_programID .ProjectionView,
          .uniformMatrix4fv projectionViewUniform 1 false a_projectionView ]
      let lineCalls : List (GLCall F) :=
        if g.m_lineCount > 0 then
          [ .bindBuffer g.m_lineVBO,
            .bufferSubData 0 (g.m_lineCount * sizeofGizmoLine)
              (.lineData (g.m_lines.take g.m_lineCount)),
            .bindBuffer 0,
            .bindVertexArray g.m_lineVAO,
            .drawArrays .lines 0 (u32 (g.m_lineCount * 2)) ]
        else []
      let triCalls : List (GLCall F) :=
        if g.m_triCount > 0 then
          [ .bindBuffer g.m_triVBO,
            .bufferSubData 0 (g.m_triCount * sizeofGizmoTri)
              (.triData (g.m_tris.take g.m_triCount)),
            .bindBuffer 0,
            .bindVertexArray g.m_triVAO,
            .drawArrays .triangles 0 (u32 (g.m_triCount * 3)) ]
        else []
      let tail : List (GLCall F) := [ .bindVertexArray 0, .bindBuffer 0, .useProgram 0 ]
      { w with gl := w.gl ++ head ++ lineCalls ++ triCalls ++ tail }
    else w
  | none => w

end builders

/-! ## Call sequences -/

section calls

variable {F : Type}

/-- A call of one public operation on an existing batch, with its arguments. -/
inductive Call (F : Type) where
  | clear
  | addLine (a_rv0 a_rv1 : Vec3 F) (a_colour0 a_colour1 : Vec4 F)
  | addLine1 (a_rv0 a_rv1 : Vec3 F) (a_colour : Vec4 F)
  | addTri (a_rv0 a_rv1 a_rv2 : Vec3 F) (a_colour : Vec4 F)
  | addTransform (a_transform : Mat4 F) (a_fScale : F)
  | addBox (a_center a_vDimensions : Vec3 F) (a_filled : Bool) (a_fillColour : Vec4 F)
      (a_transform : Mat4 F) (vertexData a_vertexCount : Bool)
  | addCylinder (heap : Nat → Vec3 F) (a_center : Vec3 F) (a_radius a_fHalfLength : F)
      (a_segments : Nat) (a_filled : Bool) (a_fillColour : Vec4 F) (a_transform : Mat4 F)
      (vertexData a_vertexCount : Bool)
  | addCircle (heap : Nat → Vec3 F) (a_center : Vec3 F) (a_radius : F) (a_segments : Nat)
      (a_filled : Bool) (a_Colour : Vec4 F) (a_transform : Mat4 F)
      (vertexData a_vertexCount : Bool)
  | addSphere (heap : Nat → Vec3 F) (a_center : Vec3 F) (a_rows a_columns : Int) (a_radius : F)
      (a_fillColour : Vec4 F) (a_transform : Option (Mat4 F))
      (a_longMin a_longMax a_latMin a_latMax : F) (vertexData a_vertexCount : Bool)
  | draw (a_projectionView : Mat4 F) (projectionViewUniform : Nat)

variable [Zero F] [One F] [Add F] [Sub F] [Mul F] [Div F] [Neg F] [NatCast F] [IntCast F]
  [LT F] [DecidableRel (fun a b : F => a < b)] [CMath F]

/-- The effect of one call on the world; the values stored through output parameters are
dropped. -/
def Call.exec (c : Call F) (w : World F) : Except Fault (World F) :=
  match c with
  | .clear => Gizmos.clear w
  | .addLine p0 p1 c0 c1 => .ok (Gizmos.addLine p0 p1 c0 c1 w)
  | .addLine1 p0 p1 c => .ok (Gizmos.addLine1 p0 p1 c w)
  | .addTri p0 p1 p2 c => .ok (Gizmos.addTri p0 p1 p2 c w)
  | .addTransform m s => .ok (Gizmos.addTransform m s w)
  | .addBox c d f col t vd vc => (Gizmos.addBox c d f col t vd vc w).map Prod.fst
  | .addCylinder heap c r hl n f col t vd vc =>
    (Gizmos.addCylinder heap c r hl n f col t vd vc w).map Prod.fst
  | .addCircle heap c r n f col t vd vc =>
    (Gizmos.addCircle heap c r n f col t vd vc w).map Prod.fst
  | .addSphere heap c rows cols r col t lmin lmax amin amax vd vc =>
    (Gizmos.addSphere heap c rows cols r col t lmin lmax amin amax vd vc w).map Prod.fst
  | .draw pv loc => .ok (Gizmos.draw pv loc w)

/-- Runs a finite sequence of calls, first call first; a fault ends the run. -/
def runCalls (cs : List (Call F)) (w : World F) : Except Fault (World F) :=
  cs.foldlM (fun w c => c.exec w) w

end calls

/-! ## Batch invariants and auxiliary notions used in the statements -/

section notions

variable {F : Type}

/-- A batch is well formed when its two arrays have the allocated lengths and both counts
are within capacity. -/
def Gizmos.WF (g : Gizmos F) : Prop :=
  g.m_lines.length = g.m_maxLines ∧ g.m_tris.length = g.m_maxTris ∧
    g.m_lineCount ≤ g.m_maxLines ∧ g.m_triCount ≤ g.m_maxTris

instance (g : Gizmos F) : Decidable g.WF := by
  unfold Gizmos.WF
  infer_instance

/-- The world with no batch and no OpenGL call issued. -/
def World.empty : World F := { sm_singleton := none, gl := [] }

/-- One primitive handed to `addLine` or `addTri`. -/
inductive Prim (F : Type) where
  | line (a_rv0 a_rv1 : Vec3 F) (a_colour0 a_colour1 : Vec4 F)
  | tri (a_rv0 a_rv1 a_rv2 : Vec3 F) (a_colour : Vec4 F)

/-- Whether a primitive is a line. -/
def Prim.isLine : Prim F → Bool
  | .line _ _ _ _ => true
  | .tri _ _ _ _ => false

/-- Hands one primitive to the batch. -/
def emit [One F] (p : Prim F) (w : World F) : World F :=
  match p with
  | .line p0 p1 c0 c1 => Gizmos.addLine p0 p1 c0 c1 w
  | .tri p0 p1 p2 c => Gizmos.addTri p0 p1 p2 c w

/-- Hands a list of primitives to the batch, first one first. -/
def emitAll [One F] (ps : List (Prim F)) (w : World F) : World F :=
  ps.foldl (fun w p => emit p w) w

/-- The number of lines in a list of primitives. -/
def numLines (ps : List (Prim F)) : Nat := (ps.filter Prim.isLine).length

/-- The number of triangles in a list of primitives. -/
def numTris (ps : List (Prim F)) : Nat := (ps.filter (fun p => !p.isLine)).length

/-- The relation between a batch and the same batch after more primitives were handed in:
capacities, array lengths and OpenGL names are kept, counts do not decrease, and every
record below the old counts is kept. -/
def Gizmos.Grows (g g' : Gizmos F) : Prop :=
  g'.m_maxLines = g.m_maxLines ∧ g'.m_maxTris = g.m_maxTris ∧
  g.m_lineCount ≤ g'.m_lineCount ∧ g.m_triCount ≤ g'.m_triCount ∧
  g'.m_lines.length = g.m_lines.length ∧ g'.m_tris.length = g.m_tris.length ∧
  (∀ i, i < g.m_lineCount → g'.m_lines.get? i = g.m_lines.get? i) ∧
  (∀ i, i < g.m_triCount → g'.m_tris.get? i = g.m_tris.get? i)

/-- The world `w'` is `w` after handing in some primitives, `a` of them lines and `b` of
them triangles. -/
def Emits [One F] (w : World F) (a b : Nat) (w' : World F) : Prop :=
  ∃ ps : List (Prim F), numLines ps = a ∧ numTris ps = b ∧ w' = emitAll ps w

/-- A rational stand-in for the `<cmath>` functions, used to run the model on concrete
inputs: Taylor polynomials of degree five and four, and `355 / 113` for pi. -/
instance ratCMath : CMath ℚ where
  sinf x := x - x ^ 3 / 6 + x ^ 5 / 120
  cosf x := 1 - x ^ 2 / 2 + x ^ 4 / 24
  sin x := x - x ^ 3 / 6 + x ^ 5 / 120
  cos x := 1 - x ^ 2 / 2 + x ^ 4 / 24
  pi := 355 / 113

end notions

/-! ## Sample data for concrete runs -/
section samples

/-- Whether a call is `clear`. -/
def Call.isClear {F : Type} : Call F → Bool
  | .clear => true
  | _ => false

/-- The call `addLine` on a tuple of its arguments. -/
def Call.ofLine {F : Type} (a : Vec3 F × Vec3 F × Vec4 F × Vec4 F) : Call F :=
  .addLine a.1 a.2.1 a.2.2.1 a.2.2.2

/-- The identity matrix. -/
def Mat4.identity {F : Type} [Zero F] [One F] : Mat4 F :=
  ⟨⟨1, 0, 0, 0⟩, ⟨0, 1, 0, 0⟩, ⟨0, 0, 1, 0⟩, ⟨0, 0, 0, 1⟩⟩

/-- A vertex with all components zero, standing for fresh storage in the sample worlds. -/
def sampleVertex : GizmoVertex ℚ := ⟨⟨0, 0, 0, 0⟩, ⟨0, 0, 0, 0⟩⟩

/-- Fresh line storage of the sample worlds: all zero. -/
def sampleLineMem : Nat → GizmoLine ℚ := fun _ => ⟨sampleVertex, sampleVertex⟩

/-- Fresh triangle storage of the sample worlds: all zero. -/
def sampleTriMem : Nat → GizmoTri ℚ := fun _ => ⟨sampleVertex, sampleVertex, sampleVertex⟩

/-- Fresh vertex storage of the sample worlds: all zero. -/
def sampleHeap : Nat → Vec3 ℚ := fun _ => ⟨0, 0, 0⟩

/-- The OpenGL names of the sample worlds: 1 to 7. -/
def sampleHandles : GLHandles := ⟨1, 2, 3, 4, 5, 6, 7⟩

/-- The world right after `create(maxLines, maxTris)` on the empty world. -/
def sampleWorld (maxLines maxTris : Nat) : World ℚ :=
  Gizmos.create maxLines maxTris sampleLineMem sampleTriMem sampleHandles World.empty

/-- The batch of `sampleWorld`. -/
def sampleBatch (maxLines maxTris : Nat) : Gizmos ℚ :=
  Gizmos.new maxLines maxTris sampleLineMem sampleTriMem sampleHandles

/-- A sample run: two lines into a batch, a clear, a triangle and a draw. -/
def sampleCalls : List (Call ℚ) :=
  [ .addLine ⟨0, 0, 0⟩ ⟨1, 0, 0⟩ vWhite vWhite,
    .addLine ⟨0, 0, 0⟩ ⟨0, 1, 0⟩ vWhite vWhite,
    .clear,
    .addTri ⟨0, 0, 0⟩ ⟨1, 0, 0⟩ ⟨0, 1, 0⟩ vWhite,
    .draw Mat4.identity 0 ]

/-- The world `sampleCalls` leads to from `sampleWorld 1 1`: the first line stays stored
below a zero count, the second was dropped, and the triangle is counted and drawn. -/
def sampleFinal : World ℚ :=
  Gizmos.draw Mat4.identity 0
    { sm_singleton := some { sampleBatch 1 1 with
        m_lines := [⟨⟨⟨0, 0, 0, 1⟩, vWhite⟩, ⟨⟨1, 0, 0, 1⟩, vWhite⟩⟩],
        m_tris := [⟨⟨⟨0, 0, 0, 1⟩, vWhite⟩, ⟨⟨1, 0, 0, 1⟩, vWhite⟩, ⟨⟨0, 1, 0, 1⟩, vWhite⟩⟩],
        m_lineCount := 0,
        m_triCount := 1 },
      gl := (sampleWorld 1 1).gl }

end samples

section records
variable {F : Type}

/-- The line record `addLine` stores for a primitive, `none` for a triangle. -/
def Prim.lineRec [One F] : Prim F → Option (GizmoLine F)
  | .line p0 p1 c0 c1 =>
    some { v0 := { position := vec4 p0 1, colour := c0 },
           v1 := { position := vec4 p1 1, colour := c1 } }
  | .tri _ _ _ _ => none

/-- The triangle record `addTri` stores for a primitive, `none` for a line. -/
def Prim.triRec [One F] : Prim F → Option (GizmoTri F)
  | .line _ _ _ _ => none
  | .tri p0 p1 p2 c =>
    some { v0 := { position := vec4 p0 1, colour := c },
           v1 := { position := vec4 p1 1, colour := c },
           v2 := { position := vec4 p2 1, colour := c } }

/-- The line records of a list of primitives, in order. -/
def lineRecs [One F] (ps : List (Prim F)) : List (GizmoLine F) := ps.filterMap Prim.lineRec

/-- The triangle records of a list of primitives, in order. -/
def triRecs [One F] (ps : List (Prim F)) : List (GizmoTri F) := ps.filterMap Prim.triRec

end records

section drawnotions
variable {F : Type}

/-- The `glDrawArrays` calls of one primitive mode in a call log, as `(first, count)`. -/
def drawCallsOf (mode : DrawMode) (cs : List (GLCall F)) : List (Nat × Nat) :=
  cs.filterMap (fun c =>
    match c with
    | .drawArrays m first count => if m = mode then some (first, count) else none
    | _ => none)

/-- The `glBufferSubData` uploads in a call log, as `(offset, bytes, data)`. -/
def uploadsOf (cs : List (GLCall F)) : List (Nat × Nat × Payload F) :=
  cs.filterMap (fun c =>
    match c with
    | .bufferSubData offset bytes data => some (offset, bytes, data)
    | _ => none)

/-- A batch of capacities 1 and 1 holding no line and one triangle. -/
def sampleTriWorld : World ℚ :=
  Gizmos.addTri ⟨0, 0, 0⟩ ⟨1, 0, 0⟩ ⟨0, 1, 0⟩ vWhite (sampleWorld 1 1)

/-- The batch of `sampleTriWorld`. -/
def sampleTriBatch : Gizmos ℚ :=
  { sampleBatch 1 1 with
    m_tris := [⟨⟨⟨0, 0, 0, 1⟩, vWhite⟩, ⟨⟨1, 0, 0, 1⟩, vWhite⟩, ⟨⟨0, 1, 0, 1⟩, vWhite⟩⟩],
    m_triCount := 1 }

end drawnotions

section boxnotions
variable {F : Type}

/-- The array `vVerts` of `addBox`: the eight corners in the order the code computes them. -/
def boxVerts [Zero F] [One F] [Add F] [Sub F] [Mul F] [Div F] [NatCast F]
    (a_center a_vDimensions : Vec3 F) (a_transform : Mat4 F) : List (Vec3 F) :=
  let vX : Vec3 F := ⟨a_vDimensions.x * half, 0, 0⟩
  let vY : Vec3 F := ⟨0, a_vDimensions.y * half, 0⟩
  let vZ : Vec3 F := ⟨0, 0, a_vDimensions.z * half⟩
  let vX := (a_transform.mulVec (vec4 vX 0)).xyz
  let vY := (a_transform.mulVec (vec4 vY 0)).xyz
  let vZ := (a_transform.mulVec (vec4 vZ 0)).xyz
  [ a_center - vX - vZ - vY,
    a_center - vX + vZ - vY,
    a_center + vX + vZ - vY,
    a_center + vX - vZ - vY,
    a_center - vX - vZ + vY,
    a_center - vX + vZ + vY,
    a_center + vX + vZ + vY,
    a_center + vX - vZ + vY ]

/-- The signs `(sx, sy, sz)` with which `vX`, `vY`, `vZ` enter the eight corners of
`vVerts`, in index order; `true` is `+`. -/
def boxSigns : List (Bool × Bool × Bool) :=
  [ (false, false, false), (false, false, true), (true, false, true), (true, false, false),
    (false, true, false), (false, true, true), (true, true, true), (true, true, false) ]

/-- The sign triple of corner `i`. -/
def boxSign (i : Nat) : Bool × Bool × Bool := boxSigns.getD i (false, false, false)

/-- The value `+1` or `-1` of a sign. -/
def signValue [One F] [Neg F] (b : Bool) : F := if b then 1 else -1

/-- The product `scalar * vec3`. -/
def Vec3.scale [Mul F] (s : F) (v : Vec3 F) : Vec3 F := ⟨s * v.x, s * v.y, s * v.z⟩

/-- Spec: the corner `center + sx * vX + sy * vY + sz * vZ` of a sign triple. -/
def specCorner [One F] [Neg F] [Add F] [Mul F] (center vX vY vZ : Vec3 F)
    (s : Bool × Bool × Bool) : Vec3 F :=
  center + Vec3.scale (signValue s.1) vX + Vec3.scale (signValue s.2.1) vY +
    Vec3.scale (signValue s.2.2) vZ

/-- Spec: the product `T * (x, y, z, 0)` (its `xyz` part), written out by components in the
order glm evaluates a matrix-vector product:
`(T[0] * x + T[1] * y) + (T[2] * z + T[3] * 0)`. -/
def specExtent [Add F] [Mul F] [Zero F] (T : Mat4 F) (x y z : F) : Vec3 F :=
  ⟨(T.c0.x * x + T.c1.x * y) + (T.c2.x * z + T.c3.x * 0),
   (T.c0.y * x + T.c1.y * y) + (T.c2.y * z + T.c3.y * 0),
   (T.c0.z * x + T.c1.z * y) + (T.c2.z * z + T.c3.z * 0)⟩

end boxnotions
end Framework
namespace Framework
section boxspec
variable {F : Type}

/-- Spec: the box corner of a sign triple, `center + sx * vX + sy * vY + sz * vZ` with
`vX = T * (dx / 2, 0, 0, 0)`, `vY = T * (0, dy / 2, 0, 0)`, `vZ = T * (0, 0, dz / 2, 0)`. -/
def specBoxCorner [Zero F] [One F] [Neg F] [Add F] [Mul F] [Div F] [NatCast F]
    (center dims : Vec3 F) (T : Mat4 F) (s : Bool × Bool × Bool) : Vec3 F :=
  specCorner center (specExtent T (dims.x / 2) 0 0) (specExtent T 0 (dims.y / 2) 0)
    (specExtent T 0 0 (dims.z / 2)) s

end boxspec
end Framework
namespace Framework
section boxspec2
variable {F : Type}

end boxspec2

section circlenotions
variable {F : Type}

/-- Spec: the `k`-th sampled point `s(k) = (r * sin(k * 2pi / n), 0, r * cos(k * 2pi / n))` of
a circle of `n` segments, as a direction vector. -/
def specCirclePoint [Zero F] [Mul F] [Div F] [NatCast F] [CMath F] (r : F) (n k : Nat) :
    Vec4 F :=
  ⟨r * CMath.sinf ((k : F) * 2 * CMath.pi / (n : F)), 0,
    r * CMath.cosf ((k : F) * 2 * CMath.pi / (n : F)), 0⟩

/-- The uniform scaling by 2 as a transform. -/
def sampleScale : Mat4 ℚ := ⟨⟨2, 0, 0, 0⟩, ⟨0, 2, 0, 0⟩, ⟨0, 0, 2, 0⟩, ⟨0, 0, 0, 1⟩⟩

end circlenotions

section spherenotions
variable {F : Type}

/-- The value of `iNextFace` in the face loop of `addSphere`: `face + 1`, reduced by
`a_columns` when it is a multiple of `a_columns`. -/
def iNextFace (a_columns : Int) (face : Int) : Int :=
  if Int.tmod (face + 1) a_columns = 0 then face + 1 - a_columns else face + 1

/-- The index `row * a_columns + (col % a_columns)` written by the sampling loop of
`addSphere`. -/
def sphereIndex (a_columns : Int) (row : Int) (col : Int) : Int :=
  row * a_columns + Int.tmod col a_columns

end spherenotions
section spherepoints
variable {F : Type}

/-- The point `v4Point` computed by the inner sampling loop of `addSphere` at column `col`,
from the values `y`, `z` of the current row. -/
def spherePointAt [Add F] [Mul F] [Neg F] [Zero F] [IntCast F] [CMath F]
    (a_transform : Option (Mat4 F)) (a_longMin invColumns longitudinalRange DEG2RAD y z : F)
    (col : Nat) : Vec3 F :=
  let ratioAroundYAxis : F := ((col : Int) : F) * invColumns
  let theta : F := ratioAroundYAxis * longitudinalRange + (a_longMin * DEG2RAD)
  let v4Point : Vec3 F := ⟨-z * CMath.sinf theta, y, -z * CMath.cosf theta⟩
  match a_transform with
  | some t => (t.mulVec (vec4 v4Point 0)).xyz
  | none => v4Point

/-- The point `P(row, col)` sampled by `addSphere` at grid position `(row, col)`, before the
translation by the centre. -/
def spherePoint [Zero F] [One F] [Add F] [Sub F] [Mul F] [Div F] [Neg F] [NatCast F]
    [IntCast F] [CMath F] (a_rows a_columns : Int) (a_radius : F)
    (a_transform : Option (Mat4 F)) (a_longMin a_longMax a_latMin a_latMax : F)
    (row col : Nat) : Vec3 F :=
  let invColumns : F := 1 / (a_columns : F)
  let invRows : F := 1 / (a_rows : F)
  let DEG2RAD : F := CMath.pi / 180
  let latitiudinalRange : F := (a_latMax - a_latMin) * DEG2RAD
  let longitudinalRange : F := (a_longMax - a_longMin) * DEG2RAD
  let ratioAroundXAxis : F := ((row : Int) : F) * invRows
  let radiansAboutXAxis : F := ratioAroundXAxis * latitiudinalRange + (a_latMin * DEG2RAD)
  let y : F := a_radius * CMath.sin radiansAboutXAxis
  let z : F := a_radius * CMath.cos radiansAboutXAxis
  spherePointAt a_transform a_longMin invColumns longitudinalRange DEG2RAD y z col

/-- The sampling loop of `addSphere`: the grid array after all rows, starting from a fresh
array of `a_rows * a_columns + a_columns` entries. -/
def sphereGrid [Zero F] [One F] [Add F] [Sub F] [Mul F] [Div F] [Neg F] [NatCast F]
    [IntCast F] [CMath F] (heap : Nat → Vec3 F) (a_center : Vec3 F) (a_rows a_columns : Int)
    (a_radius : F) (a_transform : Option (Mat4 F)) (a_longMin a_longMax a_latMin a_latMax : F) :
    Except Fault (List (Vec3 F)) :=
  let invColumns : F := 1 / (a_columns : F)
  let invRows : F := 1 / (a_rows : F)
  let DEG2RAD : F := CMath.pi / 180
  let latitiudinalRange : F := (a_latMax - a_latMin) * DEG2RAD
  let longitudinalRange : F := (a_longMax - a_longMin) * DEG2RAD
  (List.range (a_rows + 1).toNat).foldlM
    (sphereRowStep a_center a_columns a_radius a_transform a_longMin a_latMin invColumns
      invRows latitiudinalRange longitudinalRange DEG2RAD)
    (newArray heap (a_rows * a_columns + a_columns).toNat)

end spherepoints

/-! ## A model of `float` -/

section floatmodel

/-- The number of binary digits of `n`; `fuel` bounds the recursion and `fuel = n` is
enough. -/
def bitLength : Nat → Nat → Nat
  | 0, _ => 0
  | fuel + 1, n => if n = 0 then 0 else bitLength fuel (n / 2) + 1

/-- The number of trailing zero bits of `n`, for `n ≠ 0`; `fuel = n` is enough. -/
def trailingZeros : Nat → Nat → Nat
  | 0, _ => 0
  | fuel + 1, n => if n % 2 = 1 then 0 else trailingZeros fuel (n / 2) + 1

/-- A finite `float` value `man * 2 ^ exp`. The operations below round to a significand of
24 bits, to nearest, ties to even, as IEEE 754 binary32 arithmetic does; the exponent is
unbounded, so overflow to infinity, subnormal numbers and NaN are not modelled. -/
structure F32 where
  man : Int
  exp : Int
deriving DecidableEq, Repr

/-- The representation of `m * 2 ^ e` with an odd mantissa, or `0 * 2 ^ 0`. -/
def F32.normalize (m e : Int) : F32 :=
  if m = 0 then ⟨0, 0⟩
  else
    let k := trailingZeros m.natAbs m.natAbs
    ⟨m / (2 ^ k : Nat), e + k⟩

/-- Rounding of the exact value `m * 2 ^ e` to a significand of 24 bits, to nearest, ties to
even. -/
def F32.round (m e : Int) : F32 :=
  let n := m.natAbs
  let len := bitLength n n
  if len ≤ 24 then F32.normalize m e
  else
    let s := len - 24
    let q := n / 2 ^ s
    let rem := n % 2 ^ s
    let halfUlp := 2 ^ (s - 1)
    let q' := if rem < halfUlp then q else if halfUlp < rem then q + 1
      else if q % 2 = 0 then q else q + 1
    F32.normalize (if m < 0 then -(q' : Int) else (q' : Int)) (e + s)

/-- The exact sum `a + b` as a mantissa over the smaller of the two exponents. -/
def F32.alignedSum (a b : F32) : Int × Int :=
  let e := min a.exp b.exp
  (a.man * (2 ^ (a.exp - e).toNat : Nat) + b.man * (2 ^ (b.exp - e).toNat : Nat), e)

instance : Zero F32 := ⟨⟨0, 0⟩⟩
instance : One F32 := ⟨⟨1, 0⟩⟩
instance : Neg F32 := ⟨fun a => ⟨-a.man, a.exp⟩⟩
instance : Add F32 := ⟨fun a b => F32.round (F32.alignedSum a b).1 (F32.alignedSum a b).2⟩
instance : Sub F32 :=
  ⟨fun a b => F32.round (F32.alignedSum a (-b)).1 (F32.alignedSum a (-b)).2⟩
instance : Mul F32 := ⟨fun a b => F32.round (a.man * b.man) (a.exp + b.exp)⟩
instance : NatCast F32 := ⟨fun n => F32.round (n : Int) 0⟩

/-- The quotient `a / b`, correctly rounded: the integer quotient is taken with at least 26
bits, and one more bit records whether the division left a remainder. A zero divisor, whose
quotient is not finite, gives zero. -/
def F32.div (a b : F32) : F32 :=
  if b.man = 0 then ⟨0, 0⟩
  else
    let d := b.man.natAbs
    let k := 26 + bitLength d d
    let n := a.man.natAbs * 2 ^ k
    let q := n / d
    let sticky := if n % d = 0 then 0 else 1
    let m : Int := ((2 * q + sticky : Nat) : Int)
    F32.round (if (a.man < 0) = (b.man < 0) then m else -m) (a.exp - b.exp - k - 1)

instance : Div F32 := ⟨F32.div⟩

/-- The `float` nearest to an integer. -/
def F32.ofInt (n : Int) : F32 := F32.round n 0

end floatmodel

section valuemaps
variable {F K : Type}

/-- A `vec3` with a map applied to its components. -/
def Vec3.map (f : F → K) (v : Vec3 F) : Vec3 K := ⟨f v.x, f v.y, f v.z⟩

/-- A `vec4` with a map applied to its components. -/
def Vec4.map (f : F → K) (v : Vec4 F) : Vec4 K := ⟨f v.x, f v.y, f v.z, f v.w⟩

/-- A `mat4` with a map applied to its components. -/
def Mat4.map (f : F → K) (m : Mat4 F) : Mat4 K :=
  ⟨m.c0.map f, m.c1.map f, m.c2.map f, m.c3.map f⟩

end valuemaps

section boxcode
variable {F : Type}

end boxcode

/-! ## Auxiliary lemmas -/
section basics
variable {F : Type}

theorem Gizmos.Grows.refl (g : Gizmos F) : g.Grows g := by
  unfold Gizmos.Grows
  simp

theorem Gizmos.Grows.trans {g g' g'' : Gizmos F} (h : g.Grows g') (h' : g'.Grows g'') :
    g.Grows g'' := by
  obtain ⟨a1, a2, a3, a4, a5, a6, a7, a8⟩ := h
  obtain ⟨b1, b2, b3, b4, b5, b6, b7, b8⟩ := h'
  refine ⟨b1.trans a1, b2.trans a2, le_trans a3 b3, le_trans a4 b4, b5.trans a5, b6.trans a6,
    ?_, ?_⟩
  · intro i hi
    rw [b7 i (lt_of_lt_of_le hi a3), a7 i hi]
  · intro i hi
    rw [b8 i (lt_of_lt_of_le hi a4), a8 i hi]

variable [One F]

theorem addLine_none (p0 p1 : Vec3 F) (c0 c1 : Vec4 F) (w : World F)
    (h : w.sm_singleton = none) : Gizmos.addLine p0 p1 c0 c1 w = w := by
  simp [Gizmos.addLine, h]

theorem addTri_none (p0 p1 p2 : Vec3 F) (c : Vec4 F) (w : World F)
    (h : w.sm_singleton = none) : Gizmos.addTri p0 p1 p2 c w = w := by
  simp [Gizmos.addTri, h]

theorem addLine_full (p0 p1 : Vec3 F) (c0 c1 : Vec4 F) (w : World F) (g : Gizmos F)
    (h : w.sm_singleton = some g) (hfull : g.m_maxLines ≤ g.m_lineCount) :
    Gizmos.addLine p0 p1 c0 c1 w = w := by
  simp [Gizmos.addLine, h, Nat.not_lt.mpr hfull]

theorem addTri_full (p0 p1 p2 : Vec3 F) (c : Vec4 F) (w : World F) (g : Gizmos F)
    (h : w.sm_singleton = some g) (hfull : g.m_maxTris ≤ g.m_triCount) :
    Gizmos.addTri p0 p1 p2 c w = w := by
  simp [Gizmos.addTri, h, Nat.not_lt.mpr hfull]

theorem addLine_room (p0 p1 : Vec3 F) (c0 c1 : Vec4 F) (w : World F) (g : Gizmos F)
    (h : w.sm_singleton = some g) (hroom : g.m_lineCount < g.m_maxLines) :
    Gizmos.addLine p0 p1 c0 c1 w =
      { w with sm_singleton := some ({ g with
          m_lines := g.m_lines.set g.m_lineCount
            { v0 := { position := vec4 p0 1, colour := c0 },
              v1 := { position := vec4 p1 1, colour := c1 } },
          m_lineCount := g.m_lineCount + 1 }) } := by
  simp [Gizmos.addLine, h, hroom]

theorem addTri_room (p0 p1 p2 : Vec3 F) (c : Vec4 F) (w : World F) (g : Gizmos F)
    (h : w.sm_singleton = some g) (hroom : g.m_triCount < g.m_maxTris) :
    Gizmos.addTri p0 p1 p2 c w =
      { w with sm_singleton := some ({ g with
          m_tris := g.m_tris.set g.m_triCount
            { v0 := { position := vec4 p0 1, colour := c },
              v1 := { position := vec4 p1 1, colour := c },
              v2 := { position := vec4 p2 1, colour := c } },
          m_triCount := g.m_triCount + 1 }) } := by
  simp [Gizmos.addTri, h, hroom]

/-- The effect of one primitive on an existing batch. -/
theorem emit_some (p : Prim F) (w : World F) (g : Gizmos F) (h : w.sm_singleton = some g) :
    ∃ g', (emit p w).sm_singleton = some g' ∧ (emit p w).gl = w.gl ∧ g.Grows g' ∧
      g'.m_lineCount = (if p.isLine ∧ g.m_lineCount < g.m_maxLines then g.m_lineCount + 1
        else g.m_lineCount) ∧
      g'.m_triCount = (if ¬ p.isLine ∧ g.m_triCount < g.m_maxTris then g.m_triCount + 1
        else g.m_triCount) := by
  cases p with
  | line p0 p1 c0 c1 =>
    by_cases hroom : g.m_lineCount < g.m_maxLines
    · refine ⟨_, by rw [emit, addLine_room p0 p1 c0 c1 w g h hroom], ?_, ?_, ?_, ?_⟩
      · rw [emit, addLine_room p0 p1 c0 c1 w g h hroom]
      · refine ⟨rfl, rfl, Nat.le_succ _, le_refl _, by simp, rfl, ?_, fun _ _ => rfl⟩
        intro i hi
        simp [List.getElem?_set, Nat.ne_of_gt hi]
      · simp [Prim.isLine, hroom]
      · simp [Prim.isLine]
    · refine ⟨g, ?_, ?_, Gizmos.Grows.refl g, by simp [Prim.isLine, hroom], by simp [Prim.isLine]⟩
      · rw [emit, addLine_full p0 p1 c0 c1 w g h (Nat.not_lt.mp hroom), h]
      · rw [emit, addLine_full p0 p1 c0 c1 w g h (Nat.not_lt.mp hroom)]
  | tri p0 p1 p2 c =>
    by_cases hroom : g.m_triCount < g.m_maxTris
    · refine ⟨_, by rw [emit, addTri_room p0 p1 p2 c w g h hroom], ?_, ?_, ?_, ?_⟩
      · rw [emit, addTri_room p0 p1 p2 c w g h hroom]
      · refine ⟨rfl, rfl, le_refl _, Nat.le_succ _, rfl, by simp, fun _ _ => rfl, ?_⟩
        intro i hi
        simp [List.getElem?_set, Nat.ne_of_gt hi]
      · simp [Prim.isLine]
      · simp [Prim.isLine, hroom]
    · refine ⟨g, ?_, ?_, Gizmos.Grows.refl g, by simp [Prim.isLine], by simp [Prim.isLine, hroom]⟩
      · rw [emit, addTri_full p0 p1 p2 c w g h (Nat.not_lt.mp hroom), h]
      · rw [emit, addTri_full p0 p1 p2 c w g h (Nat.not_lt.mp hroom)]

end basics
section emitall
variable {F : Type}

theorem numLines_cons (p : Prim F) (ps : List (Prim F)) :
    numLines (p :: ps) = (if p.isLine then 1 else 0) + numLines ps := by
  cases h : p.isLine
  · simp [numLines, List.filter_cons, h]
  · simp [numLines, List.filter_cons, h]; omega

theorem numTris_cons (p : Prim F) (ps : List (Prim F)) :
    numTris (p :: ps) = (if p.isLine then 0 else 1) + numTris ps := by
  cases h : p.isLine
  · simp [numTris, List.filter_cons, h]; omega
  · simp [numTris, List.filter_cons, h]

theorem numLines_append (ps qs : List (Prim F)) :
    numLines (ps ++ qs) = numLines ps + numLines qs := by
  simp [numLines]

theorem numTris_append (ps qs : List (Prim F)) :
    numTris (ps ++ qs) = numTris ps + numTris qs := by
  simp [numTris]

variable [One F]

theorem emitAll_nil (w : World F) : emitAll [] w = w := rfl

theorem emitAll_cons (p : Prim F) (ps : List (Prim F)) (w : World F) :
    emitAll (p :: ps) w = emitAll ps (emit p w) := rfl

theorem emitAll_append (ps qs : List (Prim F)) (w : World F) :
    emitAll (ps ++ qs) w = emitAll qs (emitAll ps w) := by
  simp [emitAll, List.foldl_append]

theorem emitAll_none (ps : List (Prim F)) (w : World F) (h : w.sm_singleton = none) :
    emitAll ps w = w := by
  induction ps with
  | nil => rfl
  | cons p ps ih =>
    have hp : emit p w = w := by
      cases p with
      | line p0 p1 c0 c1 => exact addLine_none p0 p1 c0 c1 w h
      | tri p0 p1 p2 c => exact addTri_none p0 p1 p2 c w h
    rw [emitAll_cons, hp, ih]

/-- Handing in primitives keeps capacities, array lengths and every record below the old
counts, and issues no OpenGL call. -/
theorem emitAll_grows (ps : List (Prim F)) (w : World F) (g : Gizmos F)
    (h : w.sm_singleton = some g) :
    ∃ g', (emitAll ps w).sm_singleton = some g' ∧ (emitAll ps w).gl = w.gl ∧ g.Grows g' := by
  induction ps generalizing w g with
  | nil => exact ⟨g, h, rfl, Gizmos.Grows.refl g⟩
  | cons p ps ih =>
    obtain ⟨g1, h1, hgl1, hgr1, -, -⟩ := emit_some p w g h
    obtain ⟨g2, h2, hgl2, hgr2⟩ := ih (emit p w) g1 h1
    exact ⟨g2, by rw [emitAll_cons]; exact h2, by rw [emitAll_cons, hgl2, hgl1], hgr1.trans hgr2⟩

/-- The line count after handing in primitives saturates at capacity. -/
theorem emitAll_lineCount (ps : List (Prim F)) (w : World F) (g g' : Gizmos F)
    (h : w.sm_singleton = some g) (hl : g.m_lineCount ≤ g.m_maxLines)
    (h' : (emitAll ps w).sm_singleton = some g') :
    g'.m_lineCount = min (g.m_lineCount + numLines ps) g.m_maxLines := by
  induction ps generalizing w g with
  | nil =>
    rw [emitAll_nil, h] at h'
    cases h'
    simp [numLines, hl]
  | cons p ps ih =>
    obtain ⟨g1, h1, -, hgr1, hlc1, -⟩ := emit_some p w g h
    have hmax1 := hgr1.1
    have hl1 : g1.m_lineCount ≤ g1.m_maxLines := by
      rw [hlc1, hmax1]; split <;> omega
    rw [emitAll_cons] at h'
    rw [ih (emit p w) g1 h1 hl1 h', hlc1, hmax1, numLines_cons]
    clear hlc1 hl1 ih
    cases hp : p.isLine
    all_goals simp only [Nat.min_def, Bool.false_eq_true, false_and, true_and, if_false, if_true]
    all_goals split_ifs <;> omega

/-- The triangle count after handing in primitives saturates at capacity. -/
theorem emitAll_triCount (ps : List (Prim F)) (w : World F) (g g' : Gizmos F)
    (h : w.sm_singleton = some g) (ht : g.m_triCount ≤ g.m_maxTris)
    (h' : (emitAll ps w).sm_singleton = some g') :
    g'.m_triCount = min (g.m_triCount + numTris ps) g.m_maxTris := by
  induction ps generalizing w g with
  | nil =>
    rw [emitAll_nil, h] at h'
    cases h'
    simp [numTris, ht]
  | cons p ps ih =>
    obtain ⟨g1, h1, -, hgr1, -, htc1⟩ := emit_some p w g h
    have hmax2 := hgr1.2.1
    have ht1 : g1.m_triCount ≤ g1.m_maxTris := by
      rw [htc1, hmax2]; split <;> omega
    rw [emitAll_cons] at h'
    rw [ih (emit p w) g1 h1 ht1 h', htc1, hmax2, numTris_cons]
    clear htc1 ht1 ih
    cases hp : p.isLine
    all_goals simp only [Nat.min_def, Bool.false_eq_true, not_false_eq_true, not_true_eq_false,
      false_and, true_and, if_false, if_true]
    all_goals split_ifs <;> omega

end emitall
section emits
variable {F : Type} [One F]

theorem Emits.nil (w : World F) : Emits w 0 0 w := ⟨[], rfl, rfl, rfl⟩

theorem Emits.line {w w' : World F} {a b : Nat} (h : Emits w a b w') (p0 p1 : Vec3 F)
    (c0 c1 : Vec4 F) : Emits w (a + 1) b (Gizmos.addLine p0 p1 c0 c1 w') := by
  obtain ⟨ps, ha, hb, rfl⟩ := h
  refine ⟨ps ++ [.line p0 p1 c0 c1], ?_, ?_, ?_⟩
  · rw [numLines_append, ha]; rfl
  · rw [numTris_append, hb]; rfl
  · rw [emitAll_append]; rfl

theorem Emits.tri {w w' : World F} {a b : Nat} (h : Emits w a b w') (p0 p1 p2 : Vec3 F)
    (c : Vec4 F) : Emits w a (b + 1) (Gizmos.addTri p0 p1 p2 c w') := by
  obtain ⟨ps, ha, hb, rfl⟩ := h
  refine ⟨ps ++ [.tri p0 p1 p2 c], ?_, ?_, ?_⟩
  · rw [numLines_append, ha]; rfl
  · rw [numTris_append, hb]; rfl
  · rw [emitAll_append]; rfl

theorem Emits.append {w w' w'' : World F} {a b c d : Nat} (h : Emits w a b w')
    (h' : Emits w' c d w'') : Emits w (a + c) (b + d) w'' := by
  obtain ⟨ps, ha, hb, rfl⟩ := h
  obtain ⟨qs, hc, hd, rfl⟩ := h'
  exact ⟨ps ++ qs, by rw [numLines_append, ha, hc], by rw [numTris_append, hb, hd],
    by rw [emitAll_append]⟩

theorem Emits.cast {w w' : World F} {a b a' b' : Nat} (h : Emits w a b w') (ha : a = a')
    (hb : b = b') : Emits w a' b' w' := by
  subst ha; subst hb; exact h

theorem Emits.none {w w' : World F} {a b : Nat} (h : Emits w a b w')
    (hn : w.sm_singleton = none) : w' = w := by
  obtain ⟨ps, -, -, rfl⟩ := h
  exact emitAll_none ps w hn

theorem Emits.grows {w w' : World F} {a b : Nat} (h : Emits w a b w') {g : Gizmos F}
    (hg : w.sm_singleton = some g) :
    ∃ g', w'.sm_singleton = some g' ∧ w'.gl = w.gl ∧ g.Grows g' := by
  obtain ⟨ps, -, -, rfl⟩ := h
  exact emitAll_grows ps w g hg

theorem Emits.lineCount {w w' : World F} {a b : Nat} (h : Emits w a b w') {g g' : Gizmos F}
    (hg : w.sm_singleton = some g) (hl : g.m_lineCount ≤ g.m_maxLines)
    (hg' : w'.sm_singleton = some g') :
    g'.m_lineCount = min (g.m_lineCount + a) g.m_maxLines := by
  obtain ⟨ps, rfl, -, rfl⟩ := h
  exact emitAll_lineCount ps w g g' hg hl hg'

theorem Emits.triCount {w w' : World F} {a b : Nat} (h : Emits w a b w') {g g' : Gizmos F}
    (hg : w.sm_singleton = some g) (ht : g.m_triCount ≤ g.m_maxTris)
    (hg' : w'.sm_singleton = some g') :
    g'.m_triCount = min (g.m_triCount + b) g.m_maxTris := by
  obtain ⟨ps, -, rfl, rfl⟩ := h
  exact emitAll_triCount ps w g g' hg ht hg'

/-- A loop whose every iteration hands primitives to the batch hands in their total. -/
theorem foldlM_emits {σ : Type} (f : σ → Nat → Except Fault σ) (proj : σ → World F)
    (a b : Nat → Nat)
    (hf : ∀ s i s', f s i = .ok s' → Emits (proj s) (a i) (b i) (proj s')) :
    ∀ (l : List Nat) (s s' : σ), l.foldlM f s = .ok s' →
      Emits (proj s) (l.map a).sum (l.map b).sum (proj s') := by
  intro l
  induction l with
  | nil =>
    intro s s' h
    simp only [List.foldlM_nil, pure, Except.pure, Except.ok.injEq] at h
    subst h
    exact Emits.nil _
  | cons i l ih =>
    intro s s' h
    rw [List.foldlM_cons] at h
    cases hs : f s i with
    | error e => rw [hs] at h; cases h
    | ok s1 =>
      rw [hs] at h
      have h1 := hf s i s1 hs
      have h2 := ih s1 s' h
      simpa using h1.append h2

end emits
section builderlemmas
variable {F : Type}

/-- A loop whose body succeeds on every state satisfying an invariant it keeps runs to
completion. -/
theorem foldlM_ok {σ : Type} (f : σ → Nat → Except Fault σ) (P : σ → Prop) (Q : Nat → Prop)
    (hstep : ∀ s i, P s → Q i → ∃ s', f s i = .ok s' ∧ P s') :
    ∀ (l : List Nat) (s : σ), P s → (∀ i ∈ l, Q i) → ∃ s', l.foldlM f s = .ok s' ∧ P s' := by
  intro l
  induction l with
  | nil =>
    intro s hs _
    exact ⟨s, rfl, hs⟩
  | cons i l ih =>
    intro s hs hq
    obtain ⟨s1, h1, hp1⟩ := hstep s i hs (hq i (List.mem_cons_self _ _))
    obtain ⟨s2, h2, hp2⟩ := ih s1 hp1 (fun j hj => hq j (List.mem_cons_of_mem _ hj))
    refine ⟨s2, ?_, hp2⟩
    rw [List.foldlM_cons, h1]
    exact h2

theorem writeAt_ok {α : Type} (arr : List α) (i : Nat) (v : α) (h : i < arr.length) :
    writeAt arr i v = .ok (arr.set i v) := by
  simp [writeAt, h]

theorem addTransform_emits [Zero F] [One F] [Add F] [Mul F] (m : Mat4 F) (s : F) (w : World F) :
    Emits w 3 0 (Gizmos.addTransform m s w) := by
  unfold Gizmos.addTransform
  exact (((Emits.nil w).line _ _ _ _).line _ _ _ _).line _ _ _ _

variable [Zero F] [One F] [Add F] [Sub F] [Mul F] [Div F] [NatCast F]

theorem addBox_emits (c d : Vec3 F) (f : Bool) (col : Vec4 F) (t : Mat4 F) (vd vc : Bool)
    (w w' : World F) (out : VertexOut F)
    (h : Gizmos.addBox c d f col t vd vc w = .ok (w', out)) :
    Emits w 12 (if f then 12 else 0) w' := by
  unfold Gizmos.addBox at h
  simp only at h
  split at h
  · cases h
  · cases f
    · simp only [Bool.false_eq_true, if_false, Except.ok.injEq, Prod.mk.injEq] at h
      rw [← h.1]
      repeat (first | exact Emits.nil w | apply Emits.line | apply Emits.tri)
    · simp only [if_true, Except.ok.injEq, Prod.mk.injEq] at h
      rw [← h.1]
      repeat (first | exact Emits.nil w | apply Emits.line | apply Emits.tri)

theorem addBox_ok (c d : Vec3 F) (f : Bool) (col : Vec4 F) (t : Mat4 F) (vd vc : Bool)
    (w : World F) (hout : vd = true → vc = true) :
    ∃ w' out, Gizmos.addBox c d f col t vd vc w = .ok (w', out) := by
  unfold Gizmos.addBox
  simp only
  have hc : (vd && !vc) = false := by
    cases vd <;> cases vc <;> simp at hout ⊢
  rw [hc]
  cases f <;> simp

end builderlemmas
section cyl
variable {F : Type}

theorem u32_of_lt (n : Nat) (h : n < 2 ^ 32) : u32 n = n := Nat.mod_eq_of_lt h

theorem cylinderStores_ok (arr : List (Vec3 F)) (i : Nat) (t0 t1 t2 b0 b1 b2 : Vec3 F)
    (hi : i * 12 + 12 ≤ arr.length) (hlen : arr.length < 2 ^ 32) :
    ∃ arr', cylinderStores arr i t0 t1 t2 b0 b1 b2 = .ok arr' ∧ arr'.length = arr.length := by
  have e : ∀ k, k < 12 → u32 (i * 12 + k) = i * 12 + k := fun k hk => u32_of_lt _ (by omega)
  have e0 : u32 (i * 12) = i * 12 := e 0 (by omega)
  unfold cylinderStores
  simp only [e0, e 1 (by omega), e 2 (by omega), e 3 (by omega), Nat.add_assoc, Nat.reduceAdd,
    e 4 (by omega), e 5 (by omega), e 6 (by omega), e 7 (by omega), e 8 (by omega),
    e 9 (by omega), e 10 (by omega), e 11 (by omega), bind, Except.bind, writeAt,
    List.length_set]
  simp only [show i * 12 < arr.length by omega, show i * 12 + 1 < arr.length by omega,
    show i * 12 + 2 < arr.length by omega, show i * 12 + 3 < arr.length by omega,
    show i * 12 + 4 < arr.length by omega, show i * 12 + 5 < arr.length by omega,
    show i * 12 + 6 < arr.length by omega, show i * 12 + 7 < arr.length by omega,
    show i * 12 + 8 < arr.length by omega, show i * 12 + 9 < arr.length by omega,
    show i * 12 + 10 < arr.length by omega, show i * 12 + 11 < arr.length by omega, if_true,
    List.length_set]
  exact ⟨_, rfl, by simp⟩

theorem circleStores_ok (arr : List (Vec3 F)) (i : Nat) (p0 p1 p2 : Vec3 F)
    (hi : i * 3 + 3 ≤ arr.length) (hlen : arr.length < 2 ^ 32) :
    ∃ arr', circleStores arr i p0 p1 p2 = .ok arr' ∧ arr'.length = arr.length := by
  have e : ∀ k, k < 3 → u32 (i * 3 + k) = i * 3 + k := fun k hk => u32_of_lt _ (by omega)
  have e0 : u32 (i * 3) = i * 3 := e 0 (by omega)
  unfold circleStores
  simp only [e0, e 1 (by omega), e 2 (by omega), bind, Except.bind, writeAt, List.length_set]
  simp only [show i * 3 < arr.length by omega, show i * 3 + 1 < arr.length by omega,
    show i * 3 + 2 < arr.length by omega, if_true, List.length_set]
  exact ⟨_, rfl, by simp⟩

theorem newArray_length (heap : Nat → Vec3 F) (n : Nat) : (newArray heap n).length = n := by
  simp [newArray]

variable [Zero F] [One F] [Add F] [Mul F] [Neg F] [NatCast F] [CMath F]

theorem addCylinderStep_emits (c : Vec3 F) (r hl : F) (f : Bool) (col : Vec4 F) (t : Mat4 F)
    (seg : F) (st : World F × Option (List (Vec3 F))) (i : Nat)
    (st' : World F × Option (List (Vec3 F)))
    (h : addCylinderStep c r hl f col t seg st i = .ok st') :
    Emits st.1 3 (if f then 4 else 0) st'.1 := by
  unfold addCylinderStep at h
  simp only at h
  cases f
  · simp only [Bool.false_eq_true, if_false, Except.ok.injEq] at h
    rw [← h]
    repeat (first | exact Emits.nil _ | apply Emits.line | apply Emits.tri)
  · simp only [if_true] at h
    split at h
    · split at h
      · simp only [Except.ok.injEq] at h
        rw [← h]
        repeat (first | exact Emits.nil _ | apply Emits.line | apply Emits.tri)
      · cases h
    · simp only [Except.ok.injEq] at h
      rw [← h]
      repeat (first | exact Emits.nil _ | apply Emits.line | apply Emits.tri)

variable [Div F]

theorem addCylinder_emits (heap : Nat → Vec3 F) (c : Vec3 F) (r hl : F) (n : Nat) (f : Bool)
    (col : Vec4 F) (t : Mat4 F) (vd vc : Bool) (w w' : World F) (out : VertexOut F)
    (h : Gizmos.addCylinder heap c r hl n f col t vd vc w = .ok (w', out)) :
    Emits w (3 * n) (if f then 4 * n else 0) w' := by
  unfold Gizmos.addCylinder at h
  simp only at h
  split at h
  · cases h
  · split at h
    · cases h
    · rename_i st hst
      simp only [Except.ok.injEq, Prod.mk.injEq] at h
      have := foldlM_emits _ Prod.fst (fun _ => 3) (fun _ => if f then 4 else 0)
        (addCylinderStep_emits c r hl f col t _) _ _ _ hst
      rw [← h.1]
      refine this.cast ?_ ?_
      · simp [Nat.mul_comm]
      · cases f <;> simp [Nat.mul_comm]

theorem addCylinder_ok (heap : Nat → Vec3 F) (c : Vec3 F) (r hl : F) (n : Nat) (f : Bool)
    (col : Vec4 F) (t : Mat4 F) (vd vc : Bool) (w : World F) (hout : vd = true → vc = true)
    (hfit : vd = true → f = true → n * 12 < 2 ^ 32) :
    ∃ w' out, Gizmos.addCylinder heap c r hl n f col t vd vc w = .ok (w', out) := by
  unfold Gizmos.addCylinder
  simp only
  have halloc : ∃ o : VertexOut F, allocOut heap vd vc (u32 (n * 12)) = .ok o ∧
      (f = true → ∀ arr, o.vertexData = some arr → arr.length = n * 12) := by
    unfold allocOut
    cases vd
    · exact ⟨_, rfl, fun _ arr h => by simp at h⟩
    · rw [hout rfl]
      refine ⟨_, rfl, fun hf arr h => ?_⟩
      simp only [if_true, Option.some.injEq] at h
      rw [← h, newArray_length, u32_of_lt _ (hfit rfl hf)]
  obtain ⟨o, ho, hlen⟩ := halloc
  rw [ho]
  have hvd : ∀ arr, o.vertexData = some arr → vd = true := by
    intro arr harr
    unfold allocOut at ho
    cases vd
    · simp only [Bool.false_eq_true, if_false, Except.ok.injEq] at ho
      rw [← ho] at harr
      cases harr
    · rfl
  obtain ⟨st, hst, -⟩ := foldlM_ok
    (addCylinderStep c r hl f col t ((2 * CMath.pi) / (n : F)))
    (fun st => f = true → ∀ arr, st.2 = some arr → arr.length = n * 12 ∧ vd = true)
    (fun i => i < n)
    (by
      intro s i hs hi
      unfold addCylinderStep
      simp only
      cases hf : f
      · refine ⟨_, rfl, fun h => by cases h⟩
      · simp only [if_true]
        cases harr : s.2 with
        | none => exact ⟨_, rfl, fun _ arr h => by cases h⟩
        | some arr =>
          obtain ⟨hl1, hv⟩ := hs hf arr harr
          have hlt := hfit hv hf
          obtain ⟨arr', h1, h2⟩ := cylinderStores_ok arr i
            (c + (t.mulVec (vec4 ⟨0, hl, 0⟩ 0)).xyz) _ _ _ _ _
            (by omega) (by omega)
          simp only
          rw [h1]
          refine ⟨_, rfl, fun _ a ha => ?_⟩
          simp only [Option.some.injEq] at ha
          rw [← ha, h2]
          exact ⟨hl1, hv⟩)
    (List.range n) (w, o.vertexData)
    (fun hf arr harr => ⟨hlen hf arr harr, hvd arr harr⟩)
    (fun i hi => List.mem_range.mp hi)
  refine ⟨st.1, { o with vertexData := st.2 }, ?_⟩
  simp only [hst]

end cyl
section circ
variable {F : Type}
variable [Zero F] [One F] [Add F] [Mul F] [NatCast F] [CMath F]

theorem addCircleStep_emits (c : Vec3 F) (r : F) (f : Bool) (col : Vec4 F) (t : Mat4 F)
    (ang : F) (st : CircleState F) (i : Nat) (st' : CircleState F)
    (h : addCircleStep c r f col t ang st i = .ok st') :
    Emits st.world (if f then 0 else 1) (if f then 2 else 0) st'.world := by
  unfold addCircleStep at h
  simp only at h
  cases f
  · simp only [Bool.false_eq_true, if_false, Except.ok.injEq, Gizmos.addLine1] at h
    rw [← h]
    repeat (first | exact Emits.nil _ | apply Emits.line | apply Emits.tri)
  · simp only [if_true] at h
    split at h
    · split at h
      · simp only [Except.ok.injEq] at h
        rw [← h]
        repeat (first | exact Emits.nil _ | apply Emits.line | apply Emits.tri)
      · cases h
    · simp only [Except.ok.injEq] at h
      rw [← h]
      repeat (first | exact Emits.nil _ | apply Emits.line | apply Emits.tri)

variable [Div F]

theorem addCircle_emits (heap : Nat → Vec3 F) (c : Vec3 F) (r : F) (n : Nat) (f : Bool)
    (col : Vec4 F) (t : Mat4 F) (vd vc : Bool) (w w' : World F) (out : VertexOut F)
    (h : Gizmos.addCircle heap c r n f col t vd vc w = .ok (w', out)) :
    Emits w (if f then 0 else n) (if f then 2 * n else 0) w' := by
  unfold Gizmos.addCircle at h
  simp only at h
  split at h
  · cases h
  · split at h
    · cases h
    · rename_i st hst
      simp only [Except.ok.injEq, Prod.mk.injEq] at h
      have := foldlM_emits _ CircleState.world (fun _ => if f then 0 else 1)
        (fun _ => if f then 2 else 0) (addCircleStep_emits c r f col t _) _ _ _ hst
      rw [← h.1]
      refine this.cast ?_ ?_
      · cases f <;> simp
      · cases f <;> simp [Nat.mul_comm]

theorem addCircle_ok (heap : Nat → Vec3 F) (c : Vec3 F) (r : F) (n : Nat) (f : Bool)
    (col : Vec4 F) (t : Mat4 F) (vd vc : Bool) (w : World F) (hout : vd = true → vc = true)
    (hfit : vd = true → f = true → n * 3 < 2 ^ 32) :
    ∃ w' out, Gizmos.addCircle heap c r n f col t vd vc w = .ok (w', out) := by
  unfold Gizmos.addCircle
  simp only
  have halloc : ∃ o : VertexOut F, allocOut heap vd vc (u32 (n * 3)) = .ok o ∧
      (f = true → ∀ arr, o.vertexData = some arr → arr.length = n * 3 ∧ vd = true) := by
    unfold allocOut
    cases vd
    · exact ⟨_, rfl, fun _ arr h => by simp at h⟩
    · rw [hout rfl]
      refine ⟨_, rfl, fun hf arr h => ?_⟩
      simp only [if_true, Option.some.injEq] at h
      rw [← h, newArray_length, u32_of_lt _ (hfit rfl hf)]
      exact ⟨rfl, rfl⟩
  obtain ⟨o, ho, hlen⟩ := halloc
  rw [ho]
  obtain ⟨st, hst, -⟩ := foldlM_ok
    (addCircleStep c r f col t ((2 * CMath.pi) / (n : F)))
    (fun st => f = true → ∀ arr, st.arr = some arr → arr.length = n * 3 ∧ vd = true)
    (fun i => i < n)
    (by
      intro s i hs hi
      unfold addCircleStep
      simp only
      cases hf : f
      · refine ⟨_, rfl, fun h => by cases h⟩
      · simp only [if_true]
        cases harr : s.arr with
        | none => exact ⟨_, rfl, fun _ arr h => by cases h⟩
        | some arr =>
          obtain ⟨hl1, hv⟩ := hs hf arr harr
          have hlt := hfit hv hf
          obtain ⟨arr', h1, h2⟩ := circleStores_ok arr i c
            (t.mulVec s.v3Edge1).xyz
            (c + (t.mulVec ⟨CMath.sinf (((i + 1 : Nat) : F) * ((2 * CMath.pi) / (n : F))) * r, 0,
              CMath.cosf (((i + 1 : Nat) : F) * ((2 * CMath.pi) / (n : F))) * r, 0⟩).xyz)
            (by omega) (by omega)
          simp only
          rw [h1]
          refine ⟨_, rfl, fun _ a ha => ?_⟩
          simp only [Option.some.injEq] at ha
          rw [← ha, h2]
          exact ⟨hl1, hv⟩)
    (List.range n) { world := w, v3Edge1 := ⟨0, 0, r, 0⟩, arr := o.vertexData }
    (fun hf arr harr => hlen hf arr harr)
    (fun i hi => List.mem_range.mp hi)
  refine ⟨st.world, { o with vertexData := st.arr }, ?_⟩
  simp only [hst]

end circ

section sphere
variable {F : Type}
variable [One F] [Mul F] [NatCast F] [LT F] [DecidableRel (fun a b : F => a < b)] [CMath F]

theorem sphereFaceStep_emits (cols : Int) (col : Vec4 F) (lr : F) (arr : List (Vec3 F))
    (w : World F) (face : Nat) (w' : World F)
    (h : sphereFaceStep cols col lr arr w face = .ok w') :
    Emits w (if Int.tmod (face : Int) cols = 0 ∧ lr < CMath.pi * 2 then 1 else 2)
      (if Int.tmod (face : Int) cols = 0 ∧ lr < CMath.pi * 2 then 0 else 2) w' := by
  unfold sphereFaceStep at h
  simp only [bind, Except.bind, pure, Except.pure] at h
  repeat' split at h
  all_goals cases h
  all_goals first
    | rw [if_pos (by assumption), if_pos (by assumption)]
    | rw [if_neg (by assumption), if_neg (by assumption)]
  all_goals repeat (first | exact Emits.nil _ | apply Emits.line | apply Emits.tri)

end sphere
section sphere2
variable {F : Type}
variable [Zero F] [One F] [Add F] [Sub F] [Mul F] [Div F] [Neg F] [NatCast F]
    [IntCast F] [LT F] [DecidableRel (fun a b : F => a < b)] [CMath F]

theorem addSphere_emits (heap : Nat → Vec3 F) (c : Vec3 F) (rows cols : Int) (r : F)
    (col : Vec4 F) (t : Option (Mat4 F)) (lmin lmax amin amax : F) (vd vc : Bool)
    (w w' : World F) (out : VertexOut F)
    (h : Gizmos.addSphere heap c rows cols r col t lmin lmax amin amax vd vc w = .ok (w', out)) :
    Emits w
      ((List.range (rows * cols).toNat).map (fun face : Nat =>
        if Int.tmod (face : Int) cols = 0 ∧ (lmax - lmin) * (CMath.pi / 180) < CMath.pi * 2
        then 1 else 2)).sum
      ((List.range (rows * cols).toNat).map (fun face : Nat =>
        if Int.tmod (face : Int) cols = 0 ∧ (lmax - lmin) * (CMath.pi / 180) < CMath.pi * 2
        then 0 else 2)).sum w' := by
  unfold Gizmos.addSphere at h
  simp only [bind, Except.bind, pure, Except.pure, throw, throwThe, MonadExceptOf.throw] at h
  repeat' split at h
  all_goals try cases h
  all_goals
    rename_i hfold
    exact foldlM_emits _ id _ _ (sphereFaceStep_emits cols col _ _) _ _ _ hfold

end sphere2


/-! ## Invariants of call sequences -/
section claimlemmas
variable {F : Type}

theorem sampleWorld_singleton (a b : Nat) :
    (sampleWorld a b).sm_singleton = some (sampleBatch a b) := rfl

theorem Gizmos.new_wf (a b : Nat) (lineMem : Nat → GizmoLine F) (triMem : Nat → GizmoTri F)
    (h : GLHandles) : (Gizmos.new a b lineMem triMem h).WF := by
  simp [Gizmos.WF, Gizmos.new]

theorem map_fst_ok {α β : Type} (x : Except Fault (α × β)) (a : α)
    (h : x.map Prod.fst = .ok a) : ∃ b, x = .ok (a, b) := by
  cases x with
  | error e => cases h
  | ok p =>
    obtain ⟨p1, p2⟩ := p
    simp only [Except.map, Except.ok.injEq] at h
    exact ⟨p2, by rw [← h]⟩

theorem draw_singleton (pv : Mat4 F) (loc : Nat) (w : World F) :
    (Gizmos.draw pv loc w).sm_singleton = w.sm_singleton := by
  unfold Gizmos.draw
  split
  · split <;> rfl
  · rfl

theorem Emits.wf [One F] {w w' : World F} {a b : Nat} (h : Emits w a b w') {g : Gizmos F}
    (hg : w.sm_singleton = some g) (hwf : g.WF) :
    ∃ g', w'.sm_singleton = some g' ∧ g'.WF ∧ g.Grows g' := by
  obtain ⟨g', hg', -, hgr⟩ := h.grows hg
  obtain ⟨w1, w2, w3, w4⟩ := hwf
  have hlc := h.lineCount hg w3 hg'
  have htc := h.triCount hg w4 hg'
  have hgr0 := hgr
  obtain ⟨a1, a2, -, -, a5, a6, -, -⟩ := hgr0
  refine ⟨g', hg', ⟨by rw [a5, a1, w1], by rw [a6, a2, w2], ?_, ?_⟩, hgr⟩
  · rw [hlc, a1]; exact Nat.min_le_right _ _
  · rw [htc, a2]; exact Nat.min_le_right _ _

variable [Zero F] [One F] [Add F] [Sub F] [Mul F] [Div F] [Neg F] [NatCast F] [IntCast F]
  [LT F] [DecidableRel (fun a b : F => a < b)] [CMath F]

/-- Every call other than `clear` and `draw` only hands primitives to the batch. -/
theorem exec_emits (c : Call F) (w w' : World F) (h : c.exec w = .ok w') :
    (∃ a b, Emits w a b w') ∨ (∃ pv loc, w' = Gizmos.draw pv loc w) ∨
      (c.isClear = true ∧ Gizmos.clear w = .ok w') := by
  cases c with
  | clear => exact Or.inr (Or.inr ⟨rfl, h⟩)
  | draw pv loc =>
    simp only [Call.exec, Except.ok.injEq] at h
    exact Or.inr (Or.inl ⟨pv, loc, h.symm⟩)
  | addLine p0 p1 c0 c1 =>
    simp only [Call.exec, Except.ok.injEq] at h
    exact Or.inl ⟨_, _, h ▸ (Emits.nil w).line p0 p1 c0 c1⟩
  | addLine1 p0 p1 c0 =>
    simp only [Call.exec, Except.ok.injEq, Gizmos.addLine1] at h
    exact Or.inl ⟨_, _, h ▸ (Emits.nil w).line p0 p1 c0 c0⟩
  | addTri p0 p1 p2 c0 =>
    simp only [Call.exec, Except.ok.injEq] at h
    exact Or.inl ⟨_, _, h ▸ (Emits.nil w).tri p0 p1 p2 c0⟩
  | addTransform m s =>
    simp only [Call.exec, Except.ok.injEq] at h
    exact Or.inl ⟨_, _, h ▸ addTransform_emits m s w⟩
  | addBox c d f col t vd vc =>
    obtain ⟨out, ho⟩ := map_fst_ok _ _ h
    exact Or.inl ⟨_, _, addBox_emits c d f col t vd vc w w' out ho⟩
  | addCylinder heap c r hl n f col t vd vc =>
    obtain ⟨out, ho⟩ := map_fst_ok _ _ h
    exact Or.inl ⟨_, _, addCylinder_emits heap c r hl n f col t vd vc w w' out ho⟩
  | addCircle heap c r n f col t vd vc =>
    obtain ⟨out, ho⟩ := map_fst_ok _ _ h
    exact Or.inl ⟨_, _, addCircle_emits heap c r n f col t vd vc w w' out ho⟩
  | addSphere heap c rows cols r col t lmin lmax amin amax vd vc =>
    obtain ⟨out, ho⟩ := map_fst_ok _ _ h
    exact Or.inl ⟨_, _, addSphere_emits heap c rows cols r col t lmin lmax amin amax vd vc
      w w' out ho⟩

/-- Every successful call keeps the batch, its well-formedness and its capacities. -/
theorem exec_keeps (c : Call F) (w w' : World F) (g : Gizmos F)
    (hg : w.sm_singleton = some g) (hwf : g.WF) (h : c.exec w = .ok w') :
    ∃ g', w'.sm_singleton = some g' ∧ g'.WF ∧ g'.m_maxLines = g.m_maxLines ∧
      g'.m_maxTris = g.m_maxTris := by
  rcases exec_emits c w w' h with ⟨a, b, he⟩ | ⟨pv, loc, rfl⟩ | ⟨-, hc⟩
  · obtain ⟨g', hg', hwf', hgr⟩ := he.wf hg hwf
    exact ⟨g', hg', hwf', hgr.1, hgr.2.1⟩
  · exact ⟨g, by rw [draw_singleton, hg], hwf, rfl, rfl⟩
  · simp only [Gizmos.clear, hg, Except.ok.injEq] at hc
    subst hc
    obtain ⟨w1, w2, -, -⟩ := hwf
    exact ⟨_, rfl, ⟨w1, w2, Nat.zero_le _, Nat.zero_le _⟩, rfl, rfl⟩

/-- Every successful run of calls keeps the batch, its well-formedness and its capacities. -/
theorem runCalls_keeps (cs : List (Call F)) (w w' : World F) (g : Gizmos F)
    (hg : w.sm_singleton = some g) (hwf : g.WF) (h : runCalls cs w = .ok w') :
    ∃ g', w'.sm_singleton = some g' ∧ g'.WF ∧ g'.m_maxLines = g.m_maxLines ∧
      g'.m_maxTris = g.m_maxTris := by
  induction cs generalizing w g with
  | nil =>
    simp only [runCalls, List.foldlM_nil, pure, Except.pure, Except.ok.injEq] at h
    subst h
    exact ⟨g, hg, hwf, rfl, rfl⟩
  | cons c cs ih =>
    unfold runCalls at h
    rw [List.foldlM_cons] at h
    cases hc : c.exec w with
    | error e => rw [hc] at h; cases h
    | ok w1 =>
      rw [hc] at h
      obtain ⟨g1, hg1, hwf1, hm1, hm2⟩ := exec_keeps c w w1 g hg hwf hc
      obtain ⟨g2, hg2, hwf2, hn1, hn2⟩ := ih w1 g1 hg1 hwf1 h
      exact ⟨g2, hg2, hwf2, hn1.trans hm1, hn2.trans hm2⟩

end claimlemmas

/-! ## Faults of the vertex output -/
section overflow
variable {F : Type}

theorem foldlM_range_error {σ : Type} (f : σ → Nat → Except Fault σ) (s : σ) (n : Nat)
    (e : Fault) (hn : 0 < n) (h : f s 0 = .error e) : (List.range n).foldlM f s = .error e := by
  obtain ⟨m, rfl⟩ : ∃ m, n = m + 1 := ⟨n - 1, by omega⟩
  rw [List.range_succ_eq_map, List.foldlM_cons, h]
  rfl

theorem writeAt_error {α : Type} (arr : List α) (i : Nat) (v : α) (h : arr.length ≤ i) :
    writeAt arr i v = .error .outOfBounds := by
  simp [writeAt, Nat.not_lt.mpr h]

theorem writeAt_cases {α : Type} (arr : List α) (i : Nat) (v : α) :
    (i < arr.length ∧ writeAt arr i v = .ok (arr.set i v)) ∨
      (arr.length ≤ i ∧ writeAt arr i v = .error .outOfBounds) := by
  by_cases h : i < arr.length
  · exact Or.inl ⟨h, writeAt_ok arr i v h⟩
  · exact Or.inr ⟨Nat.not_lt.mp h, writeAt_error arr i v (Nat.not_lt.mp h)⟩

theorem writeAt_bind_error {α β : Type} (arr : List α) (i : Nat) (v : α)
    (k : List α → Except Fault β)
    (hk : ∀ a, a.length = arr.length → k a = .error .outOfBounds) :
    (writeAt arr i v >>= k) = .error .outOfBounds := by
  rcases writeAt_cases arr i v with ⟨-, e⟩ | ⟨-, e⟩ <;> rw [e]
  · exact hk _ (by simp)
  · rfl

theorem circleStores_short (arr : List (Vec3 F)) (p0 p1 p2 : Vec3 F) (h : arr.length < 3) :
    circleStores arr 0 p0 p1 p2 = .error .outOfBounds := by
  have e : ∀ k, k < 3 → u32 k = k := fun k hk => u32_of_lt k (by omega)
  unfold circleStores
  simp only [Nat.zero_mul, Nat.zero_add, e 0 (by omega), e 1 (by omega), e 2 (by omega)]
  refine writeAt_bind_error _ _ _ _ (fun a1 h1 => ?_)
  refine writeAt_bind_error _ _ _ _ (fun a2 h2 => ?_)
  exact writeAt_error _ _ _ (by omega)

theorem cylinderStores_short (arr : List (Vec3 F)) (t0 t1 t2 b0 b1 b2 : Vec3 F)
    (h : arr.length < 12) :
    cylinderStores arr 0 t0 t1 t2 b0 b1 b2 = .error .outOfBounds := by
  have e : ∀ k, k < 12 → u32 k = k := fun k hk => u32_of_lt k (by omega)
  unfold cylinderStores
  simp only [Nat.zero_mul, Nat.zero_add, e 0 (by omega), e 1 (by omega),
    e 2 (by omega), e 3 (by omega), Nat.reduceAdd, e 4 (by omega), e 5 (by omega),
    e 6 (by omega), e 7 (by omega), e 8 (by omega), e 9 (by omega), e 10 (by omega),
    e 11 (by omega)]
  refine writeAt_bind_error _ _ _ _ (fun a1 h1 => ?_)
  refine writeAt_bind_error _ _ _ _ (fun a2 h2 => ?_)
  refine writeAt_bind_error _ _ _ _ (fun a3 h3 => ?_)
  refine writeAt_bind_error _ _ _ _ (fun a4 h4 => ?_)
  refine writeAt_bind_error _ _ _ _ (fun a5 h5 => ?_)
  refine writeAt_bind_error _ _ _ _ (fun a6 h6 => ?_)
  refine writeAt_bind_error _ _ _ _ (fun a7 h7 => ?_)
  refine writeAt_bind_error _ _ _ _ (fun a8 h8 => ?_)
  refine writeAt_bind_error _ _ _ _ (fun a9 h9 => ?_)
  refine writeAt_bind_error _ _ _ _ (fun a10 h10 => ?_)
  refine writeAt_bind_error _ _ _ _ (fun a11 h11 => ?_)
  exact writeAt_error _ _ _ (by omega)

variable [Zero F] [One F] [Add F] [Mul F] [NatCast F] [CMath F]

/-- With the vertex output requested, a filled circle whose `unsigned int` array length
`3 * a_segments mod 2 ^ 32` is below 3 stores past its array in the first iteration. -/
theorem addCircle_overflow [Div F] (heap : Nat → Vec3 F) (c : Vec3 F) (r : F) (n : Nat)
    (col : Vec4 F) (t : Mat4 F) (w : World F) (hn : 0 < n) (hu : u32 (n * 3) < 3) :
    Gizmos.addCircle heap c r n true col t true true w = .error .outOfBounds := by
  have hstep : ∀ (ang : F) (e1 : Vec4 F),
      addCircleStep c r true col t ang
        { world := w, v3Edge1 := e1, arr := some (newArray heap (u32 (n * 3))) } 0 =
        .error .outOfBounds := by
    intro ang e1
    unfold addCircleStep
    simp only [if_true]
    rw [circleStores_short _ _ _ _ (by rw [newArray_length]; exact hu)]
  unfold Gizmos.addCircle
  simp only [allocOut, if_true]
  rw [foldlM_range_error _ _ n _ hn (hstep _ _)]

/-- With the vertex output requested, a filled cylinder whose `unsigned int` array length
`12 * a_segments mod 2 ^ 32` is below 12 stores past its array in the first iteration. -/
theorem addCylinder_overflow [Div F] [Neg F] (heap : Nat → Vec3 F) (c : Vec3 F) (r hl : F)
    (n : Nat) (col : Vec4 F) (t : Mat4 F) (w : World F) (hn : 0 < n)
    (hu : u32 (n * 12) < 12) :
    Gizmos.addCylinder heap c r hl n true col t true true w = .error .outOfBounds := by
  have hstep : ∀ (seg : F),
      addCylinderStep c r hl true col t seg (w, some (newArray heap (u32 (n * 12)))) 0 =
        .error .outOfBounds := by
    intro seg
    unfold addCylinderStep
    simp only [if_true]
    rw [cylinderStores_short _ _ _ _ _ _ _ (by rw [newArray_length]; exact hu)]
  unfold Gizmos.addCylinder
  simp only [allocOut, if_true]
  rw [foldlM_range_error _ _ n _ hn (hstep _)]

end overflow

/-! ## The claims -/
section claims1
variable {F : Type}

theorem numLines_map_line (ls : List (Vec3 F × Vec3 F × Vec4 F × Vec4 F)) :
    numLines (ls.map (fun a => Prim.line a.1 a.2.1 a.2.2.1 a.2.2.2)) = ls.length := by
  induction ls with
  | nil => rfl
  | cons a ls ih => rw [List.map_cons, numLines_cons, ih]; simp [Prim.isLine]; omega

variable [Zero F] [One F] [Add F] [Sub F] [Mul F] [Div F] [Neg F] [NatCast F] [IntCast F]
  [LT F] [DecidableRel (fun a b : F => a < b)] [CMath F]

theorem runCalls_ofLine (ls : List (Vec3 F × Vec3 F × Vec4 F × Vec4 F)) (w : World F) :
    runCalls (ls.map Call.ofLine) w =
      .ok (emitAll (ls.map (fun a => Prim.line a.1 a.2.1 a.2.2.1 a.2.2.2)) w) := by
  induction ls generalizing w with
  | nil => rfl
  | cons a ls ih =>
    have := ih (Gizmos.addLine a.1 a.2.1 a.2.2.1 a.2.2.2 w)
    unfold runCalls at this ⊢
    rw [List.map_cons, List.foldlM_cons]
    simp only [Call.ofLine, Call.exec, List.map_cons, emitAll_cons, emit]
    exact this

/-- C1: capacity invariant. In every world reached from `create(maxLines, maxTris)` (called
when no batch exists) by a finite sequence of calls of clear, addLine, addTri, addTransform,
addBox, addCylinder, addCircle, addSphere and draw with any arguments, the batch exists,
`lineCount ≤ maxLines`, `triCount ≤ maxTris`, and both capacities are the values given to
`create`. -/
theorem capacity_invariant (maxLines maxTris : Nat) (lineMem : Nat → GizmoLine F)
    (triMem : Nat → GizmoTri F) (h : GLHandles) (w0 : World F) (h0 : w0.sm_singleton = none)
    (cs : List (Call F)) (w : World F)
    (hrun : runCalls cs (Gizmos.create maxLines maxTris lineMem triMem h w0) = .ok w) :
    ∃ g, w.sm_singleton = some g ∧ g.m_lineCount ≤ g.m_maxLines ∧
      g.m_triCount ≤ g.m_maxTris ∧ g.m_maxLines = maxLines ∧ g.m_maxTris = maxTris := by
  have hc : (Gizmos.create maxLines maxTris lineMem triMem h w0).sm_singleton =
      some (Gizmos.new maxLines maxTris lineMem triMem h) := by
    simp [Gizmos.create, h0]
  obtain ⟨g, hg, hwf, hm1, hm2⟩ :=
    runCalls_keeps cs _ w _ hc (Gizmos.new_wf maxLines maxTris lineMem triMem h) hrun
  exact ⟨g, hg, hwf.2.2.1, hwf.2.2.2, hm1, hm2⟩

end claims1

/-- Witness for C1: the run `sampleCalls` (addLine, addLine, clear, addTri, draw) on a batch
created with capacities 1 and 1. -/
theorem capacity_invariant_witness :
    (World.empty : World ℚ).sm_singleton = none ∧
    runCalls sampleCalls (sampleWorld 1 1) = .ok sampleFinal ∧
    ∃ g, sampleFinal.sm_singleton = some g ∧ g.m_lineCount ≤ g.m_maxLines ∧
      g.m_triCount ≤ g.m_maxTris ∧ g.m_maxLines = 1 ∧ g.m_maxTris = 1 :=
  ⟨rfl, rfl, capacity_invariant 1 1 sampleLineMem sampleTriMem sampleHandles World.empty rfl
    sampleCalls sampleFinal rfl⟩

section claims2
variable {F : Type} [One F]

/-- C2: `addLine(p0, p1, color0, color1)` on a created batch. With `lineCount < maxLines`
the record at index (old `lineCount`) becomes the line from `(p0, 1)` with colour `color0`
to `(p1, 1)` with colour `color1` and `lineCount` grows by exactly 1; with
`lineCount = maxLines` the whole world is unchanged. In both cases the triangle buffer and
`triCount` are unchanged. -/
theorem addLine_spec (w : World F) (g : Gizmos F) (hg : w.sm_singleton = some g)
    (hwf : g.WF) (p0 p1 : Vec3 F) (c0 c1 : Vec4 F) :
    (g.m_lineCount < g.m_maxLines →
      ∃ g', (Gizmos.addLine p0 p1 c0 c1 w).sm_singleton = some g' ∧
        g'.m_lines.get? g.m_lineCount =
          some ⟨⟨⟨p0.x, p0.y, p0.z, 1⟩, c0⟩, ⟨⟨p1.x, p1.y, p1.z, 1⟩, c1⟩⟩ ∧
        g'.m_lineCount = g.m_lineCount + 1) ∧
    (g.m_lineCount = g.m_maxLines → Gizmos.addLine p0 p1 c0 c1 w = w) ∧
    (∃ g', (Gizmos.addLine p0 p1 c0 c1 w).sm_singleton = some g' ∧ g'.m_tris = g.m_tris ∧
      g'.m_triCount = g.m_triCount) := by
  refine ⟨fun hroom => ?_, fun hfull => addLine_full p0 p1 c0 c1 w g hg (Nat.le_of_eq hfull.symm),
    ?_⟩
  · rw [addLine_room p0 p1 c0 c1 w g hg hroom]
    refine ⟨_, rfl, ?_, rfl⟩
    have hlen : g.m_lineCount < g.m_lines.length := by rw [hwf.1]; exact hroom
    simp [List.getElem?_set, hlen, vec4]
  · by_cases hroom : g.m_lineCount < g.m_maxLines
    · rw [addLine_room p0 p1 c0 c1 w g hg hroom]
      exact ⟨_, rfl, rfl, rfl⟩
    · rw [addLine_full p0 p1 c0 c1 w g hg (Nat.not_lt.mp hroom)]
      exact ⟨g, hg, rfl, rfl⟩

/-- C4: `addTri(p0, p1, p2, color)` on a created batch. With `triCount < maxTris` the record
at index (old `triCount`) gets the positions `(p0, 1)`, `(p1, 1)`, `(p2, 1)`, all three
colours equal to `color`, and `triCount` grows by exactly 1; with `triCount = maxTris` the
whole world is unchanged. In both cases the line buffer and `lineCount` are unchanged. -/
theorem addTri_spec (w : World F) (g : Gizmos F) (hg : w.sm_singleton = some g)
    (hwf : g.WF) (p0 p1 p2 : Vec3 F) (c : Vec4 F) :
    (g.m_triCount < g.m_maxTris →
      ∃ g', (Gizmos.addTri p0 p1 p2 c w).sm_singleton = some g' ∧
        g'.m_tris.get? g.m_triCount =
          some ⟨⟨⟨p0.x, p0.y, p0.z, 1⟩, c⟩, ⟨⟨p1.x, p1.y, p1.z, 1⟩, c⟩,
            ⟨⟨p2.x, p2.y, p2.z, 1⟩, c⟩⟩ ∧
        g'.m_triCount = g.m_triCount + 1) ∧
    (g.m_triCount = g.m_maxTris → Gizmos.addTri p0 p1 p2 c w = w) ∧
    (∃ g', (Gizmos.addTri p0 p1 p2 c w).sm_singleton = some g' ∧ g'.m_lines = g.m_lines ∧
      g'.m_lineCount = g.m_lineCount) := by
  refine ⟨fun hroom => ?_, fun hfull => addTri_full p0 p1 p2 c w g hg (Nat.le_of_eq hfull.symm),
    ?_⟩
  · rw [addTri_room p0 p1 p2 c w g hg hroom]
    refine ⟨_, rfl, ?_, rfl⟩
    have hlen : g.m_triCount < g.m_tris.length := by rw [hwf.2.1]; exact hroom
    simp [List.getElem?_set, hlen, vec4]
  · by_cases hroom : g.m_triCount < g.m_maxTris
    · rw [addTri_room p0 p1 p2 c w g hg hroom]
      exact ⟨_, rfl, rfl, rfl⟩
    · rw [addTri_full p0 p1 p2 c w g hg (Nat.not_lt.mp hroom)]
      exact ⟨g, hg, rfl, rfl⟩

/-- C5: `clear()` on an existing batch in any state succeeds, sets both counts to zero and
keeps capacities and stored records; afterwards every primitive handed in is accepted until
capacity is reached: after any sequence of addLine and addTri calls with at most `maxLines`
lines and `maxTris` triangles, `lineCount` is the number of addLine calls and `triCount` the
number of addTri calls, so each of those calls raised its count by 1. -/
theorem clear_spec (w : World F) (g : Gizmos F) (hg : w.sm_singleton = some g) :
    ∃ w1 g1, Gizmos.clear w = .ok w1 ∧ w1.sm_singleton = some g1 ∧
      g1.m_lineCount = 0 ∧ g1.m_triCount = 0 ∧
      g1.m_maxLines = g.m_maxLines ∧ g1.m_maxTris = g.m_maxTris ∧
      g1.m_lines = g.m_lines ∧ g1.m_tris = g.m_tris ∧
      ∀ ps : List (Prim F), numLines ps ≤ g.m_maxLines → numTris ps ≤ g.m_maxTris →
        ∃ g2, (emitAll ps w1).sm_singleton = some g2 ∧
          g2.m_lineCount = numLines ps ∧ g2.m_triCount = numTris ps := by
  refine ⟨{ w with sm_singleton := some { g with m_lineCount := 0, m_triCount := 0 } },
    { g with m_lineCount := 0, m_triCount := 0 }, by simp only [Gizmos.clear, hg],
    rfl, rfl, rfl, rfl, rfl, rfl, rfl, ?_⟩
  intro ps hl ht
  obtain ⟨g2, hg2, -, -⟩ := emitAll_grows ps
    { w with sm_singleton := some { g with m_lineCount := 0, m_triCount := 0 } } _ rfl
  refine ⟨g2, hg2, ?_, ?_⟩
  · rw [emitAll_lineCount ps _ _ g2 rfl (Nat.zero_le _) hg2]
    simp only [Nat.zero_add]
    exact Nat.min_eq_left hl
  · rw [emitAll_triCount ps _ _ g2 rfl (Nat.zero_le _) hg2]
    simp only [Nat.zero_add]
    exact Nat.min_eq_left ht

end claims2

section claims3
variable {F : Type}
variable [Zero F] [One F] [Add F] [Sub F] [Mul F] [Div F] [Neg F] [NatCast F] [IntCast F]
  [LT F] [DecidableRel (fun a b : F => a < b)] [CMath F]

/-- C3: silent drop at capacity. From a batch with `lineCount = 0`, any `k` consecutive
addLine calls (with any arguments) all return without error and leave
`lineCount = min(k, maxLines)`; once `k` has reached `maxLines`, every further addLine call
returns without error and leaves the whole world, hence the count and every stored record,
unchanged. -/
theorem addLine_saturates (w : World F) (g : Gizmos F) (hg : w.sm_singleton = some g)
    (h0 : g.m_lineCount = 0) (ls : List (Vec3 F × Vec3 F × Vec4 F × Vec4 F)) :
    ∃ w' g', runCalls (ls.map Call.ofLine) w = .ok w' ∧ w'.sm_singleton = some g' ∧
      g'.m_maxLines = g.m_maxLines ∧ g'.m_lineCount = min ls.length g.m_maxLines ∧
      (g.m_maxLines ≤ ls.length → ∀ a, (Call.ofLine a).exec w' = .ok w') := by
  obtain ⟨g', hg', -, hgr⟩ := emitAll_grows
    (ls.map (fun a => Prim.line a.1 a.2.1 a.2.2.1 a.2.2.2)) w g hg
  have hcount := emitAll_lineCount _ w g g' hg (by rw [h0]; exact Nat.zero_le _) hg'
  rw [numLines_map_line, h0, Nat.zero_add] at hcount
  refine ⟨_, g', runCalls_ofLine ls w, hg', hgr.1, hcount, ?_⟩
  intro hfull a
  have hfull' : g'.m_maxLines ≤ g'.m_lineCount := by
    rw [hcount, hgr.1, Nat.min_eq_right hfull]
  simp only [Call.ofLine, Call.exec]
  rw [addLine_full a.1 a.2.1 a.2.2.1 a.2.2.2 _ g' hg' hfull']

end claims3

/-- Witness for C2: a line added to a fresh batch of capacity 1. -/
theorem addLine_spec_witness :
    (sampleWorld 1 1).sm_singleton = some (sampleBatch 1 1) ∧ (sampleBatch 1 1).WF ∧
    ((sampleBatch 1 1).m_lineCount < (sampleBatch 1 1).m_maxLines →
      ∃ g', (Gizmos.addLine ⟨0, 0, 0⟩ ⟨1, 2, 3⟩ vWhite vWhite (sampleWorld 1 1)).sm_singleton
          = some g' ∧
        g'.m_lines.get? (sampleBatch 1 1).m_lineCount =
          some ⟨⟨⟨0, 0, 0, 1⟩, vWhite⟩, ⟨⟨1, 2, 3, 1⟩, vWhite⟩⟩ ∧
        g'.m_lineCount = (sampleBatch 1 1).m_lineCount + 1) :=
  ⟨rfl, by decide,
    (addLine_spec (sampleWorld 1 1) (sampleBatch 1 1) rfl (by decide) ⟨0, 0, 0⟩ ⟨1, 2, 3⟩
      vWhite vWhite).1⟩

/-- Witness for C4: a triangle added to a fresh batch of capacity 1 is stored at index 0
and counted; a triangle added to a batch of capacity 0, which is full, changes nothing. -/
theorem addTri_spec_witness :
    ((sampleWorld 1 1).sm_singleton = some (sampleBatch 1 1) ∧ (sampleBatch 1 1).WF ∧
      (sampleBatch 1 1).m_triCount < (sampleBatch 1 1).m_maxTris ∧
      ∃ g', (Gizmos.addTri ⟨0, 0, 0⟩ ⟨1, 2, 3⟩ ⟨4, 5, 6⟩ vWhite (sampleWorld 1 1)).sm_singleton
          = some g' ∧
        g'.m_tris.get? (sampleBatch 1 1).m_triCount =
          some ⟨⟨⟨0, 0, 0, 1⟩, vWhite⟩, ⟨⟨1, 2, 3, 1⟩, vWhite⟩, ⟨⟨4, 5, 6, 1⟩, vWhite⟩⟩ ∧
        g'.m_triCount = (sampleBatch 1 1).m_triCount + 1) ∧
    ((sampleWorld 1 0).sm_singleton = some (sampleBatch 1 0) ∧ (sampleBatch 1 0).WF ∧
      (sampleBatch 1 0).m_triCount = (sampleBatch 1 0).m_maxTris ∧
      Gizmos.addTri ⟨0, 0, 0⟩ ⟨1, 2, 3⟩ ⟨4, 5, 6⟩ vWhite (sampleWorld 1 0) = sampleWorld 1 0) :=
  ⟨⟨rfl, by decide, by decide,
      (addTri_spec (sampleWorld 1 1) (sampleBatch 1 1) rfl (by decide) ⟨0, 0, 0⟩ ⟨1, 2, 3⟩
        ⟨4, 5, 6⟩ vWhite).1 (by decide)⟩,
    ⟨rfl, by decide, by decide,
      (addTri_spec (sampleWorld 1 0) (sampleBatch 1 0) rfl (by decide) ⟨0, 0, 0⟩ ⟨1, 2, 3⟩
        ⟨4, 5, 6⟩ vWhite).2.1 (by decide)⟩⟩

/-- Witness for C5: clearing a fresh batch of capacities 2 and 3. -/
theorem clear_spec_witness :
    (sampleWorld 2 3).sm_singleton = some (sampleBatch 2 3) ∧
    ∃ w1 g1, Gizmos.clear (sampleWorld 2 3) = .ok w1 ∧ w1.sm_singleton = some g1 ∧
      g1.m_lineCount = 0 ∧ g1.m_triCount = 0 ∧
      g1.m_maxLines = 2 ∧ g1.m_maxTris = 3 ∧
      g1.m_lines = (sampleBatch 2 3).m_lines ∧ g1.m_tris = (sampleBatch 2 3).m_tris ∧
      ∀ ps : List (Prim ℚ), numLines ps ≤ 2 → numTris ps ≤ 3 →
        ∃ g2, (emitAll ps w1).sm_singleton = some g2 ∧
          g2.m_lineCount = numLines ps ∧ g2.m_triCount = numTris ps :=
  ⟨rfl, clear_spec (sampleWorld 2 3) (sampleBatch 2 3) rfl⟩

/-- Witness for C3: three addLine calls on a fresh batch of capacity 2. -/
theorem addLine_saturates_witness :
    (sampleWorld 2 0).sm_singleton = some (sampleBatch 2 0) ∧
    (sampleBatch 2 0).m_lineCount = 0 ∧
    ∃ w' g', runCalls
        ([(⟨0, 0, 0⟩, ⟨1, 0, 0⟩, vWhite, vWhite), (⟨0, 0, 0⟩, ⟨0, 1, 0⟩, vWhite, vWhite),
          (⟨0, 0, 0⟩, ⟨0, 0, 1⟩, vWhite, vWhite)].map Call.ofLine) (sampleWorld 2 0) = .ok w' ∧
      w'.sm_singleton = some g' ∧ g'.m_maxLines = 2 ∧ g'.m_lineCount = min 3 2 ∧
      (2 ≤ 3 → ∀ a, (Call.ofLine a).exec w' = .ok w') :=
  ⟨rfl, rfl, addLine_saturates (sampleWorld 2 0) (sampleBatch 2 0) rfl rfl _⟩

section claims4
variable {F : Type}
variable [Zero F] [One F] [Add F] [Sub F] [Mul F] [Div F] [Neg F] [NatCast F] [IntCast F]
  [LT F] [DecidableRel (fun a b : F => a < b)] [CMath F]

/-- While no batch exists, every call other than `clear` that returns leaves the world as it
was: no batch appears and no OpenGL call is issued. -/
theorem exec_without_batch (c : Call F) (hc : c.isClear = false) (w w' : World F)
    (hn : w.sm_singleton = none) (h : c.exec w = .ok w') : w' = w := by
  rcases exec_emits c w w' h with ⟨a, b, he⟩ | ⟨pv, loc, rfl⟩ | ⟨hc', -⟩
  · exact he.none hn
  · simp [Gizmos.draw, hn]
  · rw [hc] at hc'; cases hc'

/-- C7: records are immutable once written. Every call other than `clear` (every add
operation, and draw) with any arguments that returns keeps every line record below the old
`lineCount` and every triangle record below the old `triCount`, and decreases neither
count. -/
theorem records_immutable (c : Call F) (hc : c.isClear = false) (w w' : World F)
    (g : Gizmos F) (hg : w.sm_singleton = some g) (h : c.exec w = .ok w') :
    ∃ g', w'.sm_singleton = some g' ∧
      (∀ i, i < g.m_lineCount → g'.m_lines.get? i = g.m_lines.get? i) ∧
      (∀ i, i < g.m_triCount → g'.m_tris.get? i = g.m_tris.get? i) ∧
      g.m_lineCount ≤ g'.m_lineCount ∧ g.m_triCount ≤ g'.m_triCount := by
  rcases exec_emits c w w' h with ⟨a, b, he⟩ | ⟨pv, loc, rfl⟩ | ⟨hc', -⟩
  · obtain ⟨g', hg', -, hgr⟩ := he.grows hg
    exact ⟨g', hg', hgr.2.2.2.2.2.2.1, hgr.2.2.2.2.2.2.2, hgr.2.2.1, hgr.2.2.2.1⟩
  · exact ⟨g, by rw [draw_singleton, hg], fun _ _ => rfl, fun _ _ => rfl, le_refl _, le_refl _⟩
  · rw [hc] at hc'; cases hc'

end claims4

section claims5
variable {F : Type} [Zero F] [One F] [Add F] [Sub F] [Mul F] [Div F] [NatCast F]

/-- C8: `addBox` record count. For every centre, dimensions, fill colour and transform, with
the vertex output either not requested or requested together with its count, on a batch with
at least 12 free line slots and 12 free triangle slots, `addBox` returns, `lineCount` grows
by exactly 12, and `triCount` grows by exactly 12 when filled and by 0 otherwise. -/
theorem addBox_count (c d : Vec3 F) (f : Bool) (col : Vec4 F) (t : Mat4 F) (vd vc : Bool)
    (hout : vd = true → vc = true) (w : World F) (g : Gizmos F)
    (hg : w.sm_singleton = some g) (hl : g.m_lineCount + 12 ≤ g.m_maxLines)
    (ht : g.m_triCount + 12 ≤ g.m_maxTris) :
    ∃ w' out g', Gizmos.addBox c d f col t vd vc w = .ok (w', out) ∧
      w'.sm_singleton = some g' ∧ g'.m_lineCount = g.m_lineCount + 12 ∧
      g'.m_triCount = g.m_triCount + (if f then 12 else 0) := by
  obtain ⟨w', out, hok⟩ := addBox_ok c d f col t vd vc w hout
  have he := addBox_emits c d f col t vd vc w w' out hok
  obtain ⟨g', hg', -, -⟩ := he.grows hg
  refine ⟨w', out, g', hok, hg', ?_, ?_⟩
  · rw [he.lineCount hg (by omega) hg']
    exact Nat.min_eq_left hl
  · rw [he.triCount hg (by omega) hg']
    apply Nat.min_eq_left
    split <;> omega

end claims5

section claims6
variable {F : Type} [Zero F] [One F] [Add F] [Mul F] [Div F] [NatCast F] [CMath F]

/-- C9 as amended: `addCircle` record count. For every segment count `n` and any other
arguments in which a requested vertex output comes with its count and, when filled, `3 * n`
fits an `unsigned int`, on a well-formed batch with `n` free line slots (unfilled) or
`2 * n` free triangle slots (filled), `addCircle` returns; unfilled it raises `lineCount` by
exactly `n` and keeps `triCount`, filled it raises `triCount` by exactly `2 * n` and keeps
`lineCount`. -/
theorem addCircle_count (heap : Nat → Vec3 F) (c : Vec3 F) (r : F) (n : Nat) (f : Bool)
    (col : Vec4 F) (t : Mat4 F) (vd vc : Bool) (hout : vd = true → vc = true)
    (hfit : vd = true → f = true → n * 3 < 2 ^ 32) (w : World F) (g : Gizmos F)
    (hg : w.sm_singleton = some g) (hwf : g.WF)
    (hl : f = false → g.m_lineCount + n ≤ g.m_maxLines)
    (ht : f = true → g.m_triCount + 2 * n ≤ g.m_maxTris) :
    ∃ w' out g', Gizmos.addCircle heap c r n f col t vd vc w = .ok (w', out) ∧
      w'.sm_singleton = some g' ∧
      g'.m_lineCount = g.m_lineCount + (if f then 0 else n) ∧
      g'.m_triCount = g.m_triCount + (if f then 2 * n else 0) := by
  obtain ⟨w', out, hok⟩ := addCircle_ok heap c r n f col t vd vc w hout hfit
  have he := addCircle_emits heap c r n f col t vd vc w w' out hok
  obtain ⟨g', hg', -, -⟩ := he.grows hg
  obtain ⟨-, -, w3, w4⟩ := hwf
  refine ⟨w', out, g', hok, hg', ?_, ?_⟩
  · rw [he.lineCount hg w3 hg']
    apply Nat.min_eq_left
    cases f
    · simpa using hl rfl
    · simpa using w3
  · rw [he.triCount hg w4 hg']
    apply Nat.min_eq_left
    cases f
    · simpa using w4
    · simpa using ht rfl

end claims6

section claims7
variable {F : Type} [Zero F] [One F] [Add F] [Mul F] [Div F] [Neg F] [NatCast F] [CMath F]

/-- C10 as amended: `addCylinder` record count. For every segment count `n` and any other
arguments in which a requested vertex output comes with its count and, when filled,
`12 * n` fits an `unsigned int`, on a well-formed batch with `3 * n` free line slots and,
when filled, `4 * n` free triangle slots, `addCylinder` returns, raises `lineCount` by
exactly `3 * n`, and raises `triCount` by exactly `4 * n` when filled and by 0 otherwise. -/
theorem addCylinder_count (heap : Nat → Vec3 F) (c : Vec3 F) (r hl : F) (n : Nat) (f : Bool)
    (col : Vec4 F) (t : Mat4 F) (vd vc : Bool) (hout : vd = true → vc = true)
    (hfit : vd = true → f = true → n * 12 < 2 ^ 32) (w : World F) (g : Gizmos F)
    (hg : w.sm_singleton = some g) (hwf : g.WF)
    (hlines : g.m_lineCount + 3 * n ≤ g.m_maxLines)
    (htris : f = true → g.m_triCount + 4 * n ≤ g.m_maxTris) :
    ∃ w' out g', Gizmos.addCylinder heap c r hl n f col t vd vc w = .ok (w', out) ∧
      w'.sm_singleton = some g' ∧ g'.m_lineCount = g.m_lineCount + 3 * n ∧
      g'.m_triCount = g.m_triCount + (if f then 4 * n else 0) := by
  obtain ⟨w', out, hok⟩ := addCylinder_ok heap c r hl n f col t vd vc w hout hfit
  have he := addCylinder_emits heap c r hl n f col t vd vc w w' out hok
  obtain ⟨g', hg', -, -⟩ := he.grows hg
  obtain ⟨-, -, w3, w4⟩ := hwf
  refine ⟨w', out, g', hok, hg', ?_, ?_⟩
  · rw [he.lineCount hg w3 hg']
    exact Nat.min_eq_left hlines
  · rw [he.triCount hg w4 hg']
    apply Nat.min_eq_left
    cases f
    · simpa using w4
    · simpa using htris rfl

end claims7

/-- C6, the failing call: `clear()` while no batch exists writes through the null singleton
pointer. -/
theorem clear_without_batch_faults :
    Gizmos.clear (World.empty : World ℚ) = .error .nullDeref := rfl

/-- Witness for C7: a second line added to a batch of capacity 1 that already holds one. -/
theorem records_immutable_witness :
    (Call.addLine ⟨1, 1, 1⟩ ⟨2, 2, 2⟩ vWhite vWhite : Call ℚ).isClear = false ∧
    (Gizmos.addLine ⟨0, 0, 0⟩ ⟨1, 0, 0⟩ vWhite vWhite (sampleWorld 1 1)).sm_singleton =
      some { sampleBatch 1 1 with
        m_lines := [⟨⟨⟨0, 0, 0, 1⟩, vWhite⟩, ⟨⟨1, 0, 0, 1⟩, vWhite⟩⟩], m_lineCount := 1 } ∧
    ∃ g', (Gizmos.addLine ⟨1, 1, 1⟩ ⟨2, 2, 2⟩ vWhite vWhite
        (Gizmos.addLine ⟨0, 0, 0⟩ ⟨1, 0, 0⟩ vWhite vWhite (sampleWorld 1 1))).sm_singleton
        = some g' ∧
      (∀ i, i < 1 → g'.m_lines.get? i =
        [(⟨⟨⟨0, 0, 0, 1⟩, vWhite⟩, ⟨⟨1, 0, 0, 1⟩, vWhite⟩⟩ : GizmoLine ℚ)].get? i) ∧
      (∀ i, i < 0 → g'.m_tris.get? i = (sampleBatch 1 1).m_tris.get? i) ∧
      1 ≤ g'.m_lineCount ∧ 0 ≤ g'.m_triCount :=
  ⟨rfl, rfl, records_immutable (Call.addLine ⟨1, 1, 1⟩ ⟨2, 2, 2⟩ vWhite vWhite) rfl
    (Gizmos.addLine ⟨0, 0, 0⟩ ⟨1, 0, 0⟩ vWhite vWhite (sampleWorld 1 1)) _ _ rfl rfl⟩

/-- Witness for C8: a filled box into a fresh batch of capacities 12 and 12. -/
theorem addBox_count_witness :
    (sampleWorld 12 12).sm_singleton = some (sampleBatch 12 12) ∧
    (sampleBatch 12 12).m_lineCount + 12 ≤ (sampleBatch 12 12).m_maxLines ∧
    (sampleBatch 12 12).m_triCount + 12 ≤ (sampleBatch 12 12).m_maxTris ∧
    ∃ w' out g', Gizmos.addBox ⟨0, 0, 0⟩ ⟨2, 2, 2⟩ true vWhite Mat4.identity true true
        (sampleWorld 12 12) = .ok (w', out) ∧
      w'.sm_singleton = some g' ∧ g'.m_lineCount = (sampleBatch 12 12).m_lineCount + 12 ∧
      g'.m_triCount = (sampleBatch 12 12).m_triCount + (if true = true then 12 else 0) :=
  ⟨rfl, by decide, by decide,
    addBox_count ⟨0, 0, 0⟩ ⟨2, 2, 2⟩ true vWhite Mat4.identity true true (fun _ => rfl)
      (sampleWorld 12 12) (sampleBatch 12 12) rfl (by decide) (by decide)⟩

/-- Counterexample to C9 as stated, at two inputs with enough free slots. With a vertex array
requested and a null count pointer, `addCircle` with one segment stores through the null
pointer instead of adding its line. With both output pointers given, a filled circle of
1431655766 segments on a batch with 2863311532 free triangle slots allocates
`3 * 1431655766 mod 2 ^ 32 = 2` entries and stores past them in its first iteration. -/
theorem addCircle_count_counterexample :
    ((sampleWorld 4 4).sm_singleton = some (sampleBatch 4 4) ∧
      (sampleBatch 4 4).m_lineCount + 1 ≤ (sampleBatch 4 4).m_maxLines ∧
      Gizmos.addCircle sampleHeap ⟨0, 0, 0⟩ 1 1 false vWhite Mat4.identity true false
        (sampleWorld 4 4) = .error .nullDeref) ∧
    ((sampleWorld 0 2863311532).sm_singleton = some (sampleBatch 0 2863311532) ∧
      (sampleBatch 0 2863311532).m_triCount + 2 * 1431655766 ≤
        (sampleBatch 0 2863311532).m_maxTris ∧
      Gizmos.addCircle sampleHeap ⟨0, 0, 0⟩ 1 1431655766 true vWhite Mat4.identity true true
        (sampleWorld 0 2863311532) = .error .outOfBounds) :=
  ⟨⟨rfl, by decide, rfl⟩,
    ⟨sampleWorld_singleton 0 2863311532, by decide, addCircle_overflow _ _ _ _ _ _ _ (by decide) (by decide)⟩⟩

/-- Witness for C9 as amended: a filled circle of 2 segments with its vertex output into a
fresh batch of capacities 0 and 4. -/
theorem addCircle_count_witness :
    (sampleWorld 0 4).sm_singleton = some (sampleBatch 0 4) ∧ (sampleBatch 0 4).WF ∧
    2 * 3 < 2 ^ 32 ∧ (sampleBatch 0 4).m_triCount + 2 * 2 ≤ (sampleBatch 0 4).m_maxTris ∧
    ∃ w' out g', Gizmos.addCircle sampleHeap ⟨0, 0, 0⟩ 1 2 true vWhite Mat4.identity true true
        (sampleWorld 0 4) = .ok (w', out) ∧
      w'.sm_singleton = some g' ∧
      g'.m_lineCount = (sampleBatch 0 4).m_lineCount + (if true = true then 0 else 2) ∧
      g'.m_triCount = (sampleBatch 0 4).m_triCount + (if true = true then 2 * 2 else 0) :=
  ⟨rfl, by decide, by decide, by decide,
    addCircle_count sampleHeap ⟨0, 0, 0⟩ 1 2 true vWhite Mat4.identity true true (fun _ => rfl)
      (fun _ _ => by decide) (sampleWorld 0 4) (sampleBatch 0 4) rfl (by decide)
      (fun h => by cases h) (fun _ => by decide)⟩

/-- Counterexample to C10 as stated, at two inputs with enough free slots. With a vertex array
requested and a null count pointer, `addCylinder` with one segment stores through the null
pointer instead of adding its lines. With both output pointers given, a filled cylinder of
357913942 segments on a batch with 1073741826 free line slots and 1431655768 free triangle
slots allocates `12 * 357913942 mod 2 ^ 32 = 8` entries and stores past them in its first
iteration. -/
theorem addCylinder_count_counterexample :
    ((sampleWorld 4 4).sm_singleton = some (sampleBatch 4 4) ∧
      (sampleBatch 4 4).m_lineCount + 3 * 1 ≤ (sampleBatch 4 4).m_maxLines ∧
      Gizmos.addCylinder sampleHeap ⟨0, 0, 0⟩ 1 1 1 false vWhite Mat4.identity true false
        (sampleWorld 4 4) = .error .nullDeref) ∧
    ((sampleWorld 1073741826 1431655768).sm_singleton =
        some (sampleBatch 1073741826 1431655768) ∧
      (sampleBatch 1073741826 1431655768).m_lineCount + 3 * 357913942 ≤
        (sampleBatch 1073741826 1431655768).m_maxLines ∧
      (sampleBatch 1073741826 1431655768).m_triCount + 4 * 357913942 ≤
        (sampleBatch 1073741826 1431655768).m_maxTris ∧
      Gizmos.addCylinder sampleHeap ⟨0, 0, 0⟩ 1 1 357913942 true vWhite Mat4.identity true true
        (sampleWorld 1073741826 1431655768) = .error .outOfBounds) :=
  ⟨⟨rfl, by decide, rfl⟩,
    ⟨sampleWorld_singleton 1073741826 1431655768, by decide, by decide,
      addCylinder_overflow _ _ _ _ _ _ _ _ (by decide) (by decide)⟩⟩

/-- Witness for C10 as amended: a filled cylinder of 4 segments with its vertex output into
a fresh batch of capacities 12 and 16. -/
theorem addCylinder_count_witness :
    (sampleWorld 12 16).sm_singleton = some (sampleBatch 12 16) ∧ (sampleBatch 12 16).WF ∧
    4 * 12 < 2 ^ 32 ∧ (sampleBatch 12 16).m_lineCount + 3 * 4 ≤ (sampleBatch 12 16).m_maxLines ∧
    (sampleBatch 12 16).m_triCount + 4 * 4 ≤ (sampleBatch 12 16).m_maxTris ∧
    ∃ w' out g', Gizmos.addCylinder sampleHeap ⟨0, 0, 0⟩ 1 1 4 true vWhite Mat4.identity
        true true (sampleWorld 12 16) = .ok (w', out) ∧
      w'.sm_singleton = some g' ∧ g'.m_lineCount = (sampleBatch 12 16).m_lineCount + 3 * 4 ∧
      g'.m_triCount = (sampleBatch 12 16).m_triCount + (if true = true then 4 * 4 else 0) :=
  ⟨rfl, by decide, by decide, by decide, by decide,
    addCylinder_count sampleHeap ⟨0, 0, 0⟩ 1 1 4 true vWhite Mat4.identity true true
      (fun _ => rfl) (fun _ _ => by decide) (sampleWorld 12 16) (sampleBatch 12 16) rfl
      (by decide) (by decide) (fun _ => by decide)⟩



section recordlemmas
variable {F : Type} [One F]

theorem lineRecs_cons (p : Prim F) (ps : List (Prim F)) :
    lineRecs (p :: ps) = (match p.lineRec with | some r => r :: lineRecs ps | none => lineRecs ps) := by
  cases p <;> simp [lineRecs, List.filterMap_cons, Prim.lineRec]

theorem triRecs_cons (p : Prim F) (ps : List (Prim F)) :
    triRecs (p :: ps) = (match p.triRec with | some r => r :: triRecs ps | none => triRecs ps) := by
  cases p <;> simp [triRecs, List.filterMap_cons, Prim.triRec]

/-- On a well-formed batch with room for every primitive, handing in a list of primitives
appends their records in order at the old counts and raises the counts by their numbers. -/
theorem emitAll_records (ps : List (Prim F)) (w : World F) (g : Gizmos F)
    (hg : w.sm_singleton = some g) (hwf : g.WF)
    (hl : g.m_lineCount + numLines ps ≤ g.m_maxLines)
    (ht : g.m_triCount + numTris ps ≤ g.m_maxTris) :
    ∃ g', (emitAll ps w).sm_singleton = some g' ∧ (emitAll ps w).gl = w.gl ∧ g.Grows g' ∧
      g'.m_lineCount = g.m_lineCount + numLines ps ∧
      g'.m_triCount = g.m_triCount + numTris ps ∧
      (∀ j, j < numLines ps → g'.m_lines.get? (g.m_lineCount + j) = (lineRecs ps).get? j) ∧
      (∀ j, j < numTris ps → g'.m_tris.get? (g.m_triCount + j) = (triRecs ps).get? j) := by
  induction ps generalizing w g with
  | nil =>
    exact ⟨g, hg, rfl, Gizmos.Grows.refl g, rfl, rfl, fun j hj => absurd hj (Nat.not_lt_zero _),
      fun j hj => absurd hj (Nat.not_lt_zero _)⟩
  | cons p ps ih =>
    obtain ⟨w1, w2, w3, w4⟩ := hwf
    rw [numLines_cons] at hl
    rw [numTris_cons] at ht
    cases p with
    | line p0 p1 c0 c1 =>
      simp only [Prim.isLine, if_true] at hl ht
      have hroom : g.m_lineCount < g.m_maxLines := by omega
      have hstep := addLine_room p0 p1 c0 c1 w g hg hroom
      obtain ⟨g1, hg1, hgl1, hgr1, hlc1, htc1⟩ := emit_some (.line p0 p1 c0 c1) w g hg
      simp only [emit] at hg1 hgl1
      simp only [Prim.isLine, hroom, and_self, if_true] at hlc1
      simp only [Prim.isLine, Bool.true_eq_false, not_true_eq_false, false_and, if_false] at htc1
      have hrec : g1.m_lines.get? g.m_lineCount =
          some { v0 := { position := vec4 p0 1, colour := c0 },
                 v1 := { position := vec4 p1 1, colour := c1 } } := by
        have hlen : g.m_lineCount < g.m_lines.length := by omega
        rw [hstep] at hg1
        simp only [Option.some.injEq] at hg1
        rw [← hg1]
        simp [List.getElem?_set, hlen]
      obtain ⟨a1, a2, -, -, a5, a6, -, -⟩ := id hgr1
      obtain ⟨g', h1, h2, h3, h4, h5, h6, h7⟩ := ih (Gizmos.addLine p0 p1 c0 c1 w) g1 hg1
        ⟨by omega, by omega, by omega, by omega⟩ (by omega) (by omega)
      refine ⟨g', by rw [emitAll_cons]; exact h1, ?_, hgr1.trans h3, ?_, ?_, ?_, ?_⟩
      · rw [emitAll_cons, emit, h2, hgl1]
      · rw [h4, numLines_cons]; simp only [Prim.isLine, if_true]; omega
      · rw [h5, numTris_cons]; simp only [Prim.isLine, if_true]; omega
      · intro j hj
        rw [numLines_cons] at hj
        simp only [Prim.isLine, if_true] at hj
        rw [lineRecs_cons]
        simp only [Prim.lineRec]
        cases j with
        | zero =>
          have hkeep := h3.2.2.2.2.2.2.1 g.m_lineCount (by omega)
          rw [Nat.add_zero, hkeep, hrec]
          rfl
        | succ j =>
          have := h6 j (by omega)
          simp only [List.get?_cons_succ]
          rw [← this]
          congr 1
          omega
      · intro j hj
        rw [numTris_cons] at hj
        simp only [Prim.isLine] at hj
        rw [triRecs_cons]
        simp only [Prim.triRec]
        rw [← htc1]
        exact h7 j (by simpa using hj)
    | tri p0 p1 p2 c =>
      simp only [Prim.isLine, Bool.false_eq_true, if_false] at hl ht
      have hroom : g.m_triCount < g.m_maxTris := by omega
      have hstep := addTri_room p0 p1 p2 c w g hg hroom
      obtain ⟨g1, hg1, hgl1, hgr1, hlc1, htc1⟩ := emit_some (.tri p0 p1 p2 c) w g hg
      simp only [emit] at hg1 hgl1
      simp only [Prim.isLine, Bool.false_eq_true, false_and, if_false] at hlc1
      simp only [Prim.isLine, Bool.false_eq_true, not_false_eq_true, true_and, hroom,
        if_true] at htc1
      have hrec : g1.m_tris.get? g.m_triCount =
          some { v0 := { position := vec4 p0 1, colour := c },
                 v1 := { position := vec4 p1 1, colour := c },
                 v2 := { position := vec4 p2 1, colour := c } } := by
        have hlen : g.m_triCount < g.m_tris.length := by omega
        rw [hstep] at hg1
        simp only [Option.some.injEq] at hg1
        rw [← hg1]
        simp [List.getElem?_set, hlen]
      obtain ⟨a1, a2, -, -, a5, a6, -, -⟩ := id hgr1
      obtain ⟨g', h1, h2, h3, h4, h5, h6, h7⟩ := ih (Gizmos.addTri p0 p1 p2 c w) g1 hg1
        ⟨by omega, by omega, by omega, by omega⟩ (by omega) (by omega)
      refine ⟨g', by rw [emitAll_cons]; exact h1, ?_, hgr1.trans h3, ?_, ?_, ?_, ?_⟩
      · rw [emitAll_cons, emit, h2, hgl1]
      · rw [h4, numLines_cons]; simp only [Prim.isLine, Bool.false_eq_true, if_false]; omega
      · rw [h5, numTris_cons]; simp only [Prim.isLine, Bool.false_eq_true, if_false]; omega
      · intro j hj
        rw [numLines_cons] at hj
        simp only [Prim.isLine] at hj
        rw [lineRecs_cons]
        simp only [Prim.lineRec]
        rw [← hlc1]
        exact h6 j (by simpa using hj)
      · intro j hj
        rw [numTris_cons] at hj
        simp only [Prim.isLine, Bool.false_eq_true, if_false] at hj
        rw [triRecs_cons]
        simp only [Prim.triRec]
        cases j with
        | zero =>
          have hkeep := h3.2.2.2.2.2.2.2 g.m_triCount (by omega)
          rw [Nat.add_zero, hkeep, hrec]
          rfl
        | succ j =>
          have := h7 j (by omega)
          simp only [List.get?_cons_succ]
          rw [← this]
          congr 1
          omega

end recordlemmas

section claim12
variable {F : Type} [Zero F] [One F] [Add F] [Mul F]

/-- C12: `addTransform` axes. On a well-formed batch with at least 3 free line slots,
`addTransform(M, s)` appends exactly three lines at the old `lineCount`, in the order X, Y,
Z: the i-th runs from `M[3].xyz` to `(M[3] + M[i] * s).xyz`, both endpoints coloured
`(1,0,0,1)`, `(0,1,0,1)`, `(0,0,1,1)` respectively; older records and the triangle count are
kept. For the identity transform and `s = 1` (using `1 * 1 = 1`, `0 * 1 = 0`, `0 + 1 = 1`,
`0 + 0 = 0`) the lines run from the origin to `(1,0,0)`, `(0,1,0)` and `(0,0,1)`. -/
theorem addTransform_spec (M : Mat4 F) (s : F) (w : World F) (g : Gizmos F)
    (hg : w.sm_singleton = some g) (hwf : g.WF) (hl : g.m_lineCount + 3 ≤ g.m_maxLines) :
    ∃ g', (Gizmos.addTransform M s w).sm_singleton = some g' ∧
      g'.m_lineCount = g.m_lineCount + 3 ∧ g'.m_triCount = g.m_triCount ∧
      (∀ i, i < g.m_lineCount → g'.m_lines.get? i = g.m_lines.get? i) ∧
      g'.m_lines.get? g.m_lineCount =
        some ⟨⟨⟨M.c3.x, M.c3.y, M.c3.z, 1⟩, ⟨1, 0, 0, 1⟩⟩,
          ⟨⟨M.c3.x + M.c0.x * s, M.c3.y + M.c0.y * s, M.c3.z + M.c0.z * s, 1⟩, ⟨1, 0, 0, 1⟩⟩⟩ ∧
      g'.m_lines.get? (g.m_lineCount + 1) =
        some ⟨⟨⟨M.c3.x, M.c3.y, M.c3.z, 1⟩, ⟨0, 1, 0, 1⟩⟩,
          ⟨⟨M.c3.x + M.c1.x * s, M.c3.y + M.c1.y * s, M.c3.z + M.c1.z * s, 1⟩, ⟨0, 1, 0, 1⟩⟩⟩ ∧
      g'.m_lines.get? (g.m_lineCount + 2) =
        some ⟨⟨⟨M.c3.x, M.c3.y, M.c3.z, 1⟩, ⟨0, 0, 1, 1⟩⟩,
          ⟨⟨M.c3.x + M.c2.x * s, M.c3.y + M.c2.y * s, M.c3.z + M.c2.z * s, 1⟩, ⟨0, 0, 1, 1⟩⟩⟩ ∧
      (M = Mat4.identity → s = 1 → (1 : F) * 1 = 1 → (0 : F) * 1 = 0 → (0 : F) + 1 = 1 →
        (0 : F) + 0 = 0 →
        g'.m_lines.get? g.m_lineCount =
          some ⟨⟨⟨0, 0, 0, 1⟩, ⟨1, 0, 0, 1⟩⟩, ⟨⟨1, 0, 0, 1⟩, ⟨1, 0, 0, 1⟩⟩⟩ ∧
        g'.m_lines.get? (g.m_lineCount + 1) =
          some ⟨⟨⟨0, 0, 0, 1⟩, ⟨0, 1, 0, 1⟩⟩, ⟨⟨0, 1, 0, 1⟩, ⟨0, 1, 0, 1⟩⟩⟩ ∧
        g'.m_lines.get? (g.m_lineCount + 2) =
          some ⟨⟨⟨0, 0, 0, 1⟩, ⟨0, 0, 1, 1⟩⟩, ⟨⟨0, 0, 1, 1⟩, ⟨0, 0, 1, 1⟩⟩⟩) := by
  have hprims : Gizmos.addTransform M s w = emitAll
      [ .line M.c3.xyz (M.c3 + M.c0.smul s).xyz ⟨1, 0, 0, 1⟩ ⟨1, 0, 0, 1⟩,
        .line M.c3.xyz (M.c3 + M.c1.smul s).xyz ⟨0, 1, 0, 1⟩ ⟨0, 1, 0, 1⟩,
        .line M.c3.xyz (M.c3 + M.c2.smul s).xyz ⟨0, 0, 1, 1⟩ ⟨0, 0, 1, 1⟩ ] w := rfl
  obtain ⟨g', h1, -, h3, h4, h5, h6, -⟩ := emitAll_records
    [ .line M.c3.xyz (M.c3 + M.c0.smul s).xyz ⟨1, 0, 0, 1⟩ ⟨1, 0, 0, 1⟩,
      .line M.c3.xyz (M.c3 + M.c1.smul s).xyz ⟨0, 1, 0, 1⟩ ⟨0, 1, 0, 1⟩,
      .line M.c3.xyz (M.c3 + M.c2.smul s).xyz ⟨0, 0, 1, 1⟩ ⟨0, 0, 1, 1⟩ ] w g hg hwf hl
    hwf.2.2.2
  rw [← hprims] at h1
  have e0 : g'.m_lines.get? g.m_lineCount =
      some ⟨⟨⟨M.c3.x, M.c3.y, M.c3.z, 1⟩, ⟨1, 0, 0, 1⟩⟩,
        ⟨⟨M.c3.x + M.c0.x * s, M.c3.y + M.c0.y * s, M.c3.z + M.c0.z * s, 1⟩, ⟨1, 0, 0, 1⟩⟩⟩ :=
    h6 0 (show 0 < 3 by omega)
  have e1 : g'.m_lines.get? (g.m_lineCount + 1) =
      some ⟨⟨⟨M.c3.x, M.c3.y, M.c3.z, 1⟩, ⟨0, 1, 0, 1⟩⟩,
        ⟨⟨M.c3.x + M.c1.x * s, M.c3.y + M.c1.y * s, M.c3.z + M.c1.z * s, 1⟩, ⟨0, 1, 0, 1⟩⟩⟩ :=
    h6 1 (show 1 < 3 by omega)
  have e2 : g'.m_lines.get? (g.m_lineCount + 2) =
      some ⟨⟨⟨M.c3.x, M.c3.y, M.c3.z, 1⟩, ⟨0, 0, 1, 1⟩⟩,
        ⟨⟨M.c3.x + M.c2.x * s, M.c3.y + M.c2.y * s, M.c3.z + M.c2.z * s, 1⟩, ⟨0, 0, 1, 1⟩⟩⟩ :=
    h6 2 (show 2 < 3 by omega)
  refine ⟨g', h1, h4, h5, h3.2.2.2.2.2.2.1, e0, e1, e2, ?_⟩
  intro hM hs h11 h01 hp1 hp0
  subst hM
  subst hs
  rw [e0, e1, e2]
  simp only [Mat4.identity, h11, h01, hp1, hp0, and_self]

end claim12

/-- Witness for C12: the identity transform with scale 1 on a fresh batch of capacity 3. -/
theorem addTransform_spec_witness :
    (sampleWorld 3 0).sm_singleton = some (sampleBatch 3 0) ∧ (sampleBatch 3 0).WF ∧
    (sampleBatch 3 0).m_lineCount + 3 ≤ (sampleBatch 3 0).m_maxLines ∧
    ∃ g', (Gizmos.addTransform Mat4.identity 1 (sampleWorld 3 0)).sm_singleton = some g' ∧
      g'.m_lineCount = 3 ∧
      g'.m_lines.get? 0 = some ⟨⟨⟨0, 0, 0, 1⟩, ⟨1, 0, 0, 1⟩⟩, ⟨⟨1, 0, 0, 1⟩, ⟨1, 0, 0, 1⟩⟩⟩ ∧
      g'.m_lines.get? 1 = some ⟨⟨⟨0, 0, 0, 1⟩, ⟨0, 1, 0, 1⟩⟩, ⟨⟨0, 1, 0, 1⟩, ⟨0, 1, 0, 1⟩⟩⟩ ∧
      g'.m_lines.get? 2 = some ⟨⟨⟨0, 0, 0, 1⟩, ⟨0, 0, 1, 1⟩⟩, ⟨⟨0, 0, 1, 1⟩, ⟨0, 0, 1, 1⟩⟩⟩ := by
  refine ⟨rfl, by decide, by decide, ?_⟩
  obtain ⟨g', h1, h2, -, -, -, -, -, h8⟩ :=
    addTransform_spec Mat4.identity 1 (sampleWorld 3 0) (sampleBatch 3 0) rfl (by decide)
      (by decide)
  obtain ⟨e0, e1, e2⟩ := h8 rfl rfl (by norm_num) (by norm_num) (by norm_num) (by norm_num)
  exact ⟨g', h1, h2, e0, e1, e2⟩


section claim13
variable {F : Type}

/-- C13: `draw()` with zero accumulated primitives. For every projection-view matrix, when
no batch exists or both counts are zero, `draw` leaves the whole world unchanged: no OpenGL
call is recorded and the batch state is kept. -/
theorem draw_nothing (pv : Mat4 F) (loc : Nat) (w : World F)
    (h : w.sm_singleton = none ∨
      ∃ g, w.sm_singleton = some g ∧ g.m_lineCount = 0 ∧ g.m_triCount = 0) :
    Gizmos.draw pv loc w = w ∧ (Gizmos.draw pv loc w).gl = w.gl ∧
      (Gizmos.draw pv loc w).sm_singleton = w.sm_singleton := by
  have hw : Gizmos.draw pv loc w = w := by
    rcases h with hn | ⟨g, hg, hl, ht⟩
    · simp [Gizmos.draw, hn]
    · simp [Gizmos.draw, hg, hl, ht]
  rw [hw]
  exact ⟨rfl, rfl, rfl⟩

/-- C14 as amended: `draw()` with accumulated primitives. For a well-formed batch with a
nonzero count whose vertex counts fit an `unsigned int`, the calls `draw` records contain,
for each kind of primitive with a nonzero count, exactly one upload, of the first `count`
records of its buffer, and exactly one draw call covering `lineCount * 2` (lines) or
`triCount * 3` (triangles) vertices; a kind whose count is zero gets no upload and no draw
call. The batch state is kept. -/
theorem draw_spec (pv : Mat4 F) (loc : Nat) (w : World F) (g : Gizmos F)
    (hg : w.sm_singleton = some g) (hwf : g.WF)
    (hne : g.m_lineCount ≠ 0 ∨ g.m_triCount ≠ 0)
    (hl2 : g.m_lineCount * 2 < 2 ^ 32) (ht3 : g.m_triCount * 3 < 2 ^ 32) :
    ∃ calls, (Gizmos.draw pv loc w).gl = w.gl ++ calls ∧
      (Gizmos.draw pv loc w).sm_singleton = some g ∧
      uploadsOf calls =
        (if g.m_lineCount > 0 then
          [(0, g.m_lineCount * sizeofGizmoLine, Payload.lineData (g.m_lines.take g.m_lineCount))]
         else []) ++
        (if g.m_triCount > 0 then
          [(0, g.m_triCount * sizeofGizmoTri, Payload.triData (g.m_tris.take g.m_triCount))]
         else []) ∧
      (g.m_lines.take g.m_lineCount).length = g.m_lineCount ∧
      (g.m_tris.take g.m_triCount).length = g.m_triCount ∧
      drawCallsOf .lines calls =
        (if g.m_lineCount > 0 then [(0, g.m_lineCount * 2)] else []) ∧
      drawCallsOf .triangles calls =
        (if g.m_triCount > 0 then [(0, g.m_triCount * 3)] else []) := by
  obtain ⟨w1, w2, w3, w4⟩ := hwf
  have hcond : g.m_lineCount > 0 ∨ g.m_triCount > 0 := by omega
  have hu2 : u32 (g.m_lineCount * 2) = g.m_lineCount * 2 := u32_of_lt _ hl2
  have hu3 : u32 (g.m_triCount * 3) = g.m_triCount * 3 := u32_of_lt _ ht3
  refine ⟨[ .useProgram g.m_programID, .getUniformLocation g.m_programID .ProjectionView,
      .uniformMatrix4fv loc 1 false pv ] ++
    (if g.m_lineCount > 0 then
      [ .bindBuffer g.m_lineVBO,
        .bufferSubData 0 (g.m_lineCount * sizeofGizmoLine)
          (.lineData (g.m_lines.take g.m_lineCount)),
        .bindBuffer 0, .bindVertexArray g.m_lineVAO,
        .drawArrays .lines 0 (u32 (g.m_lineCount * 2)) ] else []) ++
    (if g.m_triCount > 0 then
      [ .bindBuffer g.m_triVBO,
        .bufferSubData 0 (g.m_triCount * sizeofGizmoTri)
          (.triData (g.m_tris.take g.m_triCount)),
        .bindBuffer 0, .bindVertexArray g.m_triVAO,
        .drawArrays .triangles 0 (u32 (g.m_triCount * 3)) ] else []) ++
    [ .bindVertexArray 0, .bindBuffer 0, .useProgram 0 ], ?_, by rw [draw_singleton, hg],
    ?_, ?_, ?_, ?_, ?_⟩
  · simp only [Gizmos.draw, hg, hcond, if_true, List.append_assoc]
  · by_cases hl : g.m_lineCount > 0 <;> by_cases ht : g.m_triCount > 0 <;>
      simp [uploadsOf, hl, ht]
  · rw [List.length_take]; omega
  · rw [List.length_take]; omega
  · by_cases hl : g.m_lineCount > 0 <;> by_cases ht : g.m_triCount > 0 <;>
      simp [drawCallsOf, hl, ht, hu2]
  · by_cases hl : g.m_lineCount > 0 <;> by_cases ht : g.m_triCount > 0 <;>
      simp [drawCallsOf, hl, ht, hu3]

end claim13

/-- Witness for C13: drawing a fresh batch. -/
theorem draw_nothing_witness :
    ((sampleWorld 1 1).sm_singleton = none ∨
      ∃ g, (sampleWorld 1 1).sm_singleton = some g ∧ g.m_lineCount = 0 ∧ g.m_triCount = 0) ∧
    Gizmos.draw Mat4.identity 0 (sampleWorld 1 1) = sampleWorld 1 1 :=
  ⟨Or.inr ⟨sampleBatch 1 1, rfl, rfl, rfl⟩,
    (draw_nothing Mat4.identity 0 (sampleWorld 1 1)
      (Or.inr ⟨sampleBatch 1 1, rfl, rfl, rfl⟩)).1⟩

/-- Counterexample to C14 as stated: a batch holding no line and one triangle has a nonzero
count, yet `draw` records no line-primitive draw call at all (and one triangle-primitive
draw call of 3 vertices). -/
theorem draw_spec_counterexample :
    sampleTriWorld.sm_singleton = some sampleTriBatch ∧
    sampleTriBatch.m_lineCount = 0 ∧ sampleTriBatch.m_triCount = 1 ∧
    drawCallsOf .lines ((Gizmos.draw Mat4.identity 0 sampleTriWorld).gl.drop
      sampleTriWorld.gl.length) = [] ∧
    drawCallsOf .triangles ((Gizmos.draw Mat4.identity 0 sampleTriWorld).gl.drop
      sampleTriWorld.gl.length) = [(0, 3)] :=
  ⟨rfl, rfl, rfl, by decide, by decide⟩

/-- Witness for C14 as amended: drawing a batch holding no line and one triangle. -/
theorem draw_spec_witness :
    sampleTriWorld.sm_singleton = some sampleTriBatch ∧ sampleTriBatch.WF ∧
    (sampleTriBatch.m_lineCount ≠ 0 ∨ sampleTriBatch.m_triCount ≠ 0) ∧
    sampleTriBatch.m_lineCount * 2 < 2 ^ 32 ∧ sampleTriBatch.m_triCount * 3 < 2 ^ 32 ∧
    ∃ calls, (Gizmos.draw Mat4.identity 0 sampleTriWorld).gl = sampleTriWorld.gl ++ calls ∧
      drawCallsOf .lines calls = [] ∧ drawCallsOf .triangles calls = [(0, 3)] := by
  refine ⟨rfl, by decide, by decide, by decide, by decide, ?_⟩
  obtain ⟨calls, h1, -, -, -, -, h6, h7⟩ :=
    draw_spec Mat4.identity 0 sampleTriWorld sampleTriBatch rfl (by decide) (by decide)
      (by decide) (by decide)
  exact ⟨calls, h1, h6, h7⟩


section boxlemmas
variable {F : Type}

theorem Vec3.add_def [Add F] (a b : Vec3 F) : a + b = ⟨a.x + b.x, a.y + b.y, a.z + b.z⟩ := rfl

theorem Vec3.sub_def [Sub F] (a b : Vec3 F) : a - b = ⟨a.x - b.x, a.y - b.y, a.z - b.z⟩ := rfl

theorem Vec4.add_def4 [Add F] (a b : Vec4 F) :
    a + b = ⟨a.x + b.x, a.y + b.y, a.z + b.z, a.w + b.w⟩ := rfl

end boxlemmas

section boxfield
variable {F : Type} [Field F]

/-- In exact arithmetic the corner array of `addBox` is the list of the eight corners
`center + sx * vX + sy * vY + sz * vZ`, in the order of `boxSigns`. -/
theorem boxVerts_spec (c d : Vec3 F) (T : Mat4 F) :
    boxVerts c d T = boxSigns.map (specCorner c (specExtent T (d.x / 2) 0 0)
      (specExtent T 0 (d.y / 2) 0) (specExtent T 0 0 (d.z / 2))) := by
  simp only [boxVerts, boxSigns, specCorner, specExtent, signValue, Vec3.scale, Vec3.add_def,
    Vec3.sub_def, Mat4.mulVec, Vec4.smul, Vec4.add_def4, Vec4.xyz, vec4, half, List.map,
    List.cons.injEq, Vec3.mk.injEq, and_true, if_true, if_false, Bool.false_eq_true]
  repeat' apply And.intro
  all_goals ring

end boxfield

section claim15

variable {F : Type}

theorem boxVert_spec [Field F] (c d : Vec3 F) (T : Mat4 F) (i : Nat) (hi : i < 8) :
    (boxVerts c d T).getD i c = specBoxCorner c d T (boxSign i) := by
  rw [boxVerts_spec]
  unfold specBoxCorner
  interval_cases i <;> rfl

variable [Zero F] [One F] [Add F] [Sub F] [Mul F] [Div F] [NatCast F]

end claim15


section floatsamples

/-- Sample values of the `float` model: `2 ^ 24 + 1` is a tie and rounds to the even
`2 ^ 24`, `2 ^ 24 + 3` is a tie and rounds to the even `2 ^ 24 + 4`, `2 ^ 25 + 3` rounds up and
`2 ^ 25 + 1` rounds down to the nearest multiple of 4, `4097 * 4097 = 16785409` rounds to
`16785408`, and `1 / 3`, `1 / 10` are the `float`
values `11184811 * 2 ^ -25` and `13421773 * 2 ^ -27`. -/
theorem float_samples :
    F32.ofInt 16777217 = F32.ofInt 16777216 ∧ F32.ofInt 16777219 = F32.ofInt 16777220 ∧
    F32.ofInt 33554435 = F32.ofInt 33554436 ∧ F32.ofInt 33554433 = F32.ofInt 33554432 ∧
    F32.ofInt (-16777217) = F32.ofInt (-16777216) ∧
    F32.ofInt 16777216 + 1 = F32.ofInt 16777216 ∧
    F32.ofInt 16777216 - 1 = F32.ofInt 16777215 ∧
    F32.ofInt 4097 * F32.ofInt 4097 = F32.ofInt 16785408 ∧
    (1 : F32) / F32.ofInt 3 = ⟨11184811, -25⟩ ∧ (1 : F32) / F32.ofInt 10 = ⟨13421773, -27⟩ ∧
    (half : F32) = ⟨1, -1⟩ := by
  decide

end floatsamples


section floatfacts

end floatfacts

section claim16

variable {F : Type}

end claim16

section claim16b
variable {F : Type} [Zero F] [One F] [Add F] [Sub F] [Mul F] [Div F] [NatCast F]
variable {K : Type} [LinearOrderedField K]

end claim16b


section floatfacts2

end floatfacts2

/-- C17, the failing call: an unfilled circle of 2 segments about the origin with radius 1 and
the transform "scale by 2" on a fresh batch with 2 free line slots. The first line ends at
`center + T * s(1)`, but the second line starts at `center + T * (T * s(1))`: the point
carried over from the previous iteration is passed through the transform a second time, so
the second line does not start where the first one ended. -/
theorem addCircle_transforms_twice :
    ∃ w' out g' l0 l1,
      Gizmos.addCircle sampleHeap ⟨0, 0, 0⟩ 1 2 false vWhite sampleScale false false
        (sampleWorld 2 0) = .ok (w', out) ∧
      w'.sm_singleton = some g' ∧ g'.m_lineCount = 2 ∧
      g'.m_lines.get? 0 = some l0 ∧ g'.m_lines.get? 1 = some l1 ∧
      l0.v1.position =
        vec4 (⟨0, 0, 0⟩ + (sampleScale.mulVec (specCirclePoint 1 2 1)).xyz) 1 ∧
      l1.v0.position =
        vec4 (⟨0, 0, 0⟩ + (sampleScale.mulVec (sampleScale.mulVec (specCirclePoint 1 2 1))).xyz)
          1 ∧
      l1.v0.position ≠ l0.v1.position := by
  refine ⟨_, _, _, _, _, rfl, rfl, rfl, rfl, rfl, ?_, ?_, ?_⟩
  · simp only [specCirclePoint, vec4, Vec3.add_def, Vec4.xyz, Mat4.mulVec, Vec4.smul,
      Vec4.add_def4, sampleScale, CMath.sinf, CMath.cosf, CMath.pi, Vec4.mk.injEq]
    norm_num
  · simp only [specCirclePoint, vec4, Vec3.add_def, Vec4.xyz, Mat4.mulVec, Vec4.smul,
      Vec4.add_def4, sampleScale, CMath.sinf, CMath.cosf, CMath.pi, Vec4.mk.injEq]
    norm_num
  · intro h
    have hz := congrArg Vec4.z h
    simp only [vec4, Vec3.add_def, Vec4.xyz, Mat4.mulVec, Vec4.smul,
      Vec4.add_def4, sampleScale, CMath.sinf, CMath.cosf, CMath.pi] at hz
    norm_num at hz

/-- C18, the failing call: a filled circle of 1 segment with centre `(1, 0, 0)`, radius 1 and
the identity transform on a fresh batch with 2 free triangle slots. The second vertex of the
first triangle is the perimeter offset `e_0 = (0, 0, 1)` itself, not `center + e_0`, whereas
the second triangle holds `center + e_0 = (1, 0, 1)`; the untranslated vertex is none of the
vertices of the second triangle. -/
theorem addCircle_first_triangle_untranslated :
    ∃ w' out g' t0 t1,
      Gizmos.addCircle sampleHeap ⟨1, 0, 0⟩ 1 1 true vWhite Mat4.identity false false
        (sampleWorld 0 2) = .ok (w', out) ∧
      w'.sm_singleton = some g' ∧ g'.m_triCount = 2 ∧
      g'.m_tris.get? 0 = some t0 ∧ g'.m_tris.get? 1 = some t1 ∧
      t0.v0.position = ⟨1, 0, 0, 1⟩ ∧ t0.v1.position = ⟨0, 0, 1, 1⟩ ∧
      t1.v1.position = ⟨1, 0, 1, 1⟩ ∧ t1.v2.position = ⟨1, 0, 0, 1⟩ ∧
      t0.v2.position = t1.v0.position ∧
      t0.v1.position ≠ t1.v0.position ∧ t0.v1.position ≠ t1.v1.position ∧
      t0.v1.position ≠ t1.v2.position := by
  refine ⟨_, _, _, _, _, rfl, rfl, rfl, rfl, rfl, ?_, ?_, ?_, ?_, rfl, ?_, ?_, ?_⟩
  · rfl
  · simp only [vec4, Vec4.xyz, Mat4.mulVec, Vec4.smul, Vec4.add_def4, Mat4.identity,
      Vec4.mk.injEq]
    norm_num
  · simp only [vec4, Vec3.add_def, Vec4.xyz, Mat4.mulVec, Vec4.smul, Vec4.add_def4,
      Mat4.identity, Vec4.mk.injEq]
    norm_num
  · rfl
  · intro h
    have hx := congrArg Vec4.x h
    simp only [vec4, Vec3.add_def, Vec4.xyz, Mat4.mulVec, Vec4.smul, Vec4.add_def4,
      Mat4.identity, CMath.sinf, CMath.cosf, CMath.pi] at hx
    norm_num at hx
  · intro h
    have hx := congrArg Vec4.x h
    simp only [vec4, Vec3.add_def, Vec4.xyz, Mat4.mulVec, Vec4.smul, Vec4.add_def4,
      Mat4.identity] at hx
    norm_num at hx
  · intro h
    have hx := congrArg Vec4.x h
    simp only [vec4, Vec3.add_def, Vec4.xyz, Mat4.mulVec, Vec4.smul, Vec4.add_def4,
      Mat4.identity] at hx
    norm_num at hx


section sphereindex
variable {F : Type}

theorem readAt_ok {α : Type} (arr : List α) (i : Int) (h0 : 0 ≤ i) (h1 : i < arr.length) :
    ∃ v, readAt arr i = .ok v := by
  have hlt : i.toNat < arr.length := by omega
  refine ⟨arr.get ⟨i.toNat, hlt⟩, ?_⟩
  unfold readAt
  rw [if_neg (by omega), List.get?_eq_get hlt]

theorem sphereIndex_bounds (rows cols : Int) (hc : 1 ≤ cols) (row col : Int)
    (h0 : 0 ≤ row) (h1 : row ≤ rows) (hcol : 0 ≤ col) :
    0 ≤ sphereIndex cols row col ∧ sphereIndex cols row col < (rows + 1) * cols := by
  unfold sphereIndex
  have hm0 : 0 ≤ Int.tmod col cols := Int.tmod_nonneg _ hcol
  have hm1 : Int.tmod col cols < cols := Int.tmod_lt_of_pos _ (by omega)
  have hp0 : 0 ≤ row * cols := Int.mul_nonneg h0 (by omega)
  have hp1 : row * cols ≤ rows * cols := Int.mul_le_mul_of_nonneg_right h1 (by omega)
  have he : (rows + 1) * cols = rows * cols + cols := by rw [Int.add_mul, Int.one_mul]
  omega

theorem iNextFace_bounds (rows cols : Int) (hc : 1 ≤ cols) (face : Int)
    (h0 : 0 ≤ face) (h1 : face < rows * cols) :
    0 ≤ iNextFace cols face ∧ iNextFace cols face + cols < (rows + 1) * cols := by
  have he : (rows + 1) * cols = rows * cols + cols := by rw [Int.add_mul, Int.one_mul]
  unfold iNextFace
  split
  · rename_i hz
    have hdvd : cols ∣ face + 1 := Int.dvd_of_tmod_eq_zero hz
    have hle : cols ≤ face + 1 := Int.le_of_dvd (by omega) hdvd
    omega
  · rename_i hz
    have hne : face + 1 ≠ rows * cols := by
      intro h
      apply hz
      rw [h]
      exact Int.tmod_eq_zero_of_dvd ⟨rows, Int.mul_comm _ _⟩
    omega

end sphereindex

section spheresteps
variable {F : Type}

theorem sphereFillStep_eq [Add F] [Mul F] [Neg F] [Zero F] [IntCast F] [CMath F]
    (c : Vec3 F) (rows cols : Int) (hc : 1 ≤ cols) (t : Option (Mat4 F))
    (lmin invC lr d2r y z : F) (row : Int) (h0 : 0 ≤ row) (h1 : row ≤ rows)
    (arr : List (Vec3 F)) (hlen : (arr.length : Int) = (rows + 1) * cols) (col : Nat) :
    sphereFillStep c cols t lmin invC lr d2r y z row arr col =
      .ok (arr.set (sphereIndex cols row col).toNat
        (c + spherePointAt t lmin invC lr d2r y z col)) := by
  obtain ⟨b0, b1⟩ := sphereIndex_bounds rows cols hc row col h0 h1 (Int.ofNat_nonneg col)
  unfold sphereFillStep
  simp only
  rw [if_neg (by omega)]
  have hidx : row * cols + Int.tmod (col : Int) cols = sphereIndex cols row col := rfl
  rw [hidx, if_neg (by omega)]
  rw [writeAt_ok _ _ _ (by omega)]
  cases t <;> rfl

theorem sphereFaceStep_ok [One F] [Mul F] [NatCast F] [LT F]
    [DecidableRel (fun a b : F => a < b)] [CMath F] (rows cols : Int) (hc : 1 ≤ cols)
    (col : Vec4 F) (lr : F) (arr : List (Vec3 F))
    (hlen : (arr.length : Int) = (rows + 1) * cols) (w : World F) (face : Nat)
    (hface : (face : Int) < rows * cols) :
    ∃ w', sphereFaceStep cols col lr arr w face = .ok w' := by
  have he : (rows + 1) * cols = rows * cols + cols := by rw [Int.add_mul, Int.one_mul]
  obtain ⟨n0, n1⟩ := iNextFace_bounds rows cols hc face (Int.ofNat_nonneg face) hface
  obtain ⟨p0, hp0⟩ := readAt_ok arr (face : Int) (by omega) (by omega)
  obtain ⟨p1, hp1⟩ := readAt_ok arr ((face : Int) + cols) (by omega) (by omega)
  obtain ⟨q0, hq0⟩ := readAt_ok arr (iNextFace cols face + cols) (by omega) (by omega)
  obtain ⟨t2, ht2⟩ := readAt_ok arr (iNextFace cols face) (by omega) (by omega)
  unfold sphereFaceStep
  have hnext : (if Int.tmod ((face : Int) + 1) cols = 0 then (face : Int) + 1 - cols
      else (face : Int) + 1) = iNextFace cols face := rfl
  simp only [bind, Except.bind, pure, Except.pure, hnext, hp0, hp1, hq0, ht2]
  split
  · exact ⟨_, rfl⟩
  · exact ⟨_, rfl⟩

end spheresteps

section gridlemmas
variable {F : Type}

/-- A loop in `Except` whose body always succeeds on states satisfying an invariant it keeps
is the pure loop of its results. -/
theorem foldlM_eq_foldl {σ : Type} (f : σ → Nat → Except Fault σ) (g : σ → Nat → σ)
    (inv : σ → Prop) (l : List Nat)
    (hstep : ∀ s, inv s → ∀ i ∈ l, f s i = .ok (g s i) ∧ inv (g s i)) :
    ∀ s, inv s → l.foldlM f s = .ok (l.foldl g s) ∧ inv (l.foldl g s) := by
  induction l with
  | nil => intro s hs; exact ⟨rfl, hs⟩
  | cons i l ih =>
    intro s hs
    obtain ⟨h1, h2⟩ := hstep s hs i (List.mem_cons_self _ _)
    have := ih (fun s hs j hj => hstep s hs j (List.mem_cons_of_mem _ hj)) (g s i) h2
    rw [List.foldlM_cons, h1]
    exact this

theorem foldlM_range_succ {σ : Type} (f : σ → Nat → Except Fault σ) (s s1 : σ) (n : Nat)
    (h : (List.range n).foldlM f s = .ok s1) : (List.range (n + 1)).foldlM f s = f s1 n := by
  rw [List.range_succ, List.foldlM_append, h]
  show (f s1 n >>= fun s2 => pure s2) = f s1 n
  cases f s1 n <;> rfl

/-- Writing `v col` at `base + col % cols` for `col = 0, ..., k - 1` with `k ≤ cols` fills
the block from `base` in order and touches nothing else. -/
theorem foldl_set_block {α : Type} (v : Nat → α) (base cols k : Nat) (hk : k ≤ cols)
    (arr : List α) (hlen : base + cols ≤ arr.length) :
    ((List.range k).foldl (fun a col => a.set (base + col % cols) (v col)) arr).length =
        arr.length ∧
      ∀ i, ((List.range k).foldl (fun a col => a.set (base + col % cols) (v col)) arr).get? i =
        if base ≤ i ∧ i < base + k then some (v (i - base)) else arr.get? i := by
  induction k with
  | zero =>
    refine ⟨rfl, fun i => ?_⟩
    rw [if_neg (by omega)]
    rfl
  | succ k ih =>
    obtain ⟨h1, h2⟩ := ih (by omega)
    rw [List.range_succ, List.foldl_append]
    simp only [List.foldl_cons, List.foldl_nil, List.length_set]
    refine ⟨h1, fun i => ?_⟩
    rw [Nat.mod_eq_of_lt (by omega : k < cols)]
    simp only [List.get?_eq_getElem?, List.getElem?_set]
    simp only [List.get?_eq_getElem?] at h2
    by_cases hi : base + k = i
    · subst hi
      rw [if_pos rfl, if_pos (by omega), if_pos (by omega)]
      congr 2
      omega
    · rw [if_neg hi, h2 i]
      by_cases hb : base ≤ i ∧ i < base + k
      · rw [if_pos hb, if_pos (by omega)]
      · rw [if_neg hb, if_neg (by omega)]

end gridlemmas

section rowlemmas
variable {F : Type}

theorem sphereIndex_nat (cols row col : Nat) :
    (sphereIndex (cols : Int) (row : Int) (col : Int)).toNat = row * cols + col % cols := by
  unfold sphereIndex
  rw [← Int.ofNat_tmod]
  have : ((row : Int) * (cols : Int) + ((col % cols : Nat) : Int)) =
      ((row * cols + col % cols : Nat) : Int) := by push_cast; rfl
  rw [this]
  exact Int.toNat_ofNat _

theorem inInt_of_bounds (z : Int) (h0 : 0 ≤ z) (h1 : z < 2 ^ 31) : inInt z = true := by
  unfold inInt
  have h2 : -(2 : Int) ^ 31 ≤ z := by
    have : (0 : Int) ≤ 2 ^ 31 := by norm_num
    omega
  rw [decide_eq_true h2, decide_eq_true h1]
  rfl

variable [Add F] [Mul F] [Neg F] [Zero F] [IntCast F] [CMath F]

/-- One row of the sampling loop of `addSphere`: the row's block of the grid receives the
points of columns `1, ..., cols - 1` at their own offsets and the point of column `cols` at
offset 0; nothing else changes. -/
theorem sphereRowStep_spec (c : Vec3 F) (rows cols : Nat) (hc : 1 ≤ cols)
    (hint : (cols : Int) + 1 < 2 ^ 31) (r : F) (t : Option (Mat4 F))
    (lmin amin invC invR latR lr d2r : F) (arr : List (Vec3 F))
    (hlen : arr.length = (rows + 1) * cols) (row : Nat) (hrow : row ≤ rows) :
    ∃ arr', sphereRowStep c (cols : Int) r t lmin amin invC invR latR lr d2r arr row =
        .ok arr' ∧ arr'.length = arr.length ∧
      ∀ i, arr'.get? i =
        if row * cols ≤ i ∧ i < row * cols + cols then
          some (c + spherePointAt t lmin invC lr d2r
            (r * CMath.sin (((row : Int) : F) * invR * latR + amin * d2r))
            (r * CMath.cos (((row : Int) : F) * invR * latR + amin * d2r))
            (if i = row * cols then cols else i - row * cols))
        else arr.get? i := by
  have hblock : row * cols + cols ≤ arr.length := by
    rw [hlen, Nat.add_mul, Nat.one_mul]
    exact Nat.add_le_add_right (Nat.mul_le_mul_right _ hrow) _
  have hlenI : ((arr.length : Nat) : Int) = ((rows : Int) + 1) * (cols : Int) := by
    rw [hlen]; push_cast; rfl
  unfold sphereRowStep
  simp only
  have hcheck : (decide (0 ≤ (cols : Int)) && !inInt ((cols : Int) + 1)) = false := by
    rw [inInt_of_bounds _ (by omega) hint]; simp
  rw [hcheck]
  simp only [Bool.false_eq_true, if_false]
  have hrange : ((cols : Int) + 1).toNat = cols + 1 := by omega
  rw [hrange]
  obtain ⟨hfold, hinv⟩ := foldlM_eq_foldl
    (sphereFillStep c (cols : Int) t lmin invC lr d2r
      (r * CMath.sin (((row : Int) : F) * invR * latR + amin * d2r))
      (r * CMath.cos (((row : Int) : F) * invR * latR + amin * d2r)) (row : Int))
    (fun a col => a.set (row * cols + col % cols)
      (c + spherePointAt t lmin invC lr d2r
        (r * CMath.sin (((row : Int) : F) * invR * latR + amin * d2r))
        (r * CMath.cos (((row : Int) : F) * invR * latR + amin * d2r)) col))
    (fun a => a.length = arr.length) (List.range (cols + 1))
    (by
      intro s hs col _
      have hsI : ((s.length : Nat) : Int) = ((rows : Int) + 1) * (cols : Int) := by
        rw [hs]; exact hlenI
      refine ⟨?_, by simp [hs]⟩
      rw [sphereFillStep_eq c (rows : Int) (cols : Int) (by omega) t lmin invC lr d2r _ _
        (row : Int) (by omega) (by omega) s hsI col, sphereIndex_nat])
    arr rfl
  refine ⟨_, hfold, hinv, ?_⟩
  intro i
  rw [List.range_succ, List.foldl_append]
  simp only [List.foldl_cons, List.foldl_nil, Nat.mod_self, Nat.add_zero]
  obtain ⟨b1, b2⟩ := foldl_set_block
    (fun col => c + spherePointAt t lmin invC lr d2r
      (r * CMath.sin (((row : Int) : F) * invR * latR + amin * d2r))
      (r * CMath.cos (((row : Int) : F) * invR * latR + amin * d2r)) col)
    (row * cols) cols cols (le_refl _) arr hblock
  simp only [List.get?_eq_getElem?, List.getElem?_set] at b2 ⊢
  by_cases hi : row * cols = i
  · subst hi
    rw [if_pos rfl, if_pos (by omega), if_pos ⟨le_refl _, by omega⟩, if_pos rfl]
  · rw [if_neg hi, b2 i]
    by_cases hb : row * cols ≤ i ∧ i < row * cols + cols
    · rw [if_pos hb, if_pos hb, if_neg (fun h => hi h.symm)]
    · rw [if_neg hb, if_neg hb]

end rowlemmas

section gridspec
variable {F : Type} [Zero F] [One F] [Add F] [Sub F] [Mul F] [Div F] [Neg F] [NatCast F]
  [IntCast F] [CMath F]

/-- The grid after the sampling loop of `addSphere`, for `rows ≥ 0`, `columns ≥ 1` and
`columns + 1` an `int`: entry `row * columns + k` holds `center + P(row, k)` for
`1 ≤ k < columns` and `center + P(row, columns)` for `k = 0`. -/
theorem sphereGrid_spec (heap : Nat → Vec3 F) (c : Vec3 F) (rows cols : Nat) (hc : 1 ≤ cols)
    (hint : (cols : Int) + 1 < 2 ^ 31) (r : F) (t : Option (Mat4 F))
    (lmin lmax amin amax : F) :
    ∃ arr, sphereGrid heap c (rows : Int) (cols : Int) r t lmin lmax amin amax = .ok arr ∧
      arr.length = (rows + 1) * cols ∧
      ∀ row, row ≤ rows → ∀ k, k < cols → arr.get? (row * cols + k) =
        some (c + spherePoint (rows : Int) (cols : Int) r t lmin lmax amin amax row
          (if k = 0 then cols else k)) := by
  unfold sphereGrid
  simp only
  have hsize : ((rows : Int) * (cols : Int) + (cols : Int)).toNat = (rows + 1) * cols := by
    have : ((rows : Int) * (cols : Int) + (cols : Int)) = (((rows + 1) * cols : Nat) : Int) := by
      push_cast; ring
    rw [this]
    exact Int.toNat_ofNat _
  have hrange : ((rows : Int) + 1).toNat = rows + 1 := by omega
  rw [hsize, hrange]
  have key : ∀ n, n ≤ rows + 1 →
      ∃ arr, (List.range n).foldlM
          (sphereRowStep c (cols : Int) r t lmin amin (1 / ((cols : Int) : F))
            (1 / ((rows : Int) : F)) ((amax - amin) * (CMath.pi / 180))
            ((lmax - lmin) * (CMath.pi / 180)) (CMath.pi / 180))
          (newArray heap ((rows + 1) * cols)) = .ok arr ∧
        arr.length = (rows + 1) * cols ∧
        ∀ row, row < n → ∀ k, k < cols → arr.get? (row * cols + k) =
          some (c + spherePoint (rows : Int) (cols : Int) r t lmin lmax amin amax row
            (if k = 0 then cols else k)) := by
    intro n
    induction n with
    | zero =>
      intro _
      exact ⟨_, rfl, newArray_length heap _, fun row hrow => absurd hrow (Nat.not_lt_zero _)⟩
    | succ n ih =>
      intro hn
      obtain ⟨arr, h1, h2, h3⟩ := ih (by omega)
      obtain ⟨arr', e1, e2, e3⟩ := sphereRowStep_spec c rows cols hc hint r t lmin amin
        (1 / ((cols : Int) : F)) (1 / ((rows : Int) : F)) ((amax - amin) * (CMath.pi / 180))
        ((lmax - lmin) * (CMath.pi / 180)) (CMath.pi / 180) arr h2 n (by omega)
      refine ⟨arr', ?_, by rw [e2, h2], ?_⟩
      · rw [foldlM_range_succ _ _ _ _ h1, e1]
      · intro row hrow k hk
        rw [e3]
        by_cases hlast : row = n
        · subst hlast
          rw [if_pos ⟨by omega, by omega⟩]
          by_cases hk0 : k = 0
          · subst hk0
            simp only [Nat.add_zero, if_true]
            rfl
          · rw [if_neg (by omega), if_neg hk0]
            have : row * cols + k - row * cols = k := by omega
            rw [this]
            rfl
        · have hlt : row < n := by omega
          have hmul : (row + 1) * cols ≤ n * cols := Nat.mul_le_mul_right _ hlt
          rw [Nat.add_mul, Nat.one_mul] at hmul
          rw [if_neg (by omega)]
          exact h3 row hlt k hk
  obtain ⟨arr, h1, h2, h3⟩ := key (rows + 1) (le_refl _)
  exact ⟨arr, h1, h2, fun row hrow => h3 row (by omega)⟩

end gridspec

section spheresums

theorem sum_first_special (a b m : Nat) :
    ((List.range (m + 1)).map (fun i => if i = 0 then a else b)).sum = a + m * b := by
  rw [List.range_succ_eq_map, List.map_cons, List.sum_cons, List.map_map]
  have hfun : ∀ i ∈ List.range m, ((fun i => if i = 0 then a else b) ∘ Nat.succ) i = b := by
    intro i _
    show (if i + 1 = 0 then a else b) = b
    rw [if_neg (Nat.succ_ne_zero i)]
  rw [List.map_congr_left hfun, if_pos rfl]
  simp

theorem sum_block (cols : Nat) (hc : 1 ≤ cols) (a b base : Nat) :
    ((List.range cols).map (fun i => if (base * cols + i) % cols = 0 then a else b)).sum =
      a + (cols - 1) * b := by
  obtain ⟨m, rfl⟩ : ∃ m, cols = m + 1 := ⟨cols - 1, by omega⟩
  rw [Nat.add_sub_cancel, ← sum_first_special a b m]
  congr 1
  apply List.map_congr_left
  intro i hi
  have hlt : i < m + 1 := List.mem_range.mp hi
  rw [Nat.mul_add_mod_of_lt hlt]

/-- Among the faces `0, ..., rows * cols - 1`, those whose index is a multiple of `cols`
number `rows`: summing `a` over them and `b` over the others gives
`rows * (a + (cols - 1) * b)`. -/
theorem sum_faces (rows cols : Nat) (hc : 1 ≤ cols) (a b : Nat) :
    ((List.range (rows * cols)).map (fun face => if face % cols = 0 then a else b)).sum =
      rows * (a + (cols - 1) * b) := by
  induction rows with
  | zero => simp
  | succ n ih =>
    rw [Nat.succ_mul, List.range_add, List.map_append, List.sum_append, ih, List.map_map]
    have hb := sum_block cols hc a b n
    have hfun : ((fun face => if face % cols = 0 then a else b) ∘ fun x => n * cols + x) =
        (fun i => if (n * cols + i) % cols = 0 then a else b) := rfl
    rw [hfun, hb, Nat.succ_mul]

theorem tmod_natCast_eq_zero (face cols : Nat) :
    Int.tmod (face : Int) (cols : Int) = 0 ↔ face % cols = 0 := by
  rw [← Int.ofNat_tmod]
  exact Int.natCast_eq_zero

end spheresums

section sphererun
variable {F : Type} [Zero F] [One F] [Add F] [Sub F] [Mul F] [Div F] [Neg F] [NatCast F]
  [IntCast F] [LT F] [DecidableRel (fun a b : F => a < b)] [CMath F]

/-- The function `addSphere` once its range checks pass and its two loops return. -/
theorem addSphere_of_loops (heap : Nat → Vec3 F) (c : Vec3 F) (rows cols : Int) (r : F)
    (col : Vec4 F) (t : Option (Mat4 F)) (lmin lmax amin amax : F) (vd vc : Bool)
    (hout : vd = true → vc = true) (w w' : World F) (arr : List (Vec3 F))
    (e1 : inInt (rows * cols) = true) (e2 : inInt (rows * cols + cols) = true)
    (hsz : ¬ rows * cols + cols < 0) (e3 : inInt (rows + 1) = true)
    (hg : sphereGrid heap c rows cols r t lmin lmax amin amax = .ok arr)
    (hw : (List.range (rows * cols).toNat).foldlM
      (sphereFaceStep cols col ((lmax - lmin) * (CMath.pi / 180)) arr) w = .ok w') :
    Gizmos.addSphere heap c rows cols r col t lmin lmax amin amax vd vc w =
      .ok (w', if vd then
          { vertexData := some arr, a_vertexCount := some (rows * cols + cols).toNat }
        else { vertexData := none, a_vertexCount := none }) := by
  unfold sphereGrid at hg
  simp only at hg
  unfold Gizmos.addSphere
  simp only [bind, Except.bind, pure, Except.pure, throw, throwThe, MonadExceptOf.throw]
  rw [e1, e2, e3]
  simp only [Bool.not_true, Bool.or_self, Bool.false_eq_true, if_false, Bool.and_false]
  rw [if_neg hsz, hg]
  simp only
  rw [hw]
  cases vd
  · simp
  · have hvc := hout rfl
    subst hvc
    simp

/-- When `rows * columns + columns` and `columns + 1` are `int` values and a requested vertex
output comes with its count, `addSphere` returns: its grid is the result of the sampling
loop, its batch the result of the face loop over that grid, and its vertex output the grid
with its length. -/
theorem addSphere_run (heap : Nat → Vec3 F) (c : Vec3 F) (rows cols : Nat) (hc : 1 ≤ cols)
    (hsize : (rows : Int) * (cols : Int) + (cols : Int) < 2 ^ 31)
    (hint : (cols : Int) + 1 < 2 ^ 31) (r : F) (col : Vec4 F) (t : Option (Mat4 F))
    (lmin lmax amin amax : F) (vd vc : Bool) (hout : vd = true → vc = true) (w : World F) :
    ∃ arr w', sphereGrid heap c (rows : Int) (cols : Int) r t lmin lmax amin amax = .ok arr ∧
      (List.range (rows * cols)).foldlM
        (sphereFaceStep (cols : Int) col ((lmax - lmin) * (CMath.pi / 180)) arr) w = .ok w' ∧
      Gizmos.addSphere heap c (rows : Int) (cols : Int) r col t lmin lmax amin amax vd vc w =
        .ok (w', if vd then { vertexData := some arr, a_vertexCount := some ((rows + 1) * cols) }
          else { vertexData := none, a_vertexCount := none }) := by
  obtain ⟨arr, hgrid, hlen, -⟩ := sphereGrid_spec heap c rows cols hc hint r t lmin lmax amin amax
  have hlenI : ((arr.length : Nat) : Int) = ((rows : Int) + 1) * (cols : Int) := by
    rw [hlen]; push_cast; rfl
  have hfaces : ∃ w', (List.range (rows * cols)).foldlM
      (sphereFaceStep (cols : Int) col ((lmax - lmin) * (CMath.pi / 180)) arr) w = .ok w' := by
    obtain ⟨w', h, -⟩ := foldlM_ok
      (sphereFaceStep (cols : Int) col ((lmax - lmin) * (CMath.pi / 180)) arr)
      (fun _ => True) (fun face => face < rows * cols)
      (fun s i _ hi => by
        obtain ⟨s', hs'⟩ := sphereFaceStep_ok (rows : Int) (cols : Int) (by omega) col
          ((lmax - lmin) * (CMath.pi / 180)) arr hlenI s i (by exact_mod_cast hi)
        exact ⟨s', hs', trivial⟩)
      (List.range (rows * cols)) w trivial (fun i hi => List.mem_range.mp hi)
    exact ⟨w', h⟩
  obtain ⟨w', hw'⟩ := hfaces
  refine ⟨arr, w', hgrid, hw', ?_⟩
  have hrc : (0 : Int) ≤ (rows : Int) * (cols : Int) :=
    Int.mul_nonneg (Int.ofNat_nonneg _) (Int.ofNat_nonneg _)
  have hc0 : (0 : Int) ≤ (cols : Int) := Int.ofNat_nonneg _
  have hr0 : (0 : Int) ≤ (rows : Int) := Int.ofNat_nonneg _
  have hrle : (rows : Int) ≤ (rows : Int) * (cols : Int) := by
    have : ((rows * 1 : Nat) : Int) ≤ ((rows * cols : Nat) : Int) :=
      Int.ofNat_le.mpr (Nat.mul_le_mul_left _ hc)
    simpa using this
  have hsizeN : ((rows : Int) * (cols : Int) + (cols : Int)).toNat = (rows + 1) * cols := by
    have : ((rows : Int) * (cols : Int) + (cols : Int)) = (((rows + 1) * cols : Nat) : Int) := by
      push_cast; ring
    rw [this]
    exact Int.toNat_ofNat _
  have hfaceN : ((rows : Int) * (cols : Int)).toNat = rows * cols := by
    have : ((rows : Int) * (cols : Int)) = ((rows * cols : Nat) : Int) := by push_cast; rfl
    rw [this]
    exact Int.toNat_ofNat _
  have e1 : inInt ((rows : Int) * (cols : Int)) = true :=
    inInt_of_bounds _ hrc (by omega)
  have e2 : inInt ((rows : Int) * (cols : Int) + (cols : Int)) = true :=
    inInt_of_bounds _ (by omega) hsize
  have e3 : inInt ((rows : Int) + 1) = true :=
    inInt_of_bounds _ (by omega) (by omega)
  have key := addSphere_of_loops heap c (rows : Int) (cols : Int) r col t lmin lmax amin amax
    vd vc hout w w' arr e1 e2 (by omega) e3 hgrid (by rw [hfaceN]; exact hw')
  rw [hsizeN] at key
  exact key

end sphererun

section spherefaults
variable {F : Type} [Zero F] [One F] [Add F] [Sub F] [Mul F] [Div F] [Neg F] [NatCast F]
  [IntCast F] [LT F] [DecidableRel (fun a b : F => a < b)] [CMath F]

/-- When `a_rows * a_columns` or `a_rows * a_columns + a_columns` is not an `int` value,
the array length expression of `addSphere` overflows. -/
theorem addSphere_overflow (heap : Nat → Vec3 F) (c : Vec3 F) (rows cols : Int) (r : F)
    (col : Vec4 F) (t : Option (Mat4 F)) (lmin lmax amin amax : F) (vd vc : Bool)
    (w : World F)
    (h : (!inInt (rows * cols) || !inInt (rows * cols + cols)) = true) :
    Gizmos.addSphere heap c rows cols r col t lmin lmax amin amax vd vc w =
      .error .intOverflow := by
  unfold Gizmos.addSphere
  simp only [bind, Except.bind, pure, Except.pure, throw, throwThe, MonadExceptOf.throw]
  rw [h]
  rfl

/-- With a vertex array requested and a null count pointer, `addSphere` stores through the
null pointer once its sampling loop has returned. -/
theorem addSphere_null (heap : Nat → Vec3 F) (c : Vec3 F) (rows cols : Int) (r : F)
    (col : Vec4 F) (t : Option (Mat4 F)) (lmin lmax amin amax : F)
    (w : World F) (arr : List (Vec3 F))
    (e1 : inInt (rows * cols) = true) (e2 : inInt (rows * cols + cols) = true)
    (hsz : ¬ rows * cols + cols < 0) (e3 : inInt (rows + 1) = true)
    (hg : sphereGrid heap c rows cols r t lmin lmax amin amax = .ok arr) :
    Gizmos.addSphere heap c rows cols r col t lmin lmax amin amax true false w =
      .error .nullDeref := by
  unfold sphereGrid at hg
  simp only at hg
  unfold Gizmos.addSphere
  simp only [bind, Except.bind, pure, Except.pure, throw, throwThe, MonadExceptOf.throw]
  rw [e1, e2, e3]
  simp only [Bool.not_true, Bool.or_self, Bool.false_eq_true, if_false, Bool.and_false]
  rw [if_neg hsz, hg]
  rfl

/-- When `a_columns + 1` is not an `int` value, the column counter of the sampling loop of
`addSphere` overflows in the first row. -/
theorem addSphere_column_overflow (heap : Nat → Vec3 F) (c : Vec3 F) (rows cols : Int) (r : F)
    (col : Vec4 F) (t : Option (Mat4 F)) (lmin lmax amin amax : F) (vd vc : Bool)
    (w : World F) (hr : 0 ≤ rows) (hc : 0 ≤ cols)
    (e1 : inInt (rows * cols) = true) (e2 : inInt (rows * cols + cols) = true)
    (hsz : ¬ rows * cols + cols < 0) (e3 : inInt (rows + 1) = true)
    (e4 : inInt (cols + 1) = false) :
    Gizmos.addSphere heap c rows cols r col t lmin lmax amin amax vd vc w =
      .error .intOverflow := by
  obtain ⟨n, hn⟩ : ∃ n, (rows + 1).toNat = n + 1 := ⟨rows.toNat, by omega⟩
  have hstep : ∀ (lmin amin invC invR latR lr d2r : F) (arr : List (Vec3 F)) (row : Nat),
      sphereRowStep c cols r t lmin amin invC invR latR lr d2r arr row =
        .error .intOverflow := by
    intro lmin amin invC invR latR lr d2r arr row
    unfold sphereRowStep
    simp only
    rw [e4, decide_eq_true hc]
    rfl
  unfold Gizmos.addSphere
  simp only [bind, Except.bind, pure, Except.pure, throw, throwThe, MonadExceptOf.throw]
  rw [e1, e2, e3]
  simp only [Bool.not_true, Bool.or_self, Bool.false_eq_true, if_false, Bool.and_false]
  rw [if_neg hsz, hn, List.range_succ_eq_map, List.foldlM_cons, hstep]
  rfl

/-- For `rows ≥ 0` and `columns ≥ 1`, no call of `addSphere` reads or writes outside its
grid array: the call never ends in an out-of-bounds fault. -/
theorem addSphere_in_bounds (heap : Nat → Vec3 F) (c : Vec3 F) (rows cols : Nat)
    (hc : 1 ≤ cols) (r : F) (col : Vec4 F) (t : Option (Mat4 F)) (lmin lmax amin amax : F)
    (vd vc : Bool) (w : World F) :
    Gizmos.addSphere heap c (rows : Int) (cols : Int) r col t lmin lmax amin amax vd vc w ≠
      .error .outOfBounds := by
  have hrc : (0 : Int) ≤ (rows : Int) * (cols : Int) :=
    Int.mul_nonneg (Int.ofNat_nonneg _) (Int.ofNat_nonneg _)
  have hrle : (rows : Int) ≤ (rows : Int) * (cols : Int) := by
    have : ((rows * 1 : Nat) : Int) ≤ ((rows * cols : Nat) : Int) :=
      Int.ofNat_le.mpr (Nat.mul_le_mul_left _ hc)
    simpa using this
  by_cases hsize : (rows : Int) * (cols : Int) + (cols : Int) < 2 ^ 31
  · have e1 : inInt ((rows : Int) * (cols : Int)) = true := inInt_of_bounds _ hrc (by omega)
    have e2 : inInt ((rows : Int) * (cols : Int) + (cols : Int)) = true :=
      inInt_of_bounds _ (by omega) hsize
    have e3 : inInt ((rows : Int) + 1) = true := inInt_of_bounds _ (by omega) (by omega)
    by_cases hint : (cols : Int) + 1 < 2 ^ 31
    · obtain ⟨arr, hgrid, -, -⟩ :=
        sphereGrid_spec heap c rows cols hc hint r t lmin lmax amin amax
      by_cases hout : vd = true → vc = true
      · obtain ⟨arr, w', -, -, hrun⟩ := addSphere_run heap c rows cols hc hsize hint r col t
          lmin lmax amin amax vd vc hout w
        rw [hrun]
        intro h
        cases h
      · have hvd : vd = true := by
          cases vd
          · exact absurd (fun h => by cases h) hout
          · rfl
        have hvc : vc = false := by
          cases vc
          · rfl
          · exact absurd (fun _ => rfl) hout
        subst hvd
        subst hvc
        rw [addSphere_null heap c _ _ r col t lmin lmax amin amax w arr e1 e2 (by omega) e3
          hgrid]
        intro h
        cases h
    · have e4 : inInt ((cols : Int) + 1) = false := by
        unfold inInt
        rw [decide_eq_false (by omega : ¬ (cols : Int) + 1 < 2 ^ 31)]
        exact Bool.and_false _
      rw [addSphere_column_overflow heap c _ _ r col t lmin lmax amin amax vd vc w
        (Int.ofNat_nonneg _) (Int.ofNat_nonneg _) e1 e2 (by omega) e3 e4]
      intro h
      cases h
  · have e2 : inInt ((rows : Int) * (cols : Int) + (cols : Int)) = false := by
      unfold inInt
      rw [decide_eq_false hsize]
      exact Bool.and_false _
    rw [addSphere_overflow heap c _ _ r col t lmin lmax amin amax vd vc w (by rw [e2]; simp)]
    intro h
    cases h

end spherefaults

section claims19
variable {F : Type} [Zero F] [One F] [Add F] [Sub F] [Mul F] [Div F] [Neg F] [NatCast F]
  [IntCast F] [LT F] [DecidableRel (fun a b : F => a < b)] [CMath F]

/-- C19 as amended: `addSphere` index safety. For `rows ≥ 0` and `columns ≥ 1` with
`rows * columns + columns` and `columns + 1` `int` values: each write index
`row * columns + (col mod columns)` with `0 ≤ row ≤ rows`, `0 ≤ col ≤ columns` is at least 0
and below `(rows + 1) * columns`, and on a grid array of `rows * columns + columns` entries
the store of the sampling loop succeeds and keeps the length; each read index `face`,
`face + columns`, `iNextFace` and `iNextFace + columns` with `0 ≤ face < rows * columns` is at
least 0 and below `(rows + 1) * columns`, and the body of the face loop returns on such an
array; all these indices and the sums `face + 1`, `row * columns` they are formed from are
`int` values; and for all other arguments the sampling loop of the call returns a grid of
`rows * columns + columns` entries and the call returns, unless a vertex array is requested
with a null count pointer, when its only fault is the store through that pointer. -/
theorem addSphere_index_safety (rows cols : Nat) (hc : 1 ≤ cols)
    (hsize : (rows : Int) * (cols : Int) + (cols : Int) < 2 ^ 31)
    (hint : (cols : Int) + 1 < 2 ^ 31) :
    (∀ row col : Nat, row ≤ rows → col ≤ cols →
      (0 ≤ sphereIndex (cols : Int) (row : Int) (col : Int) ∧
        sphereIndex (cols : Int) (row : Int) (col : Int) < ((rows : Int) + 1) * (cols : Int)) ∧
      (inInt ((row : Int) * (cols : Int)) = true ∧
        inInt (sphereIndex (cols : Int) (row : Int) (col : Int)) = true) ∧
      ∀ (arr : List (Vec3 F)), arr.length = rows * cols + cols →
        ∀ (c : Vec3 F) (t : Option (Mat4 F)) (lmin invC lr d2r y z : F),
          ∃ arr', sphereFillStep c (cols : Int) t lmin invC lr d2r y z (row : Int) arr col =
            .ok arr' ∧ arr'.length = arr.length) ∧
    (∀ face : Nat, face < rows * cols →
      ((0 : Int) ≤ (face : Int) ∧ (face : Int) < ((rows : Int) + 1) * (cols : Int)) ∧
      ((0 : Int) ≤ (face : Int) + (cols : Int) ∧
        (face : Int) + (cols : Int) < ((rows : Int) + 1) * (cols : Int)) ∧
      (0 ≤ iNextFace (cols : Int) (face : Int) ∧
        iNextFace (cols : Int) (face : Int) < ((rows : Int) + 1) * (cols : Int)) ∧
      (0 ≤ iNextFace (cols : Int) (face : Int) + (cols : Int) ∧
        iNextFace (cols : Int) (face : Int) + (cols : Int) <
          ((rows : Int) + 1) * (cols : Int)) ∧
      (inInt ((face : Int) + 1) = true ∧ inInt ((face : Int) + (cols : Int)) = true ∧
        inInt (iNextFace (cols : Int) (face : Int) + (cols : Int)) = true) ∧
      ∀ (arr : List (Vec3 F)), arr.length = rows * cols + cols →
        ∀ (col : Vec4 F) (lr : F) (w : World F),
          ∃ w', sphereFaceStep (cols : Int) col lr arr w face = .ok w') ∧
    (∀ (heap : Nat → Vec3 F) (c : Vec3 F) (r : F) (col : Vec4 F) (t : Option (Mat4 F))
      (lmin lmax amin amax : F) (vd vc : Bool) (w : World F),
      (∃ arr, sphereGrid heap c (rows : Int) (cols : Int) r t lmin lmax amin amax = .ok arr ∧
        arr.length = rows * cols + cols) ∧
      ((vd = true → vc = true) → ∃ w' out,
        Gizmos.addSphere heap c (rows : Int) (cols : Int) r col t lmin lmax amin amax vd vc w =
          .ok (w', out)) ∧
      (vd = true → vc = false →
        Gizmos.addSphere heap c (rows : Int) (cols : Int) r col t lmin lmax amin amax vd vc w =
          .error .nullDeref)) := by
  have hcI : (1 : Int) ≤ (cols : Int) := by exact_mod_cast hc
  have he : ((rows : Int) + 1) * (cols : Int) = (rows : Int) * (cols : Int) + (cols : Int) := by
    rw [Int.add_mul, Int.one_mul]
  have he1 : (rows + 1) * cols = rows * cols + cols := by rw [Nat.add_mul, Nat.one_mul]
  have hlenI : ∀ arr : List (Vec3 F), arr.length = rows * cols + cols →
      ((arr.length : Nat) : Int) = ((rows : Int) + 1) * (cols : Int) := by
    intro arr h
    rw [h, he]
    push_cast
    rfl
  refine ⟨?_, ?_, ?_⟩
  · intro row col hrow _
    have hb := sphereIndex_bounds (rows : Int) (cols : Int) hcI (row : Int) (col : Int)
      (Int.ofNat_nonneg _) (by exact_mod_cast hrow) (Int.ofNat_nonneg _)
    have hp0 : (0 : Int) ≤ (row : Int) * (cols : Int) :=
      Int.mul_nonneg (Int.ofNat_nonneg _) (Int.ofNat_nonneg _)
    have hp1 : (row : Int) * (cols : Int) ≤ (rows : Int) * (cols : Int) :=
      Int.mul_le_mul_of_nonneg_right (by exact_mod_cast hrow) (Int.ofNat_nonneg _)
    refine ⟨hb, ⟨inInt_of_bounds _ hp0 (by omega), inInt_of_bounds _ hb.1 (by omega)⟩, ?_⟩
    intro arr harr c t lmin invC lr d2r y z
    refine ⟨_, sphereFillStep_eq c (rows : Int) (cols : Int) hcI t lmin invC lr d2r y z
      (row : Int) (Int.ofNat_nonneg _) (by exact_mod_cast hrow) arr (hlenI arr harr) col, ?_⟩
    exact List.length_set _ _ _
  · intro face hface
    have hfI : (face : Int) < (rows : Int) * (cols : Int) := by exact_mod_cast hface
    obtain ⟨n0, n1⟩ := iNextFace_bounds (rows : Int) (cols : Int) hcI (face : Int)
      (Int.ofNat_nonneg _) hfI
    have hf0 : (0 : Int) ≤ (face : Int) := Int.ofNat_nonneg _
    refine ⟨⟨hf0, by omega⟩, ⟨by omega, by omega⟩, ⟨n0, by omega⟩, ⟨by omega, n1⟩,
      ⟨inInt_of_bounds _ (by omega) (by omega), inInt_of_bounds _ (by omega) (by omega),
        inInt_of_bounds _ (by omega) (by omega)⟩, ?_⟩
    intro arr harr col lr w
    exact sphereFaceStep_ok (rows : Int) (cols : Int) hcI col lr arr (hlenI arr harr) w face hfI
  · intro heap c r col t lmin lmax amin amax vd vc w
    obtain ⟨arr, hgrid, hlen, -⟩ :=
      sphereGrid_spec heap c rows cols hc hint r t lmin lmax amin amax
    refine ⟨⟨arr, hgrid, by rw [hlen, he1]⟩, ?_, ?_⟩
    · intro hout
      obtain ⟨arr2, w', -, -, hrun⟩ := addSphere_run heap c rows cols hc hsize hint r col t
        lmin lmax amin amax vd vc hout w
      exact ⟨w', _, hrun⟩
    · intro hvd hvc
      subst hvd
      subst hvc
      have hrc : (0 : Int) ≤ (rows : Int) * (cols : Int) :=
        Int.mul_nonneg (Int.ofNat_nonneg _) (Int.ofNat_nonneg _)
      have hrle : (rows : Int) ≤ (rows : Int) * (cols : Int) := by
        have : ((rows * 1 : Nat) : Int) ≤ ((rows * cols : Nat) : Int) :=
          Int.ofNat_le.mpr (Nat.mul_le_mul_left _ hc)
        simpa using this
      exact addSphere_null heap c _ _ r col t lmin lmax amin amax w arr
        (inInt_of_bounds _ hrc (by omega)) (inInt_of_bounds _ (by omega) hsize) (by omega)
        (inInt_of_bounds _ (by omega) (by omega)) hgrid

end claims19

/-- Counterexample to C19 as stated, at `rows = 65535 ≥ 0` and `columns = 65536 ≥ 1`. The
array length `a_rows * a_columns + a_columns = 4294967296` is not an `int` value, nor is the
write index `65535 * 65536 + (65536 mod 65536)` of the last row, so the call has left
defined behaviour before any index can be in bounds; reduced modulo `2 ^ 32` the length
is 0. -/
theorem addSphere_index_safety_counterexample :
    (0 : Int) ≤ 65535 ∧ (1 : Int) ≤ 65536 ∧
    inInt (65535 * 65536 + 65536) = false ∧
    u32 (65535 * 65536 + 65536) = 0 ∧
    inInt (sphereIndex 65536 65535 65536) = false ∧
    Gizmos.addSphere sampleHeap ⟨0, 0, 0⟩ 65535 65536 1 vWhite none 0 360 (-90) 90
      false false (sampleWorld 16 16) = .error .intOverflow :=
  ⟨by decide, by decide, by decide, by decide, by decide,
    addSphere_overflow sampleHeap ⟨0, 0, 0⟩ 65535 65536 1 vWhite none 0 360 (-90) 90
      false false (sampleWorld 16 16) (by decide)⟩

/-- Witness for C19 as amended: a grid of 2 rows and 4 columns; the last write of the last
row, the last face, and a call on a fresh batch of capacities 16 and 16. -/
theorem addSphere_index_safety_witness :
    1 ≤ 4 ∧ ((2 : Nat) : Int) * ((4 : Nat) : Int) + ((4 : Nat) : Int) < 2 ^ 31 ∧
    ((4 : Nat) : Int) + 1 < 2 ^ 31 ∧
    ((0 ≤ sphereIndex ((4 : Nat) : Int) ((2 : Nat) : Int) ((4 : Nat) : Int) ∧
        sphereIndex ((4 : Nat) : Int) ((2 : Nat) : Int) ((4 : Nat) : Int) <
          (((2 : Nat) : Int) + 1) * ((4 : Nat) : Int)) ∧
      (0 ≤ iNextFace ((4 : Nat) : Int) ((7 : Nat) : Int) + ((4 : Nat) : Int) ∧
        iNextFace ((4 : Nat) : Int) ((7 : Nat) : Int) + ((4 : Nat) : Int) <
          (((2 : Nat) : Int) + 1) * ((4 : Nat) : Int)) ∧
      ∃ w' out, Gizmos.addSphere sampleHeap ⟨0, 0, 0⟩ ((2 : Nat) : Int) ((4 : Nat) : Int) 1
        vWhite none 0 360 (-90) 90 false false (sampleWorld 16 16) = .ok (w', out)) :=
  ⟨by decide, by decide, by decide,
    ((addSphere_index_safety (F := ℚ) 2 4 (by decide) (by decide) (by decide)).1 2 4
      (by decide) (by decide)).1,
    ((addSphere_index_safety (F := ℚ) 2 4 (by decide) (by decide) (by decide)).2.1 7
      (by decide)).2.2.2.1,
    ((addSphere_index_safety (F := ℚ) 2 4 (by decide) (by decide) (by decide)).2.2 sampleHeap
      ⟨0, 0, 0⟩ 1 vWhite none 0 360 (-90) 90 false false (sampleWorld 16 16)).2.1
      (fun h => by cases h)⟩

section spherecount

/-- The number of records the face loop of `addSphere` hands in: faces whose index is a
multiple of `cols` contribute `a` when `P` holds, every other face contributes `b`. -/
theorem sum_sphere_faces (rows cols : Nat) (hc : 1 ≤ cols) (P : Prop) [Decidable P]
    (a b : Nat) :
    ((List.range ((rows : Int) * (cols : Int)).toNat).map (fun face : Nat =>
      if Int.tmod (face : Int) (cols : Int) = 0 ∧ P then a else b)).sum =
      if P then rows * (a + (cols - 1) * b) else rows * cols * b := by
  have hfaceN : ((rows : Int) * (cols : Int)).toNat = rows * cols := by
    have : ((rows : Int) * (cols : Int)) = ((rows * cols : Nat) : Int) := by push_cast; rfl
    rw [this]
    exact Int.toNat_ofNat _
  rw [hfaceN]
  by_cases hP : P
  · rw [if_pos hP, ← sum_faces rows cols hc a b]
    congr 1
    apply List.map_congr_left
    intro face _
    by_cases hm : face % cols = 0
    · rw [if_pos ⟨(tmod_natCast_eq_zero face cols).mpr hm, hP⟩, if_pos hm]
    · rw [if_neg (fun h => hm ((tmod_natCast_eq_zero face cols).mp h.1)), if_neg hm]
  · rw [if_neg hP]
    have hfun : ∀ face ∈ List.range (rows * cols),
        (fun face : Nat => if Int.tmod (face : Int) (cols : Int) = 0 ∧ P then a else b) face =
          b := by
      intro face _
      show (if Int.tmod (face : Int) (cols : Int) = 0 ∧ P then a else b) = b
      rw [if_neg (fun h => hP h.2)]
    rw [List.map_congr_left hfun]
    simp

end spherecount

section faceprims
variable {F : Type}

theorem get?_getD {α : Type} (arr : List α) (i : Nat) (d : α) (h : i < arr.length) :
    arr.get? i = some (arr.getD i d) := by
  rw [List.getD_eq_getElem?_getD, List.get?_eq_getElem?, List.getElem?_eq_getElem h]
  rfl

theorem readAt_get {α : Type} (arr : List α) (i : Int) (h0 : 0 ≤ i) (v : α)
    (h : arr.get? i.toNat = some v) : readAt arr i = .ok v := by
  unfold readAt
  rw [if_neg (by omega), h]

/-- A loop whose iteration `i` hands in the primitives `prims i` hands in their
concatenation. -/
theorem foldlM_prims [One F] (f : World F → Nat → Except Fault (World F))
    (prims : Nat → List (Prim F)) :
    ∀ (l : List Nat) (w : World F), (∀ w i, i ∈ l → f w i = .ok (emitAll (prims i) w)) →
      l.foldlM f w = .ok (emitAll (l.flatMap prims) w) := by
  intro l
  induction l with
  | nil =>
    intro w _
    rfl
  | cons i l ih =>
    intro w h
    rw [List.foldlM_cons, h w i (List.mem_cons_self _ _)]
    show l.foldlM f (emitAll (prims i) w) = _
    rw [ih _ (fun w j hj => h w j (List.mem_cons_of_mem _ hj)), List.flatMap_cons,
      emitAll_append]

variable [One F] [Mul F] [NatCast F] [LT F] [DecidableRel (fun a b : F => a < b)] [CMath F]

/-- One iteration of the face loop of `addSphere` on a grid holding the four entries it
reads: the line from entry `face` to entry `face + cols`, and, unless `face` is a multiple of
`cols` while the longitude range is below a full circle, the second line and the two
triangles of the quad. -/
theorem sphereFaceStep_prims (cols : Int) (col : Vec4 F) (lr : F) (arr : List (Vec3 F))
    (w : World F) (face : Nat) (p0 p1 q0 t2 : Vec3 F) (hn : 0 ≤ iNextFace cols face)
    (hc : 0 ≤ cols)
    (h0 : arr.get? face = some p0) (h1 : arr.get? ((face : Int) + cols).toNat = some p1)
    (h2 : arr.get? (iNextFace cols face + cols).toNat = some q0)
    (h3 : arr.get? (iNextFace cols face).toNat = some t2) :
    sphereFaceStep cols col lr arr w face = .ok (emitAll
      (if Int.tmod (face : Int) cols = 0 ∧ lr < CMath.pi * 2 then
        [Prim.line p0 p1 vWhite vWhite]
      else [Prim.line p0 p1 vWhite vWhite, Prim.line q0 p1 vWhite vWhite,
        Prim.tri q0 p0 t2 col, Prim.tri q0 p1 p0 col]) w) := by
  have r0 : readAt arr (face : Int) = .ok p0 :=
    readAt_get arr _ (Int.ofNat_nonneg _) p0 (by rw [Int.toNat_ofNat]; exact h0)
  have r1 : readAt arr ((face : Int) + cols) = .ok p1 :=
    readAt_get arr _ (by omega) p1 h1
  have r2 : readAt arr (iNextFace cols face + cols) = .ok q0 :=
    readAt_get arr _ (by omega) q0 h2
  have r3 : readAt arr (iNextFace cols face) = .ok t2 := readAt_get arr _ hn t2 h3
  unfold sphereFaceStep
  have hnext : (if Int.tmod ((face : Int) + 1) cols = 0 then (face : Int) + 1 - cols
      else (face : Int) + 1) = iNextFace cols face := rfl
  simp only [bind, Except.bind, pure, Except.pure, hnext, r0, r1, r2, r3]
  split
  · rfl
  · rfl

end faceprims

section claims11
variable {F : Type} [Zero F] [One F] [Add F] [Sub F] [Mul F] [Div F] [Neg F] [NatCast F]
  [IntCast F] [LT F] [DecidableRel (fun a b : F => a < b)] [CMath F]

/-- C11 as amended: `addSphere` record count and seam skip. For `rows ≥ 1`, `columns ≥ 1` with
`rows * columns + columns` an `int` value, any other arguments in which a requested vertex
output comes with its count, and a well-formed batch with as many free slots as the counts
below, `addSphere` returns and its batch is the old one after the primitives `prims face` of
the faces `0, ..., rows * columns - 1`, handed in in this order. Every face reads its four
grid entries inside the grid. A face whose index is a multiple of `columns`, when the
longitude range `(longMax - longMin) * (pi / 180)` is below `2 * pi`, hands in only its first
line; every other face hands in 2 lines and 2 triangles. So when the range is not below
`2 * pi`, `lineCount` grows by `2 * rows * columns` and `triCount` by `2 * rows * columns`,
and when it is below `2 * pi`, `lineCount` grows by `rows * (2 * columns - 1)` and `triCount`
by `2 * rows * (columns - 1)`. -/
theorem addSphere_count (heap : Nat → Vec3 F) (c : Vec3 F) (rows cols : Nat) (hr : 1 ≤ rows)
    (hc : 1 ≤ cols) (hsize : (rows : Int) * (cols : Int) + (cols : Int) < 2 ^ 31) (r : F)
    (col : Vec4 F) (t : Option (Mat4 F)) (lmin lmax amin amax : F) (vd vc : Bool)
    (hout : vd = true → vc = true) (w : World F) (g : Gizmos F)
    (hg : w.sm_singleton = some g) (hwf : g.WF)
    (hlines : g.m_lineCount +
      (if (lmax - lmin) * (CMath.pi / 180) < CMath.pi * 2 then rows * (2 * cols - 1)
        else 2 * rows * cols) ≤ g.m_maxLines)
    (htris : g.m_triCount +
      (if (lmax - lmin) * (CMath.pi / 180) < CMath.pi * 2 then 2 * rows * (cols - 1)
        else 2 * rows * cols) ≤ g.m_maxTris) :
    ∃ (w' : World F) (out : VertexOut F) (g' : Gizmos F) (arr : List (Vec3 F))
        (prims : Nat → List (Prim F)),
      Gizmos.addSphere heap c (rows : Int) (cols : Int) r col t lmin lmax amin amax
        vd vc w = .ok (w', out) ∧ w'.sm_singleton = some g' ∧
      sphereGrid heap c (rows : Int) (cols : Int) r t lmin lmax amin amax = .ok arr ∧
      w' = emitAll ((List.range (rows * cols)).flatMap prims) w ∧
      (∀ face, face < rows * cols → ∃ p0 p1 q0 t2,
        arr.get? face = some p0 ∧ arr.get? (face + cols) = some p1 ∧
        arr.get? (iNextFace (cols : Int) (face : Int) + (cols : Int)).toNat = some q0 ∧
        arr.get? (iNextFace (cols : Int) (face : Int)).toNat = some t2 ∧
        (face % cols = 0 ∧ (lmax - lmin) * (CMath.pi / 180) < CMath.pi * 2 →
          prims face = [Prim.line p0 p1 vWhite vWhite]) ∧
        (¬ (face % cols = 0 ∧ (lmax - lmin) * (CMath.pi / 180) < CMath.pi * 2) →
          prims face = [Prim.line p0 p1 vWhite vWhite, Prim.line q0 p1 vWhite vWhite,
            Prim.tri q0 p0 t2 col, Prim.tri q0 p1 p0 col])) ∧
      g'.m_lineCount = g.m_lineCount +
        (if (lmax - lmin) * (CMath.pi / 180) < CMath.pi * 2 then rows * (2 * cols - 1)
          else 2 * rows * cols) ∧
      g'.m_triCount = g.m_triCount +
        (if (lmax - lmin) * (CMath.pi / 180) < CMath.pi * 2 then 2 * rows * (cols - 1)
          else 2 * rows * cols) := by
  have hcI : (1 : Int) ≤ (cols : Int) := by exact_mod_cast hc
  have hrle : (rows : Int) ≤ (rows : Int) * (cols : Int) := by
    have : ((rows * 1 : Nat) : Int) ≤ ((rows * cols : Nat) : Int) :=
      Int.ofNat_le.mpr (Nat.mul_le_mul_left _ hc)
    simpa using this
  have hint : (cols : Int) + 1 < 2 ^ 31 := by
    have : (1 : Int) ≤ (rows : Int) := by exact_mod_cast hr
    omega
  obtain ⟨arr, w', hgrid, hfold, hok⟩ := addSphere_run heap c rows cols hc hsize hint r col t
    lmin lmax amin amax vd vc hout w
  have hlen : arr.length = (rows + 1) * cols := by
    obtain ⟨arr2, hgrid2, hlen2, -⟩ :=
      sphereGrid_spec heap c rows cols hc hint r t lmin lmax amin amax
    rw [hgrid] at hgrid2
    cases hgrid2
    exact hlen2
  have he1 : (rows + 1) * cols = rows * cols + cols := by rw [Nat.add_mul, Nat.one_mul]
  -- the four reads of a face
  have hreads : ∀ face, face < rows * cols →
      ((face : Int) + (cols : Int)).toNat = face + cols ∧
      0 ≤ iNextFace (cols : Int) (face : Int) ∧
      face < arr.length ∧ face + cols < arr.length ∧
      (iNextFace (cols : Int) (face : Int) + (cols : Int)).toNat < arr.length ∧
      (iNextFace (cols : Int) (face : Int)).toNat < arr.length := by
    intro face hface
    have hfI : (face : Int) < (rows : Int) * (cols : Int) := by exact_mod_cast hface
    obtain ⟨n0, n1⟩ := iNextFace_bounds (rows : Int) (cols : Int) hcI (face : Int)
      (Int.ofNat_nonneg _) hfI
    have he : ((rows : Int) + 1) * (cols : Int) = (rows : Int) * (cols : Int) + (cols : Int) := by
      rw [Int.add_mul, Int.one_mul]
    have hlenI : ((arr.length : Nat) : Int) = (rows : Int) * (cols : Int) + (cols : Int) := by
      rw [hlen, he1]
      push_cast
      rfl
    refine ⟨by omega, n0, by omega, by omega, by omega, by omega⟩
  -- the primitives of a face
  let at_ : Nat → Vec3 F := fun i => arr.getD i c
  let prims : Nat → List (Prim F) := fun face =>
    if Int.tmod (face : Int) (cols : Int) = 0 ∧ (lmax - lmin) * (CMath.pi / 180) < CMath.pi * 2
    then [Prim.line (at_ face) (at_ (face + cols)) vWhite vWhite]
    else [Prim.line (at_ face) (at_ (face + cols)) vWhite vWhite,
      Prim.line (at_ (iNextFace (cols : Int) (face : Int) + (cols : Int)).toNat)
        (at_ (face + cols)) vWhite vWhite,
      Prim.tri (at_ (iNextFace (cols : Int) (face : Int) + (cols : Int)).toNat) (at_ face)
        (at_ (iNextFace (cols : Int) (face : Int)).toNat) col,
      Prim.tri (at_ (iNextFace (cols : Int) (face : Int) + (cols : Int)).toNat)
        (at_ (face + cols)) (at_ face) col]
  have hstep : ∀ (w : World F) (face : Nat), face ∈ List.range (rows * cols) →
      sphereFaceStep (cols : Int) col ((lmax - lmin) * (CMath.pi / 180)) arr w face =
        .ok (emitAll (prims face) w) := by
    intro w face hmem
    obtain ⟨e, n0, b0, b1, b2, b3⟩ := hreads face (List.mem_range.mp hmem)
    exact sphereFaceStep_prims (cols : Int) col _ arr w face _ _ _ _ n0 (by omega)
      (get?_getD arr face c b0) (by rw [e]; exact get?_getD arr (face + cols) c b1)
      (get?_getD arr _ c b2) (get?_getD arr _ c b3)
  have hw' : w' = emitAll ((List.range (rows * cols)).flatMap prims) w := by
    have h2 := foldlM_prims
      (sphereFaceStep (cols : Int) col ((lmax - lmin) * (CMath.pi / 180)) arr) prims
      (List.range (rows * cols)) w hstep
    rw [hfold] at h2
    cases h2
    rfl
  -- the counts
  have he := addSphere_emits heap c (rows : Int) (cols : Int) r col t lmin lmax amin amax
    vd vc w w' _ hok
  rw [sum_sphere_faces rows cols hc _ 1 2, sum_sphere_faces rows cols hc _ 0 2] at he
  obtain ⟨g', hg', -, -⟩ := he.grows hg
  obtain ⟨-, -, w3, w4⟩ := hwf
  obtain ⟨m, hm⟩ : ∃ m, cols = m + 1 := ⟨cols - 1, by omega⟩
  have k1 : rows * (1 + (cols - 1) * 2) = rows * (2 * cols - 1) := by
    have h : 1 + (cols - 1) * 2 = 2 * cols - 1 := by omega
    rw [h]
  have k2 : rows * (0 + (cols - 1) * 2) = 2 * rows * (cols - 1) := by
    rw [Nat.zero_add, Nat.mul_comm (cols - 1) 2, ← Nat.mul_assoc, Nat.mul_comm rows 2]
  have k3 : rows * cols * 2 = 2 * rows * cols := by
    rw [Nat.mul_comm, Nat.mul_assoc]
  rw [k1, k2, k3] at he
  refine ⟨w', _, g', arr, prims, hok, hg', hgrid, hw', ?_, ?_, ?_⟩
  · intro face hface
    obtain ⟨-, -, b0, b1, b2, b3⟩ := hreads face hface
    refine ⟨_, _, _, _, get?_getD arr face c b0, get?_getD arr (face + cols) c b1,
      get?_getD arr _ c b2, get?_getD arr _ c b3, ?_, ?_⟩
    · intro hskip
      show (if _ then _ else _) = _
      rw [if_pos ⟨(tmod_natCast_eq_zero face cols).mpr hskip.1, hskip.2⟩]
    · intro hskip
      show (if _ then _ else _) = _
      rw [if_neg (fun h => hskip ⟨(tmod_natCast_eq_zero face cols).mp h.1, h.2⟩)]
  · rw [he.lineCount hg w3 hg']
    exact Nat.min_eq_left hlines
  · rw [he.triCount hg w4 hg']
    exact Nat.min_eq_left htris

end claims11

/-- Counterexample to C11 as stated, at two inputs with `rows ≥ 1`, `columns ≥ 1` and enough
free slots. With a vertex array requested and a null count pointer, `addSphere` with 2 rows
and 4 columns stores through the null pointer before it adds any record. With 1 row and
1073741824 columns on a batch with 2147483648 free slots of each kind, the array length
`a_rows * a_columns + a_columns = 2 ^ 31` is not an `int` value. -/
theorem addSphere_count_counterexample :
    ((1 : Int) ≤ 2 ∧ (1 : Int) ≤ 4 ∧
      (sampleWorld 16 16).sm_singleton = some (sampleBatch 16 16) ∧
      (sampleBatch 16 16).m_lineCount + 2 * 2 * 4 ≤ (sampleBatch 16 16).m_maxLines ∧
      (sampleBatch 16 16).m_triCount + 2 * 2 * 4 ≤ (sampleBatch 16 16).m_maxTris ∧
      Gizmos.addSphere sampleHeap ⟨0, 0, 0⟩ 2 4 1 vWhite none 0 360 (-90) 90 true false
        (sampleWorld 16 16) = .error .nullDeref) ∧
    ((1 : Int) ≤ 1 ∧ (1 : Int) ≤ 1073741824 ∧
      (sampleWorld 2147483648 2147483648).sm_singleton =
        some (sampleBatch 2147483648 2147483648) ∧
      (sampleBatch 2147483648 2147483648).m_lineCount + 2 * 1 * 1073741824 ≤
        (sampleBatch 2147483648 2147483648).m_maxLines ∧
      (sampleBatch 2147483648 2147483648).m_triCount + 2 * 1 * 1073741824 ≤
        (sampleBatch 2147483648 2147483648).m_maxTris ∧
      Gizmos.addSphere sampleHeap ⟨0, 0, 0⟩ 1 1073741824 1 vWhite none 0 360 (-90) 90
        false false (sampleWorld 2147483648 2147483648) = .error .intOverflow) := by
  obtain ⟨arr, hgrid, -, -⟩ := sphereGrid_spec sampleHeap (⟨0, 0, 0⟩ : Vec3 ℚ) 2 4 (by decide)
    (by decide) 1 none 0 360 (-90) 90
  exact ⟨⟨by decide, by decide, rfl, by decide, by decide,
      addSphere_null sampleHeap ⟨0, 0, 0⟩ 2 4 1 vWhite none 0 360 (-90) 90 (sampleWorld 16 16)
        arr (by decide) (by decide) (by decide) (by decide) hgrid⟩,
    ⟨by decide, by decide, sampleWorld_singleton 2147483648 2147483648, by decide, by decide,
      addSphere_overflow sampleHeap ⟨0, 0, 0⟩ 1 1073741824 1 vWhite none 0 360 (-90) 90
        false false (sampleWorld 2147483648 2147483648) (by decide)⟩⟩

/-- Witness for C11 as amended: a sphere of 2 rows and 4 columns on a fresh batch of
capacities 16 and 16. With `longMax = 360` it adds 16 lines and 16 triangles; with
`longMax = 180` it adds 14 lines and 12 triangles, face 4 handing in only the line from grid
entry 4 to grid entry 8 and face 5 handing in four primitives. -/
theorem addSphere_count_witness :
    1 ≤ 2 ∧ 1 ≤ 4 ∧ ((2 : Nat) : Int) * ((4 : Nat) : Int) + ((4 : Nat) : Int) < 2 ^ 31 ∧
    (sampleWorld 16 16).sm_singleton = some (sampleBatch 16 16) ∧ (sampleBatch 16 16).WF ∧
    (sampleBatch 16 16).m_lineCount + 16 ≤ (sampleBatch 16 16).m_maxLines ∧
    (sampleBatch 16 16).m_triCount + 16 ≤ (sampleBatch 16 16).m_maxTris ∧
    (∃ w' out g', Gizmos.addSphere sampleHeap ⟨0, 0, 0⟩ ((2 : Nat) : Int) ((4 : Nat) : Int) 1
        vWhite none 0 360 (-90) 90 false false (sampleWorld 16 16) = .ok (w', out) ∧
      w'.sm_singleton = some g' ∧ g'.m_lineCount = 16 ∧ g'.m_triCount = 16) ∧
    (∃ w' out g' arr prims,
      Gizmos.addSphere sampleHeap ⟨0, 0, 0⟩ ((2 : Nat) : Int) ((4 : Nat) : Int) 1
        vWhite none 0 180 (-90) 90 false false (sampleWorld 16 16) = .ok (w', out) ∧
      w'.sm_singleton = some g' ∧
      sphereGrid sampleHeap ⟨0, 0, 0⟩ ((2 : Nat) : Int) ((4 : Nat) : Int) 1 none 0 180 (-90) 90 =
        .ok arr ∧
      w' = emitAll ((List.range (2 * 4)).flatMap prims) (sampleWorld 16 16) ∧
      (∃ p0 p1, arr.get? 4 = some p0 ∧ arr.get? 8 = some p1 ∧
        prims 4 = [Prim.line p0 p1 vWhite vWhite]) ∧
      (prims 5).length = 4 ∧ g'.m_lineCount = 14 ∧ g'.m_triCount = 12) := by
  have hfull : ¬ ((360 : ℚ) - 0) * (CMath.pi / 180) < CMath.pi * 2 := by
    simp only [CMath.pi]
    norm_num
  have hpart : ((180 : ℚ) - 0) * (CMath.pi / 180) < CMath.pi * 2 := by
    simp only [CMath.pi]
    norm_num
  refine ⟨by decide, by decide, by decide, rfl, by decide, by decide, by decide, ?_, ?_⟩
  · obtain ⟨w', out, g', -, -, h1, h2, -, -, -, h3, h4⟩ :=
      addSphere_count sampleHeap (⟨0, 0, 0⟩ : Vec3 ℚ) 2 4 (by decide) (by decide) (by decide) 1
        vWhite none 0 360 (-90) 90 false false (fun h => by cases h) (sampleWorld 16 16)
        (sampleBatch 16 16) rfl (by decide) (by rw [if_neg hfull]; decide)
        (by rw [if_neg hfull]; decide)
    rw [if_neg hfull] at h3 h4
    exact ⟨w', out, g', h1, h2, h3, h4⟩
  · obtain ⟨w', out, g', arr, prims, h1, h2, hgrid, hw, hfaces, h3, h4⟩ :=
      addSphere_count sampleHeap (⟨0, 0, 0⟩ : Vec3 ℚ) 2 4 (by decide) (by decide) (by decide) 1
        vWhite none 0 180 (-90) 90 false false (fun h => by cases h) (sampleWorld 16 16)
        (sampleBatch 16 16) rfl (by decide) (by rw [if_pos hpart]; decide)
        (by rw [if_pos hpart]; decide)
    rw [if_pos hpart] at h3 h4
    obtain ⟨p0, p1, _, _, a0, a1, -, -, hskip, -⟩ := hfaces 4 (by decide)
    obtain ⟨_, _, _, _, -, -, -, -, -, hquad⟩ := hfaces 5 (by decide)
    refine ⟨w', out, g', arr, prims, h1, h2, hgrid, hw, ⟨p0, p1, a0, a1, hskip ⟨by decide, hpart⟩⟩,
      ?_, h3, h4⟩
    rw [hquad (fun h => absurd h.1 (by decide))]
    rfl

section claims20
variable {F : Type} [Zero F] [One F] [Add F] [Sub F] [Mul F] [Div F] [Neg F] [NatCast F]
  [IntCast F] [LT F] [DecidableRel (fun a b : F => a < b)] [CMath F]

/-- C20 as amended: `addSphere` stores `(rows + 1) * columns` of its sampled points, the last
write winning in column 0. For `rows ≥ 0`, `columns ≥ 1` with `rows * columns + columns` and
`columns + 1` `int` values, the sampling loop returns a grid of `(rows + 1) * columns`
entries in which, for every `row ≤ rows`, entry `row * columns + k` is `center + P(row, k)`
for `1 ≤ k < columns` and entry `row * columns + 0` is `center + P(row, columns)`; and a call
with the vertex output and its count requested returns exactly this grid with the count
`(rows + 1) * columns`. -/
theorem addSphere_grid (heap : Nat → Vec3 F) (c : Vec3 F) (rows cols : Nat) (hc : 1 ≤ cols)
    (hsize : (rows : Int) * (cols : Int) + (cols : Int) < 2 ^ 31)
    (hint : (cols : Int) + 1 < 2 ^ 31) (r : F) (t : Option (Mat4 F))
    (lmin lmax amin amax : F) :
    ∃ arr, sphereGrid heap c (rows : Int) (cols : Int) r t lmin lmax amin amax = .ok arr ∧
      arr.length = (rows + 1) * cols ∧
      (∀ row k, row ≤ rows → 1 ≤ k → k < cols → arr.get? (row * cols + k) =
        some (c + spherePoint (rows : Int) (cols : Int) r t lmin lmax amin amax row k)) ∧
      (∀ row, row ≤ rows → arr.get? (row * cols + 0) =
        some (c + spherePoint (rows : Int) (cols : Int) r t lmin lmax amin amax row cols)) ∧
      ∀ (col : Vec4 F) (w : World F), ∃ w',
        Gizmos.addSphere heap c (rows : Int) (cols : Int) r col t lmin lmax amin amax
          true true w =
          .ok (w', { vertexData := some arr, a_vertexCount := some ((rows + 1) * cols) }) := by
  obtain ⟨arr, hgrid, hlen, hent⟩ :=
    sphereGrid_spec heap c rows cols hc hint r t lmin lmax amin amax
  refine ⟨arr, hgrid, hlen, ?_, ?_, ?_⟩
  · intro row k hrow hk1 hk
    rw [hent row hrow k hk, if_neg (by omega)]
  · intro row hrow
    rw [hent row hrow 0 (by omega), if_pos rfl]
  · intro col w
    obtain ⟨arr2, w', hgrid2, -, hrun⟩ := addSphere_run heap c rows cols hc hsize hint r col t
      lmin lmax amin amax true true (fun _ => rfl) w
    rw [hgrid] at hgrid2
    cases hgrid2
    exact ⟨w', hrun⟩

end claims20

/-- Counterexample to C20 as stated, at two inputs with `rows ≥ 0` and `columns ≥ 1`. With
65535 rows and 65536 columns the product `a_rows * a_columns = 4294901760` in the array
length is not an `int` value, so no grid is defined. With 1 row, 2 columns, a vertex array
requested and a null count pointer, the count is stored through the null pointer. -/
theorem addSphere_grid_counterexample :
    ((0 : Int) ≤ 65535 ∧ (1 : Int) ≤ 65536 ∧
      Gizmos.addSphere sampleHeap ⟨0, 0, 0⟩ 65535 65536 1 vWhite none 0 360 (-90) 90
        true true (sampleWorld 16 16) = .error .intOverflow) ∧
    ((0 : Int) ≤ 1 ∧ (1 : Int) ≤ 2 ∧
      Gizmos.addSphere sampleHeap ⟨0, 0, 0⟩ 1 2 1 vWhite none 0 360 (-90) 90
        true false (sampleWorld 16 16) = .error .nullDeref) := by
  obtain ⟨arr, hgrid, -, -⟩ := sphereGrid_spec sampleHeap (⟨0, 0, 0⟩ : Vec3 ℚ) 1 2 (by decide)
    (by decide) 1 none 0 360 (-90) 90
  exact ⟨⟨by decide, by decide,
      addSphere_overflow sampleHeap ⟨0, 0, 0⟩ 65535 65536 1 vWhite none 0 360 (-90) 90
        true true (sampleWorld 16 16) (by decide)⟩,
    ⟨by decide, by decide,
      addSphere_null sampleHeap ⟨0, 0, 0⟩ 1 2 1 vWhite none 0 360 (-90) 90 (sampleWorld 16 16)
        arr (by decide) (by decide) (by decide) (by decide) hgrid⟩⟩

/-- Witness for C20 as amended: the grid of a sphere of 2 rows and 4 columns about the origin
with radius 1 and `longMax = 180`. Entry 4 (row 1, column 0) holds the sample of column 4,
which differs from the sample of column 0. -/
theorem addSphere_grid_witness :
    1 ≤ 4 ∧ ((2 : Nat) : Int) * ((4 : Nat) : Int) + ((4 : Nat) : Int) < 2 ^ 31 ∧
    ((4 : Nat) : Int) + 1 < 2 ^ 31 ∧
    ∃ arr, sphereGrid sampleHeap ⟨0, 0, 0⟩ ((2 : Nat) : Int) ((4 : Nat) : Int) 1 none
        0 180 (-90) 90 = .ok arr ∧ arr.length = 12 ∧
      arr.get? 4 = some ((⟨0, 0, 0⟩ : Vec3 ℚ) +
        spherePoint ((2 : Nat) : Int) ((4 : Nat) : Int) 1 none 0 180 (-90) 90 1 4) ∧
      spherePoint ((2 : Nat) : Int) ((4 : Nat) : Int) (1 : ℚ) none 0 180 (-90) 90 1 4 ≠
        spherePoint ((2 : Nat) : Int) ((4 : Nat) : Int) 1 none 0 180 (-90) 90 1 0 ∧
      ∃ w', Gizmos.addSphere sampleHeap ⟨0, 0, 0⟩ ((2 : Nat) : Int) ((4 : Nat) : Int) 1 vWhite
        none 0 180 (-90) 90 true true (sampleWorld 16 16) =
          .ok (w', { vertexData := some arr, a_vertexCount := some 12 }) := by
  refine ⟨by decide, by decide, by decide, ?_⟩
  obtain ⟨arr, h1, h2, -, h4, h5⟩ :=
    addSphere_grid sampleHeap (⟨0, 0, 0⟩ : Vec3 ℚ) 2 4 (by decide) (by decide) (by decide) 1
      none 0 180 (-90) 90
  refine ⟨arr, h1, h2, h4 1 (by decide), ?_, h5 vWhite (sampleWorld 16 16)⟩
  intro h
  have hx := congrArg Vec3.x h
  simp only [spherePoint, spherePointAt, CMath.sinf, CMath.cosf, CMath.sin, CMath.cos,
    CMath.pi] at hx
  norm_num at hx

end Framework
